import Mathlib

/-!
# Command-line arguments of the updater (`src/lib/arguments.c`, `src/pkgupdate/main.c`)

A shallow embedding of `cmd_args_parse` and of the functions it calls, of
`cmd_args_help`, of the backup of the arguments with `reexec`, and of the
function `main` of pkgupdate from its dispatch loop on, followed by theorems
about them.

Conventions of the embedding.

* A C string is a `String`; every `Char` of it stands for one C `char`.  The
  code only compares characters with ASCII constants, so nothing depends on
  the width of a character.  A `const char *` that may be `NULL` is an
  `Option String`.
* `argc` is the length of `argv`; `argv[i]` is `argv[i]?`, which is `none`
  (the `NULL` the C standard puts at `argv[argc]`) past the end.
* An array of `struct cmd_op` is a `List cmd_op`; cells that `realloc` hands
  out without initialising them hold the placeholder `uninit`.
* A function that can `return` from the middle of a loop, or die on an
  assertion, yields a `flow`.
* `getopt_long` belongs to the C library, not to this program.  It is
  embedded after the GNU implementation (`_getopt_internal_r` and
  `process_long_option`), for a first call in the process (`optind = 1`, no
  option cluster pending) and without `POSIXLY_CORRECT` in the environment,
  so that the argument vector is permuted.
* What a function writes to `stderr` is a list of texts, one for each call
  of `fputs`.  The static variables of the backup are a `backup` that is
  passed along; what `reexec` asks of the system is a list of `request`.
* The functions `main` of pkgupdate calls that are not among the sources
  are `collaborators`, a parameter; what `main` comes to is a `run`.
-/

namespace Updater

/-! ## Data model -/

/-- Modelled from the spec: `enum cmd_op_type` is declared in `arguments.h`,
which is not among the sources.  The constructors are the tags of the
specification's data model in the order it lists them, `COT_LAST` being the
sentinel that ends the enumeration. -/
inductive cmd_op_type where
  | COT_HELP
  | COT_JOURNAL_ABORT
  | COT_JOURNAL_RESUME
  | COT_INSTALL
  | COT_REMOVE
  | COT_ROOT_DIR
  | COT_BATCH
  | COT_STATE_LOG
  | COT_SYSLOG_LEVEL
  | COT_STDERR_LEVEL
  | COT_SYSLOG_NAME
  | COT_ASK_APPROVAL
  | COT_APPROVE
  | COT_REEXEC
  | COT_NO_OP
  | COT_ERR_MSG
  | COT_EXIT
  | COT_CRASH
  | COT_LAST
  deriving DecidableEq, Repr

open cmd_op_type

/-- Modelled from the spec: `struct cmd_op` is declared in `arguments.h`,
which is not among the sources.  The two members are the ones the code
initialises: `.type` and `.parameter`. -/
structure cmd_op where
  type : cmd_op_type
  parameter : Option String
  deriving DecidableEq, Repr

/-- The content of an array cell that was allocated but never written. -/
def uninit : cmd_op := ⟨COT_LAST, none⟩

/-- The C library's `realloc` on an array of `struct cmd_op`: the first
`n` cells keep their content, cells that are new are uninitialised. -/
def realloc (result : List cmd_op) (n : Nat) : List cmd_op :=
  result.take n ++ List.replicate (n - result.length) uninit

/-- The function `result_extend`: grow the array by one cell and store the
new operation in the last cell.  The pair is `(*count, *result)`. -/
def result_extend (count : Nat) (result : List cmd_op) (type : cmd_op_type)
    (param : Option String) : Nat × List cmd_op :=
  let count := count + 1
  let result := realloc result count
  (count, result.set (count - 1) ⟨type, param⟩)

/-- Outcome of a piece of code that may leave the enclosing function. -/
inductive flow (α : Type) where
  /-- an assertion failed, or an iteration bound of the embedding ran out -/
  | failed : flow α
  /-- the enclosing function returned this array -/
  | returned : List cmd_op → flow α
  /-- the loop goes on with this state -/
  | running : α → flow α
  /-- the loop condition became false in this state -/
  | finished : α → flow α
  deriving DecidableEq, Repr

/-! ## The C library's `getopt_long` -/

/-- The `struct option` of `getopt.h`, without the member `flag`, which the
table of this program leaves `NULL` everywhere.  `has_arg` is
`no_argument = 0` or `required_argument = 1`. -/
structure getopt_option where
  name : String
  has_arg : Nat
  val : Int
  deriving DecidableEq, Repr

/-- The state of the scanner: the argument vector (which `getopt_long`
permutes), `optind`, `optarg`, and the private `__nextchar` (the rest of the
option element being read, `[]` for `NULL` or the end of the element),
`__first_nonopt`, `__last_nonopt`. -/
structure getopt_data where
  argv : List String
  optind : Nat
  optarg : Option String
  nextchar : List Char
  first_nonopt : Nat
  last_nonopt : Nat
  deriving DecidableEq, Repr

/-- The code of a character as an `int`. -/
def chr (c : Char) : Int := Int.ofNat c.toNat

/-- The macro `NONOPTION_P` of getopt:
`argv[optind][0] != (char) 45 || argv[optind][1] == 0`. -/
def NONOPTION_P (s : String) : Bool :=
  match s.data with
  | '-' :: _ :: _ => false
  | _ => true

/-- The loop `while (optind < argc && NONOPTION_P) optind++`, run for at most
`n` rounds. -/
def skip_nonoptions (argv : List String) : Nat → Nat → Nat
  | 0, optind => optind
  | n + 1, optind =>
    match argv[optind]? with
    | some s => if NONOPTION_P s then skip_nonoptions argv n (optind + 1) else optind
    | none => optind

/-- The function `exchange` of getopt, by its effect: the non-options
`argv[first_nonopt .. last_nonopt)` and the options
`argv[last_nonopt .. optind)` that follow them change places, each block
keeping its order. -/
def exchange (d : getopt_data) : getopt_data :=
  let bottom := d.first_nonopt
  let middle := d.last_nonopt
  let top := d.optind
  { d with
    argv :=
      if top > middle ∧ middle > bottom then
        d.argv.take bottom ++ (d.argv.drop middle).take (top - middle)
          ++ (d.argv.drop bottom).take (middle - bottom) ++ d.argv.drop top
      else d.argv
    first_nonopt := d.first_nonopt + (d.optind - d.last_nonopt)
    last_nonopt := d.optind }

/-- The C library's `strchr (s, c)` read as the characters from the first
`c` on; `none` when `c` does not occur. -/
def strchr : List Char → Char → Option (List Char)
  | [], _ => none
  | x :: xs, c => if x = c then some (x :: xs) else strchr xs c

/-- The value getopt returns for a missing option argument: a colon when the
option string starts with one, a question mark otherwise. -/
def missing_code (optstring : String) : Int :=
  if optstring.data.head? = some ':' then chr ':' else chr '?'

/-- The two searches of `process_long_option` for the option called `name`:
an exact match first, then the abbreviations.  `some (some p)` is the entry
found, `some none` says that no entry matches, `none` that the abbreviation
is ambiguous (a second entry matches and differs from the first in `has_arg`
or `val`). -/
def find_long_option (longopts : List getopt_option) (name : List Char) :
    Option (Option getopt_option) :=
  match longopts.find? (fun p => p.name.data = name) with
  | some p => some (some p)
  | none =>
    match longopts.filter (fun p => name.isPrefixOf p.name.data) with
    | [] => some none
    | p :: ps =>
      if ps.any (fun q => p.has_arg ≠ q.has_arg ∨ p.val ≠ q.val) then none
      else some (some p)

/-- The function `process_long_option` of getopt, entered with `nextchar`
holding the text after the two dashes. -/
def process_long_option (optstring : String) (longopts : List getopt_option)
    (d : getopt_data) : Int × getopt_data :=
  let argc := d.argv.length
  let name := d.nextchar.takeWhile (fun c => c ≠ '=')
  let nameend := d.nextchar.dropWhile (fun c => c ≠ '=')
  match find_long_option longopts name with
  | none =>
    -- ambiguous abbreviation
    (chr '?', { d with nextchar := [], optind := d.optind + 1 })
  | some none =>
    -- no such long option
    (chr '?', { d with nextchar := [], optind := d.optind + 1 })
  | some (some p) =>
    let d := { d with optind := d.optind + 1, nextchar := [] }
    match nameend with
    | _ :: value =>
      if p.has_arg ≠ 0 then (p.val, { d with optarg := some (String.mk value) })
      else (chr '?', d)
    | [] =>
      if p.has_arg = 1 then
        if d.optind < argc then
          (p.val, { d with optarg := d.argv[d.optind]?, optind := d.optind + 1 })
        else (missing_code optstring, d)
      else (p.val, d)

/-- The last part of `_getopt_internal_r`: look at and handle the next short
option character.  (The clause for an option string holding `W;` is left
out: the option string of this program has no `W`.) -/
def short_option (optstring : String) (d : getopt_data) : Int × getopt_data :=
  let argc := d.argv.length
  match d.nextchar with
  | [] => (chr '?', d)
  | c :: rest =>
    let d := { d with nextchar := rest }
    let d := if rest = [] then { d with optind := d.optind + 1 } else d
    match strchr optstring.data c with
    | none => (chr '?', d)
    | some temp =>
      if c = ':' ∨ c = ';' then (chr '?', d)
      else if temp[1]? = some ':' then
        if temp[2]? = some ':' then
          -- an option that accepts an argument optionally
          if rest ≠ [] then
            (chr c, { d with optarg := some (String.mk rest), optind := d.optind + 1,
                             nextchar := [] })
          else (chr c, { d with optarg := none, nextchar := [] })
        else
          -- an option that requires an argument
          if rest ≠ [] then
            (chr c, { d with optarg := some (String.mk rest), optind := d.optind + 1,
                             nextchar := [] })
          else if d.optind = argc then
            (missing_code optstring, { d with nextchar := [] })
          else
            (chr c, { d with optarg := d.argv[d.optind]?, optind := d.optind + 1,
                             nextchar := [] })
      else (chr c, d)

/-- The first part of `_getopt_internal_r`, run when no option element is
being read.  Step one: if options were met after non-options were skipped,
bring these options before those non-options. -/
def getopt_permute (d : getopt_data) : getopt_data :=
  let d := { d with last_nonopt := min d.last_nonopt d.optind }
  let d := { d with first_nonopt := min d.first_nonopt d.optind }
  if d.first_nonopt ≠ d.last_nonopt ∧ d.last_nonopt ≠ d.optind then exchange d
  else if d.last_nonopt ≠ d.optind then { d with first_nonopt := d.optind }
  else d

/-- Step two: skip the non-options that come next and extend the range of
the non-options skipped. -/
def getopt_skip (d : getopt_data) : getopt_data :=
  let d := { d with optind := skip_nonoptions d.argv (d.argv.length - d.optind) d.optind }
  { d with last_nonopt := d.optind }

/-- Step three: the element `--` ends the options; it is skipped like an
option and everything after it is a non-option. -/
def getopt_dashdash (d : getopt_data) : getopt_data :=
  let argc := d.argv.length
  if d.optind ≠ argc ∧ d.argv[d.optind]? = some "--" then
    let d := { d with optind := d.optind + 1 }
    let d :=
      if d.first_nonopt ≠ d.last_nonopt ∧ d.last_nonopt ≠ d.optind then exchange d
      else if d.first_nonopt = d.last_nonopt then { d with first_nonopt := d.optind }
      else d
    { d with last_nonopt := argc, optind := argc }
  else d

/-- The three steps that precede the reading of an option element. -/
def getopt_advance (d : getopt_data) : getopt_data :=
  getopt_dashdash (getopt_skip (getopt_permute d))

/-- The middle part of `_getopt_internal_r`, after the three steps above:
stop when all elements are done, else start to read the element
`argv[optind]`. -/
def getopt_read (optstring : String) (longopts : List getopt_option)
    (d : getopt_data) : Int × getopt_data :=
  let argc := d.argv.length
  if d.optind = argc then
    -- all elements done: back over the non-options that were skipped
    (-1, if d.first_nonopt ≠ d.last_nonopt then { d with optind := d.first_nonopt } else d)
  else
    match d.argv[d.optind]? with
    | none => (-1, d)
    | some s =>
      if NONOPTION_P s then
        -- only met when the elements are returned in order
        (1, { d with optarg := some s, optind := d.optind + 1 })
      else
        match s.data with
        | _ :: '-' :: rest => process_long_option optstring longopts { d with nextchar := rest }
        | _ :: rest => short_option optstring { d with nextchar := rest }
        | [] => (-1, d)

/-- One call of `getopt_long (argc, argv, optstring, longopts, &ilongopt)`:
the returned value and the state it leaves. -/
def getopt_long (optstring : String) (longopts : List getopt_option)
    (d : getopt_data) : Int × getopt_data :=
  let argc := d.argv.length
  if argc < 1 then (-1, d)
  else
    let d := { d with optarg := none }
    if d.nextchar = [] then getopt_read optstring longopts (getopt_advance d)
    else short_option optstring d

/-! ## The parser -/

/-- The option string handed to `getopt_long`. -/
def optstring : String := ":hbja:r:R:s:e:S:"

/-- The values of `enum option_val`. -/
def OPT_BATCH_VAL : Int := 260
def OPT_STATE_LOG_VAL : Int := 261
def OPT_REEXEC_VAL : Int := 262
def OPT_ASK_APPROVAL_VAL : Int := 263
def OPT_APPROVE_VAL : Int := 264

/-- The table `opt_long`, without its terminating entry. -/
def opt_long : List getopt_option :=
  [ ⟨"help", 0, chr 'h'⟩,
    ⟨"journal", 0, chr 'j'⟩,
    ⟨"abort", 0, chr 'b'⟩,
    ⟨"add", 1, chr 'a'⟩,
    ⟨"remove", 1, chr 'r'⟩,
    ⟨"batch", 0, OPT_BATCH_VAL⟩,
    ⟨"reexec", 0, OPT_REEXEC_VAL⟩,
    ⟨"state-log", 0, OPT_STATE_LOG_VAL⟩,
    ⟨"ask-approval", 0, OPT_ASK_APPROVAL_VAL⟩,
    ⟨"approve", 1, OPT_APPROVE_VAL⟩ ]

/-- The loop of `cmd_arg_crash` that stores the messages:
`result[i] = ERR_MSG (next message)` from index `i` on. -/
def crash_loop : List (Option String) → Nat → List cmd_op → List cmd_op
  | [], _, result => result
  | m :: ms, i, result => crash_loop ms (i + 1) (result.set i ⟨COT_ERR_MSG, m⟩)

/-- The function `cmd_arg_crash (result, errcount, ...)`; the variable
arguments are the list `msgs`, `errcount` is its length. -/
def cmd_arg_crash (result : List cmd_op) (msgs : List (Option String)) : List cmd_op :=
  let errcount := msgs.length
  let result := realloc result (2 + errcount)
  let result := crash_loop msgs 0 result
  let result := result.set errcount ⟨COT_HELP, none⟩
  result.set (errcount + 1) ⟨COT_CRASH, none⟩

/-- The function `cmd_unrecognized (result, opt)`. -/
def cmd_unrecognized (result : List cmd_op) (opt : Option String) : List cmd_op :=
  cmd_arg_crash result [some "Unrecognized option ", opt, some "\n"]

/-- The loop of `cmd_op_accepts_map`: mark every entry of the array up to
the first `COT_LAST`.  (A well-formed array holds a `COT_LAST`; a list
without one is read to its end.) -/
def accepts_loop : List cmd_op_type → (cmd_op_type → Bool) → (cmd_op_type → Bool)
  | [], map => map
  | a :: rest, map =>
    if a = COT_LAST then map else accepts_loop rest (Function.update map a true)

/-- The function `cmd_op_accepts_map`; the array `map` is a function on the
tags. -/
def cmd_op_accepts_map (accepts : List cmd_op_type) : cmd_op_type → Bool :=
  let map := accepts_loop accepts (fun _ => false)
  let map := Function.update map COT_HELP true
  let map := Function.update map COT_CRASH true
  Function.update map COT_EXIT true

/-- The local variables of `cmd_args_parse` together with the state of
getopt. -/
structure parse_state where
  res_count : Nat
  result : List cmd_op
  exclusive_cmd : Bool
  install_remove : Bool
  d : getopt_data
  deriving DecidableEq, Repr

/-- The statement `result_extend (&res_count, &result, type, param)`. -/
def parse_state.extend (s : parse_state) (type : cmd_op_type) (param : Option String) :
    parse_state :=
  let r := result_extend s.res_count s.result type param
  { s with res_count := r.1, result := r.2 }

/-- A case of the `switch` that starts with `ASSERT(optarg)`. -/
def with_optarg (s : parse_state) (k : Option String → parse_state) : flow parse_state :=
  match s.d.optarg with
  | none => .failed
  | some a => .running (k (some a))

/-- The `switch (c)` in the option loop of `cmd_args_parse`. -/
def option_switch (c : Int) (s : parse_state) : flow parse_state :=
  if c = chr 'h' then
    .running ({ s with exclusive_cmd := true }.extend COT_HELP none)
  else if c = chr ':' then
    .returned (cmd_arg_crash s.result
      [some "Missing additional argument for ", s.d.argv[s.d.optind - 1]?, some "\n"])
  else if c = chr '?' then
    .returned (cmd_unrecognized s.result s.d.argv[s.d.optind - 1]?)
  else if c = chr 'j' then
    .running ({ s with exclusive_cmd := true }.extend COT_JOURNAL_RESUME none)
  else if c = chr 'b' then
    .running ({ s with exclusive_cmd := true }.extend COT_JOURNAL_ABORT none)
  else if c = chr 'a' then
    with_optarg s (fun a => { s with install_remove := true }.extend COT_INSTALL a)
  else if c = chr 'r' then
    with_optarg s (fun a => { s with install_remove := true }.extend COT_REMOVE a)
  else if c = chr 'R' then
    with_optarg s (fun a => s.extend COT_ROOT_DIR a)
  else if c = chr 's' then
    with_optarg s (fun a => s.extend COT_SYSLOG_LEVEL a)
  else if c = chr 'S' then
    with_optarg s (fun a => s.extend COT_SYSLOG_NAME a)
  else if c = chr 'e' then
    with_optarg s (fun a => s.extend COT_STDERR_LEVEL a)
  else if c = OPT_BATCH_VAL then
    .running (s.extend COT_BATCH none)
  else if c = OPT_REEXEC_VAL then
    .running (s.extend COT_REEXEC none)
  else if c = OPT_STATE_LOG_VAL then
    .running (s.extend COT_STATE_LOG none)
  else if c = OPT_ASK_APPROVAL_VAL then
    .running (s.extend COT_ASK_APPROVAL none)
  else if c = OPT_APPROVE_VAL then
    .running (s.extend COT_APPROVE s.d.optarg)
  else .failed

/-- One round of the option loop: the call of `getopt_long` in the loop
condition, the `switch`, and the check of the new operation against the
whitelist. -/
def scan_body (accepts_map : cmd_op_type → Bool) (s : parse_state) : flow parse_state :=
  let g := getopt_long optstring opt_long s.d
  let s := { s with d := g.2 }
  if g.1 = -1 then .finished s
  else
    match option_switch g.1 s with
    | .running s =>
      if !accepts_map (s.result.getD (s.res_count - 1) uninit).type then
        .returned (cmd_unrecognized s.result s.d.argv[s.d.optind - 1]?)
      else .running s
    | other => other

/-- The option loop `while ((c = getopt_long (...)) != -1)`, for at most
`fuel` rounds. -/
def scan_options (accepts_map : cmd_op_type → Bool) : Nat → parse_state → flow parse_state
  | 0, _ => .failed
  | fuel + 1, s =>
    match scan_body accepts_map s with
    | .running s => scan_options accepts_map fuel s
    | other => other

/-- The loop `for (; optind < argc; optind++)` over the non-option
arguments, for at most `n` rounds. -/
def scan_nonoptions (accepts_map : cmd_op_type → Bool) : Nat → parse_state → flow parse_state
  | 0, s => .finished s
  | n + 1, s =>
    if s.d.optind < s.d.argv.length then
      if !accepts_map COT_NO_OP then
        .returned (cmd_unrecognized s.result s.d.argv[s.d.optind]?)
      else
        let s := s.extend COT_NO_OP s.d.argv[s.d.optind]?
        scan_nonoptions accepts_map n { s with d := { s.d with optind := s.d.optind + 1 } }
    else .finished s

/-- The tags of the `case` labels in the loop that moves the settings to
the front. -/
def is_setting : cmd_op_type → Bool
  | COT_ROOT_DIR => true
  | COT_BATCH => true
  | COT_REEXEC => true
  | COT_STATE_LOG => true
  | COT_SYSLOG_LEVEL => true
  | COT_STDERR_LEVEL => true
  | COT_SYSLOG_NAME => true
  | COT_ASK_APPROVAL => true
  | COT_APPROVE => true
  | _ => false

/-- The loop `for (size_t j = i; j > set_pos; j --) result[j] = result[j - 1]`,
entered with `j`. -/
def shift_loop (set_pos : Nat) : Nat → List cmd_op → List cmd_op
  | 0, result => result
  | j + 1, result =>
    if j + 1 > set_pos then
      shift_loop set_pos j (result.set (j + 1) (result.getD j uninit))
    else result

/-- The loop `for (size_t i = 0; i < res_count; i ++)` that moves the
settings to the front, entered with `i` and `set_pos`, for at most `n`
rounds.  The pair is `(result, set_pos)`. -/
def move_settings (res_count : Nat) : Nat → Nat → Nat → List cmd_op → List cmd_op × Nat
  | 0, _, set_pos, result => (result, set_pos)
  | n + 1, i, set_pos, result =>
    if i < res_count then
      if is_setting (result.getD i uninit).type then
        let tmp := result.getD i uninit
        let result := shift_loop set_pos i result
        move_settings res_count n (i + 1) (set_pos + 1) (result.set set_pos tmp)
      else move_settings res_count n (i + 1) set_pos result
    else (result, set_pos)

/-- The state of getopt after `optind = 1` on entry of `cmd_args_parse`. -/
def getopt_start (argv : List String) : getopt_data :=
  { argv := argv, optind := 1, optarg := none, nextchar := [],
    first_nonopt := 1, last_nonopt := 1 }

/-- The local variables of `cmd_args_parse` before the option loop. -/
def parse_start (argv : List String) : parse_state :=
  { res_count := 0, result := [], exclusive_cmd := false, install_remove := false,
    d := getopt_start argv }

/-- A number of rounds no scan of `argv` exceeds: every round of the option
loop consumes a character or an element. -/
def scan_fuel (argv : List String) : Nat :=
  (argv.map (fun a => a.length + 1)).sum + 1

/-- The two scanning loops of `cmd_args_parse`: options, then non-options. -/
def scan (argv : List String) (accepts_map : cmd_op_type → Bool) : flow parse_state :=
  match scan_options accepts_map (scan_fuel argv) (parse_start argv) with
  | .finished s => scan_nonoptions accepts_map (s.d.argv.length - s.d.optind) s
  | other => other

/-- The end of `cmd_args_parse`, from the comment `Move settings options to
the front` on. -/
def finish (s : parse_state) : List cmd_op :=
  let m := move_settings s.res_count s.res_count 0 0 s.result
  let result := m.1
  let set_pos := m.2
  if s.exclusive_cmd ∧ (s.res_count - set_pos ≠ 1 ∨ s.install_remove) then
    cmd_arg_crash result [some "Incompatible commands\n"]
  else (result_extend s.res_count result COT_EXIT none).2

/-- The function `cmd_args_parse (argc, argv, accepts)`; `none` when an
assertion fails. -/
def cmd_args_parse (argv : List String) (accepts : List cmd_op_type) : Option (List cmd_op) :=
  match scan argv (cmd_op_accepts_map accepts) with
  | .finished s => some (finish s)
  | .returned r => some r
  | _ => none

/-! ## The help texts -/

/-- The table `opt_help`: the help text of a tag, `none` where the table
holds a null pointer. -/
def opt_help : cmd_op_type → Option String
  | COT_HELP => some "--help, -h\t\t\tPrints this text.\n"
  | COT_JOURNAL_ABORT =>
    some "--abort, -b\t\t\tAbort interrupted work in the journal and clean.\n"
  | COT_JOURNAL_RESUME =>
    some "--journal, -j\t\t\tRecover from a crash/reboot from a journal.\n"
  | COT_INSTALL =>
    some ("--add, -a <file>\t\tInstall package. Additional argument must be path\n"
      ++ "\t\t\t\tto downloaded package file.\n")
  | COT_REMOVE =>
    some ("--remove, -r <package>\t\tRemove package. Additional argument is expected to\n"
      ++ "\t\t\t\tbe name of the package.\n")
  | COT_ROOT_DIR => some "-R <path>\t\t\tUse given path as a root directory.\n"
  | COT_BATCH => some "--batch\t\t\tRun without user confirmation.\n"
  | COT_STATE_LOG =>
    some "--state-log\t\t\tDump state to files in /etc/updater-state directory.\n"
  | COT_SYSLOG_LEVEL => some "-s <syslog-level>\t\tWhat level of messages to send to syslog.\n"
  | COT_STDERR_LEVEL => some "-e <stderr-level>\t\tWhat level of messages to send to stderr.\n"
  | COT_SYSLOG_NAME =>
    some "-S <syslog-name>\t\tUnder which name messages are send to syslog.\n"
  | COT_ASK_APPROVAL =>
    some ("--ask-approval\t\t\tRequire user\x27s approval to proceed "
      ++ "(abort if --approve with appropriate ID is not present)\n")
  | COT_APPROVE => some "--approve=<id>\t\t\tApprove actions with given ID (multiple allowed).\n"
  | _ => none

/-- Modelled from the spec: the tags in the order of `enum cmd_op_type`, up
to `COT_LAST`: the values the index of the loop of `cmd_args_help` takes.
The header that declares the enumeration is not among the sources; the
order is that of the data model of the specification. -/
def cmd_op_types : List cmd_op_type :=
  [COT_HELP, COT_JOURNAL_ABORT, COT_JOURNAL_RESUME, COT_INSTALL, COT_REMOVE, COT_ROOT_DIR,
   COT_BATCH, COT_STATE_LOG, COT_SYSLOG_LEVEL, COT_STDERR_LEVEL, COT_SYSLOG_NAME,
   COT_ASK_APPROVAL, COT_APPROVE, COT_REEXEC, COT_NO_OP, COT_ERR_MSG, COT_EXIT, COT_CRASH]

/-- The loop of `cmd_args_help` over the tags `tags`: `out` is what has been
written to `stderr`, one entry for each call of `fputs`. -/
def help_loop (accepts_map : cmd_op_type → Bool) :
    List cmd_op_type → List String → List String
  | [], out => out
  | i :: tags, out =>
    match accepts_map i, opt_help i with
    | true, some text => help_loop accepts_map tags (out ++ [text])
    | _, _ => help_loop accepts_map tags out

/-- The function `cmd_args_help (accepts)`: the texts it writes to `stderr`,
in the order of the calls of `fputs`. -/
def cmd_args_help (accepts : List cmd_op_type) : List String :=
  help_loop (cmd_op_accepts_map accepts) cmd_op_types []

/-! ## The backup of the arguments and the re-execution -/

/-- A character buffer from `realloc`: its size and, when a call has filled
it, the string it holds. -/
structure buffer where
  size : Nat
  text : Option String
  deriving DecidableEq, Repr

/-- The static variables `back_argc`, `back_argv` and `orig_wd`; a null
pointer is `none`.  An element of `back_argv` is a string or the null
pointer. -/
structure backup where
  back_argc : Nat
  back_argv : Option (List (Option String))
  orig_wd : Option buffer
  deriving DecidableEq, Repr

/-- The static variables when the program starts: all zero. -/
def backup_initial : backup := { back_argc := 0, back_argv := none, orig_wd := none }

/-- The call `getcwd (buf, size)` of the C library in a process whose working
directory is `cwd`, `none` when the directory cannot be determined.  The pair
is the string written to the buffer, `none` when the call returns the null
pointer, and whether `errno` is then `ERANGE`: the call fails with `ERANGE`
when the path and its terminating zero do not fit in `size` bytes. -/
def getcwd (cwd : Option String) (size : Nat) : Option String × Bool :=
  match cwd with
  | none => (none, false)
  | some wd => if wd.length + 1 ≤ size then (some wd, false) else (none, true)

/-- The loop `do ... while (result == NULL && errno == ERANGE)` of
`args_backup`, entered with the size `s`, for at most `fuel` rounds; the
result is `orig_wd` when the loop is left. -/
def getcwd_loop (cwd : Option String) : Nat → Nat → Option buffer
  | 0, _ => none
  | fuel + 1, s =>
    let s := s + 128
    let result := getcwd cwd s
    if result.1 = none ∧ result.2 = true then getcwd_loop cwd fuel s
    else some { size := s, text := result.1 }

/-- A number of rounds the loop of `args_backup` does not exceed: the buffer
grows by 128 bytes in each round. -/
def getcwd_fuel (cwd : Option String) : Nat :=
  match cwd with
  | none => 1
  | some wd => wd.length / 128 + 1

/-- The function `args_backup (argc, argv)` in a process whose working
directory is `cwd`; `argc` is the length of `argv`.  The static variables
before the call do not matter: all three are overwritten. -/
def args_backup (cwd : Option String) (argv : List String) (_ : backup) : backup :=
  { back_argc := argv.length
    back_argv := some (argv.map some ++ [none])
    orig_wd := getcwd_loop cwd (getcwd_fuel cwd) 0 }

/-- The function `arg_backup_clear`. -/
def arg_backup_clear (_ : backup) : backup :=
  { back_argc := 0, back_argv := none, orig_wd := none }

/-- What `reexec` asks of the system, in the order of the calls. -/
inductive request
  | chdir (path : Option String)
  | execvp (file : Option String) (argv : List (Option String))
  | die (text : List (Option String))
  deriving DecidableEq, Repr

/-- Modelled from the spec: the macro `DIE` of `util.h`, which is not among
the sources, terminates the process with a diagnostic; the diagnostic is
kept as the pieces of its text. -/
def DIE (text : List (Option String)) : List request := [.die text]

/-- Modelled from the spec: the macro `ASSERT_MSG (cond, ...)` of `util.h`
is `DIE` when the condition does not hold; `rest` is what follows it. -/
def ASSERT_MSG (cond : Bool) (text : List (Option String)) (rest : List request) :
    List request :=
  if cond then rest else DIE text

/-- The function `reexec`.  `execvp` returns only when it fails; `exec_error`
is then the text `strerror (errno)`, and `none` when the process image is
replaced. -/
def reexec (b : backup) (exec_error : Option String) : List request :=
  ASSERT_MSG b.back_argv.isSome [some "No arguments backed up"]
    (let back_argv := b.back_argv.getD []
     let wd : List request :=
       match b.orig_wd with
       | some buf => [.chdir buf.text]
       | none => []
     let argv := back_argv.take b.back_argc ++ [some "--reexec", none]
     wd ++ [.execvp (argv.headD none) argv]
       ++ (match exec_error with
           | none => []
           | some e => DIE [some "Failed to reexec ", argv.headD none, some ": ", some e]))

/-! ## The function `main` of pkgupdate -/

/-- The array `cmd_op_allows` of pkgupdate. -/
def cmd_op_allows : List cmd_op_type :=
  [COT_BATCH, COT_NO_OP, COT_ROOT_DIR, COT_SYSLOG_LEVEL, COT_STDERR_LEVEL, COT_SYSLOG_NAME,
   COT_LAST]

/-- What `main` does that is seen outside: the texts written to `stderr` and
the calls that change the collaborators. -/
inductive event
  | fputs (text : Option String)
  | root_dir_set (dir : Option String)
  | log_syslog_level (level : Nat)
  | log_syslog_name (name : Option String)
  | log_stderr_level (level : Nat)
  deriving DecidableEq, Repr

/-- The function `print_help` of pkgupdate. -/
def print_help : List event :=
  .fputs (some "Usage: updater [OPTION]... TOP_LEVEL_CONFIG\n")
    :: (cmd_args_help cmd_op_allows).map (fun text => .fputs (some text))

/-- Modelled from the spec: the functions `main` calls that are not among the
sources, as far as their results decide what `main` does.  `root_dir_set` is
the error `interpreter_call` returns for `backend.root_dir_set`, `none` when
there is none; `log_level_get` is the level of a name, `none` for
`LL_UNKNOWN`; `transaction` is the block that prepares and performs the
transaction for a configuration and the flag `batch`: the value of
`trans_ok`, `none` when one of its `ASSERT_MSG` ends the process. -/
structure collaborators where
  root_dir_set : Option String → Option String
  log_level_get : Option String → Option Nat
  transaction : Option String → Bool → Option Bool

/-- The local variables of `main`: the array `ops`, the index of the pointer
`op` in it, and what has been done so far. -/
structure main_state where
  ops : List cmd_op
  op : Nat
  top_level_config : Option String
  batch : Bool
  early_exit : Bool
  out : List event
  deriving DecidableEq, Repr

/-- How a part of `main` ends: out of fuel, the process dead in an
`ASSERT_MSG`, in `assert (0)`, in an access outside the array, the `switch`
left to go on with the loop, the part left. -/
inductive run (α : Type)
  | unfinished
  | died (text : List (Option String))
  | assertion
  | outside
  | next (a : α)
  | left (a : α)
  deriving DecidableEq, Repr

/-- The `switch (op->type)` in the loop of `main`, on the element `o` the
pointer `op` points to. -/
def dispatch (env : collaborators) (s : main_state) (o : cmd_op) : run main_state :=
  match o.type with
  | COT_HELP => .next { s with out := s.out ++ print_help, early_exit := true }
  | COT_ERR_MSG => .next { s with out := s.out ++ [.fputs o.parameter] }
  | COT_NO_OP =>
    if s.top_level_config.isSome then
      match s.ops[s.op + 1]? with
      | none => .outside
      | some o1 =>
        .next { s with
          out := s.out
            ++ [.fputs (some "More than one top level config given. This is not supported\n")]
            ++ print_help
          ops := s.ops.set (s.op + 1) { o1 with type := COT_CRASH } }
    else .next { s with top_level_config := o.parameter }
  | COT_BATCH => .next { s with batch := true }
  | COT_ROOT_DIR =>
    match env.root_dir_set o.parameter with
    | some err => .died [some err]
    | none => .next { s with out := s.out ++ [.root_dir_set o.parameter] }
  | COT_SYSLOG_LEVEL =>
    match env.log_level_get o.parameter with
    | none => .died [some "Unknown log level ", o.parameter]
    | some level => .next { s with out := s.out ++ [.log_syslog_level level] }
  | COT_SYSLOG_NAME => .next { s with out := s.out ++ [.log_syslog_name o.parameter] }
  | COT_STDERR_LEVEL =>
    match env.log_level_get o.parameter with
    | none => .died [some "Unknown log level ", o.parameter]
    | some level => .next { s with out := s.out ++ [.log_stderr_level level] }
  | _ => .assertion

/-- The loop `for (; op->type != COT_EXIT && op->type != COT_CRASH; op ++)`
of `main`, for at most `fuel` rounds. -/
def main_loop (env : collaborators) : Nat → main_state → run main_state
  | 0, _ => .unfinished
  | fuel + 1, s =>
    match s.ops[s.op]? with
    | none => .outside
    | some o =>
      if o.type ≠ COT_EXIT ∧ o.type ≠ COT_CRASH then
        match dispatch env s o with
        | .next s => main_loop env fuel { s with op := s.op + 1 }
        | other => other
      else .left s

/-- The local variables of `main` before the loop, `ops` being what
`cmd_args_parse` returned. -/
def main_start (ops : List cmd_op) : main_state :=
  { ops := ops, op := 0, top_level_config := none, batch := false, early_exit := false,
    out := [] }

/-- What `main` has decided when it returns: the tag `exit_type`, the
configuration, what it has written and called, and the value it returns. -/
structure main_result where
  exit_type : cmd_op_type
  top_level_config : Option String
  out : List event
  code : Nat
  deriving DecidableEq, Repr

/-- The function `main` after the loop: the check that a configuration was
given, the transaction, the value returned. -/
def main_tail (env : collaborators) (s : main_state) : run main_result :=
  match s.ops[s.op]? with
  | none => .outside
  | some o =>
    let s :=
      if o.type = COT_EXIT ∧ s.early_exit = false ∧ s.top_level_config = none then
        { s with
          out := s.out ++ [.fputs (some "No top level config given, please provide one.\n")]
            ++ print_help
          ops := s.ops.set s.op { o with type := COT_CRASH } }
      else s
    let exit_type := (s.ops.getD s.op uninit).type
    if exit_type = COT_EXIT ∧ s.early_exit = false then
      match env.transaction s.top_level_config s.batch with
      | none => .died []
      | some trans_ok =>
        .left ⟨exit_type, s.top_level_config, s.out, if trans_ok then 0 else 2⟩
    else .left ⟨exit_type, s.top_level_config, s.out, if exit_type = COT_EXIT then 0 else 1⟩

/-- The function `main` of pkgupdate from the loop on, `ops` being what
`cmd_args_parse` returned: a loop over an array of `n` elements takes at
most `n` rounds. -/
def main_dispatch (env : collaborators) (ops : List cmd_op) : run main_result :=
  match main_loop env (ops.length + 1) (main_start ops) with
  | .left s => main_tail env s
  | .next _ => .unfinished
  | .unfinished => .unfinished
  | .died text => .died text
  | .assertion => .assertion
  | .outside => .outside

/-! ## Vocabulary of the statements and of the proofs -/

/-- The weight of a list of arguments: their characters and one more for
each of them. -/
def weight (l : List String) : Nat := (l.map (fun a => a.length + 1)).sum

/-- What is left to scan: the rest of the element being read and the
elements after it. -/
def scan_measure (d : getopt_data) : Nat :=
  if d.nextchar = [] then weight (d.argv.drop d.optind)
  else weight (d.argv.drop (d.optind + 1)) + d.nextchar.length

/-- The indices of the scanner are in order and inside the vector, and an
element is being read only if there is one. -/
structure GInv (d : getopt_data) : Prop where
  pos : 1 ≤ d.optind
  le : d.optind ≤ d.argv.length
  fl : d.first_nonopt ≤ d.last_nonopt
  lo : d.last_nonopt ≤ d.optind
  nc : d.nextchar ≠ [] → d.optind < d.argv.length

/-- What the steps before the reading of an element guarantee. -/
structure Advanced (d a : getopt_data) : Prop where
  len : a.argv.length = d.argv.length
  ge : d.optind ≤ a.optind
  le : a.optind ≤ a.argv.length
  fl : a.first_nonopt ≤ a.last_nonopt
  lo : a.last_nonopt ≤ a.optind
  suffix : a.argv.drop a.optind = d.argv.drop a.optind
  nc : a.nextchar = d.nextchar
  stop : a.optind < a.argv.length → ∃ s, a.argv[a.optind]? = some s ∧ NONOPTION_P s = false

/-- The values `getopt_long` returns for the options without an argument. -/
def noarg_codes : List Int :=
  [chr 'h', chr 'j', chr 'b', OPT_BATCH_VAL, OPT_REEXEC_VAL, OPT_STATE_LOG_VAL,
   OPT_ASK_APPROVAL_VAL]

/-- The values `getopt_long` returns for the options with an argument. -/
def arg_codes : List Int :=
  [chr 'a', chr 'r', chr 'R', chr 's', chr 'S', chr 'e', OPT_APPROVE_VAL]

/-- What `getopt_long` returns when it has read an option: an error code, or
the code of an option, with `optarg` set when the option takes an argument. -/
def RetOK (c : Int) (d : getopt_data) : Prop :=
  c = chr '?' ∨ c = chr ':' ∨ c ∈ noarg_codes ∨ (c ∈ arg_codes ∧ d.optarg.isSome = true)

/-- The state `r` follows from the state `d` by the reading of one option:
the vector is the same, and either the same element is still being read and
has fewer characters left, or the scanner is past it. -/
structure Read (d r : getopt_data) : Prop where
  argv : r.argv = d.argv
  first : r.first_nonopt = d.first_nonopt
  last : r.last_nonopt = d.last_nonopt
  adv : (r.nextchar ≠ [] ∧ r.optind = d.optind ∧ r.nextchar.length < d.nextchar.length)
    ∨ (r.nextchar = [] ∧ d.optind < r.optind ∧ r.optind ≤ d.argv.length)

/-- The exclusive commands: the tags whose `case` sets `exclusive_cmd`. -/
def is_exclusive : cmd_op_type → Bool
  | COT_HELP => true
  | COT_JOURNAL_ABORT => true
  | COT_JOURNAL_RESUME => true
  | _ => false

/-- The tags whose `case` sets `install_remove`. -/
def is_install_remove : cmd_op_type → Bool
  | COT_INSTALL => true
  | COT_REMOVE => true
  | _ => false

/-- The tags for which the data model of the specification says that the
parameter is present. -/
def needs_param : cmd_op_type → Bool
  | COT_INSTALL => true
  | COT_REMOVE => true
  | COT_ROOT_DIR => true
  | COT_SYSLOG_LEVEL => true
  | COT_STDERR_LEVEL => true
  | COT_SYSLOG_NAME => true
  | COT_APPROVE => true
  | COT_NO_OP => true
  | COT_ERR_MSG => true
  | _ => false

/-- The tags of the operations that stand for an argument: everything but
the messages, the two terminal markers and the sentinel. -/
def is_scanned : cmd_op_type → Bool
  | COT_ERR_MSG => false
  | COT_EXIT => false
  | COT_CRASH => false
  | COT_LAST => false
  | _ => true

/-- A crash sequence: one or more messages, then `HELP`, then `CRASH`. -/
def IsCrash (r : List cmd_op) : Prop :=
  ∃ msgs : List String, msgs ≠ [] ∧
    r = msgs.map (fun m => ⟨COT_ERR_MSG, some m⟩) ++ [⟨COT_HELP, none⟩, ⟨COT_CRASH, none⟩]

/-- The state `s` extended by one operation of tag `t`, the two flags
following the tag. -/
def appended (s : parse_state) (t : cmd_op_type) (p : Option String) : parse_state :=
  { s with
    res_count := s.result.length + 1
    result := s.result ++ [⟨t, p⟩]
    exclusive_cmd := s.exclusive_cmd || is_exclusive t
    install_remove := s.install_remove || is_install_remove t }

/-- An operation that stands for an argument: its tag is accepted, and its
parameter is present exactly when the tag takes one. -/
structure OpOK (map : cmd_op_type → Bool) (op : cmd_op) : Prop where
  acc : map op.type = true
  tag : is_scanned op.type = true
  par : op.parameter.isSome = needs_param op.type

/-- The invariant of the two scanning loops on the array and the flags. -/
structure RInv (map : cmd_op_type → Bool) (s : parse_state) : Prop where
  cnt : s.res_count = s.result.length
  ops : ∀ op ∈ s.result, OpOK map op
  excl : s.exclusive_cmd = s.result.any (fun o => is_exclusive o.type)
  ir : s.install_remove = s.result.any (fun o => is_install_remove o.type)

/-- The tags the option loop accepts: those of the membership map, but not
`COT_NO_OP`, which no option stands for. -/
def option_tags (map : cmd_op_type → Bool) : cmd_op_type → Bool :=
  fun t => map t && (t != COT_NO_OP)

/-- What one round of the option loop guarantees, started in the state `s`. -/
def BodyPost (map : cmd_op_type → Bool) (s : parse_state) : flow parse_state → Prop
  | .failed => False
  | .returned r => IsCrash r
  | .running s1 =>
    GInv s1.d ∧ RInv map s1 ∧ scan_measure s1.d < scan_measure s.d
      ∧ (getopt_long optstring opt_long s.d).1 ≠ -1
      ∧ s1.d = (getopt_long optstring opt_long s.d).2
  | .finished s1 =>
    RInv map s1 ∧ (getopt_long optstring opt_long s.d).1 = -1
      ∧ s1.d = (getopt_long optstring opt_long s.d).2

/-- What a scanning loop guarantees when it is left. -/
def LoopPost (map : cmd_op_type → Bool) : flow parse_state → Prop
  | .failed => False
  | .returned r => IsCrash r
  | .running _ => False
  | .finished s1 => RInv map s1

/-- The settings of the list in their order, then the other operations in
their order. -/
def settings_first (l : List cmd_op) : List cmd_op :=
  l.filter (fun o => is_setting o.type) ++ l.filter (fun o => !is_setting o.type)

/-- A successful result: operations that stand for arguments, then `EXIT`. -/
def IsSuccess (map : cmd_op_type → Bool) (r : List cmd_op) : Prop :=
  ∃ ops, r = ops ++ [⟨COT_EXIT, none⟩] ∧ ∀ op ∈ ops, OpOK map op

/-- The tags a whitelist array lists: its entries before the first
sentinel `COT_LAST`. -/
def whitelist (accepts : List cmd_op_type) : List cmd_op_type :=
  accepts.takeWhile (fun t => t != COT_LAST)

/-- The state after `k` rounds of the option loop, when each of these rounds
goes on to the next one. -/
def scan_rounds (accepts_map : cmd_op_type → Bool) : Nat → parse_state → Option parse_state
  | 0, s => some s
  | k + 1, s =>
    match scan_body accepts_map s with
    | .running s1 => scan_rounds accepts_map k s1
    | _ => none

/-- The letters of the short options. -/
def option_letters : List Char := ['h', 'b', 'j', 'a', 'r', 'R', 's', 'e', 'S']

/-- The option tokens that require a value. -/
def value_option_tokens : List String :=
  ["-a", "-r", "-R", "-s", "-e", "-S", "--add", "--remove", "--approve"]

/-- The element `tok` is an option the table does not have: two dashes and a
name (up to an equals sign) that no long option matches or that abbreviates
several, or one dash and one letter that is not an option letter. -/
def unknown_token (tok : String) : Prop :=
  (∃ name, tok.data = '-' :: '-' :: name ∧ name ≠ []
      ∧ (find_long_option opt_long (name.takeWhile (fun c => c ≠ '=')) = some none
          ∨ find_long_option opt_long (name.takeWhile (fun c => c ≠ '=')) = none))
    ∨ (∃ c, tok.data = ['-', c] ∧ c ≠ '-' ∧ c ∉ option_letters)

/-- With the vector `argv`, in the state `d`, the next option the scanner
reads is unknown and ends the element `tok`: either no element is being read
and from `optind` on the vector holds non-options and then the unknown
element `tok`; or the element `tok` at `optind` is being read and its last
letter, the only one left, is not an option letter. -/
def unknown_option_next (argv : List String) (d : getopt_data) (tok : String) : Prop :=
  (d.nextchar = [] ∧ unknown_token tok
      ∧ ∃ nonopts rest, argv.drop d.optind = nonopts ++ tok :: rest
          ∧ ∀ a ∈ nonopts, NONOPTION_P a = true)
    ∨ (∃ c, d.nextchar = [c] ∧ c ∉ option_letters ∧ argv[d.optind]? = some tok)

/-- The arguments that are still to become non-option operations or to be
scanned: the non-options skipped so far, `argv[first_nonopt .. last_nonopt)`,
and the elements from `optind` on. -/
def pending (d : getopt_data) : List String :=
  (d.argv.drop d.first_nonopt).take (d.last_nonopt - d.first_nonopt) ++ d.argv.drop d.optind

/-- How the vector of the scanner relates to the vector `argv0` the parser
was given: same length, same elements from `optind` on, and the pending
arguments are arguments of `argv0` after the program name, in their
order. -/
structure Kept (argv0 : List String) (d : getopt_data) : Prop where
  len : d.argv.length = argv0.length
  tail : d.argv.drop d.optind = argv0.drop d.optind
  sub : (pending d).Sublist (argv0.drop 1)

/-- The exclusivity check of `cmd_args_parse` read on the scanned list: an
exclusive command was scanned, and the operations that are not settings are
not exactly one or an `INSTALL` or `REMOVE` was scanned. -/
def incompatible (ops : List cmd_op) : Prop :=
  (∃ op ∈ ops, is_exclusive op.type = true)
    ∧ ((ops.filter (fun o => !is_setting o.type)).length ≠ 1
        ∨ ∃ op ∈ ops, is_install_remove op.type = true)

instance incompatible_decidable (ops : List cmd_op) : Decidable (incompatible ops) := by
  unfold incompatible
  infer_instance

/-- What a call of `getopt_long` depends on, positions left out: the
non-options skipped so far, the elements from `optind` on, and what is left
of the element being read. -/
structure scan_view where
  skipped : List String
  rest : List String
  nextchar : List Char
  deriving DecidableEq, Repr

/-- The view of a scanner state. -/
def view (d : getopt_data) : scan_view :=
  ⟨(d.argv.drop d.first_nonopt).take (d.last_nonopt - d.first_nonopt), d.argv.drop d.optind,
    d.nextchar⟩

/-- A scanner state that holds only the first two elements of `T`, for a
call that reads the first of them. -/
def window (T : List String) (nc : List Char) : getopt_data :=
  { argv := T.take 2, optind := 0, optarg := none, nextchar := nc, first_nonopt := 0,
    last_nonopt := 0 }

/-- The skipping of non-options on a view: the non-options at the head of
`T` join the skipped ones `N`; when `--` follows them, the elements after it
join the skipped ones as well and no element is left to read. -/
def view_skip (N T : List String) : List String × List String :=
  match T.dropWhile NONOPTION_P with
  | [] => (N ++ T.takeWhile NONOPTION_P, [])
  | t :: V =>
    if t = "--" then (N ++ T.takeWhile NONOPTION_P ++ V, [])
    else (N ++ T.takeWhile NONOPTION_P, t :: V)

/-- A call of `getopt_long` on a view: the value returned, `optarg`, and the
view after the call.  The element is read by `getopt_read` and
`short_option` themselves, on a window. -/
def view_getopt (v : scan_view) : Int × Option String × scan_view :=
  if v.nextchar = [] then
    let a := view_skip v.skipped v.rest
    if a.2 = [] then (-1, none, ⟨a.1, [], []⟩)
    else
      let w := getopt_read optstring opt_long (window a.2 [])
      (w.1, w.2.optarg, ⟨a.1, a.2.drop w.2.optind, w.2.nextchar⟩)
  else
    let w := short_option optstring (window v.rest v.nextchar)
    (w.1, w.2.optarg, ⟨v.skipped, v.rest.drop w.2.optind, w.2.nextchar⟩)

/-- Two parser states hold the same operations, count and flags. -/
structure SameOps (s s' : parse_state) : Prop where
  cnt : s'.res_count = s.res_count
  res : s'.result = s.result
  excl : s'.exclusive_cmd = s.exclusive_cmd
  ir : s'.install_remove = s.install_remove

/-- Two outcomes of a round are of the same kind; the states of two that go
on are related by `R`, those of two that finish by `Rf`. -/
def FlowRel (R Rf : parse_state → parse_state → Prop) :
    flow parse_state → flow parse_state → Prop
  | .failed, .failed => True
  | .returned _, .returned _ => True
  | .running s, .running s' => R s s'
  | .finished s, .finished s' => Rf s s'
  | _, _ => False

/-- Two parser states with the same operations and the same view of the
scanner. -/
def ViewSim (s s' : parse_state) : Prop := SameOps s s' ∧ view s'.d = view s.d

/-- Two parser states with the same operations and the same remaining
elements. -/
def FinSim (s s' : parse_state) : Prop :=
  SameOps s s' ∧ s'.d.argv.drop s'.d.optind = s.d.argv.drop s.d.optind

/-- The option elements the parser knows, each with the value `getopt_long`
returns for it and the tag of the operation the `switch` makes of it. -/
def option_table : List (String × Int × cmd_op_type) :=
  [("-h", chr 'h', COT_HELP), ("-j", chr 'j', COT_JOURNAL_RESUME),
   ("-b", chr 'b', COT_JOURNAL_ABORT), ("-a", chr 'a', COT_INSTALL),
   ("-r", chr 'r', COT_REMOVE), ("-R", chr 'R', COT_ROOT_DIR),
   ("-s", chr 's', COT_SYSLOG_LEVEL), ("-e", chr 'e', COT_STDERR_LEVEL),
   ("-S", chr 'S', COT_SYSLOG_NAME), ("--batch", OPT_BATCH_VAL, COT_BATCH),
   ("--reexec", OPT_REEXEC_VAL, COT_REEXEC), ("--state-log", OPT_STATE_LOG_VAL, COT_STATE_LOG),
   ("--ask-approval", OPT_ASK_APPROVAL_VAL, COT_ASK_APPROVAL),
   ("--approve", OPT_APPROVE_VAL, COT_APPROVE), ("--help", chr 'h', COT_HELP),
   ("--journal", chr 'j', COT_JOURNAL_RESUME), ("--abort", chr 'b', COT_JOURNAL_ABORT),
   ("--add", chr 'a', COT_INSTALL), ("--remove", chr 'r', COT_REMOVE)]

/-- The long options that have a short equivalent, each with it. -/
def long_short_pairs : List (String × String) :=
  [("--help", "-h"), ("--journal", "-j"), ("--abort", "-b"), ("--add", "-a"),
   ("--remove", "-r")]

/-- The tags that have a `case` in the `switch` of the loop of `main`. -/
def is_dispatched : cmd_op_type → Bool
  | COT_HELP => true
  | COT_ERR_MSG => true
  | COT_NO_OP => true
  | COT_BATCH => true
  | COT_ROOT_DIR => true
  | COT_SYSLOG_LEVEL => true
  | COT_SYSLOG_NAME => true
  | COT_STDERR_LEVEL => true
  | _ => false

/-- The two tags that end the loop of `main`. -/
def is_terminal : cmd_op_type → Bool
  | COT_EXIT => true
  | COT_CRASH => true
  | _ => false

/-- An array the loop of `main` can go through from the index `i` on: `i` is
inside, every element from `i` on has a `case` or ends the loop, and the last
element ends the loop. -/
structure Iterable (ops : List cmd_op) (i : Nat) : Prop where
  lt : i < ops.length
  ok : ∀ j o, i ≤ j → ops[j]? = some o →
    is_dispatched o.type = true ∨ is_terminal o.type = true
  last : ∃ o, ops[ops.length - 1]? = some o ∧ is_terminal o.type = true

/-- The ways the loop of `main` ends on an array of `n` elements without a
fault: the process dies in an `ASSERT_MSG`, or the loop is left at an element
of the array that ends it. -/
def LoopSafe (n : Nat) : run main_state → Prop
  | .died _ => True
  | .left s => s.ops.length = n ∧ ∃ o, s.ops[s.op]? = some o ∧ is_terminal o.type = true
  | _ => False

/-- The settings the whitelist of pkgupdate lists. -/
def is_allowed_setting : cmd_op_type → Bool
  | COT_ROOT_DIR => true
  | COT_BATCH => true
  | COT_SYSLOG_LEVEL => true
  | COT_STDERR_LEVEL => true
  | COT_SYSLOG_NAME => true
  | _ => false

/-- The collaborators carry out the setting `o`: no error for the root
directory, a known level for the two log levels. -/
def setting_ok (env : collaborators) (o : cmd_op) : Prop :=
  (o.type = COT_ROOT_DIR → env.root_dir_set o.parameter = none)
    ∧ (o.type = COT_SYSLOG_LEVEL ∨ o.type = COT_STDERR_LEVEL →
        (env.log_level_get o.parameter).isSome = true)

/-- The long options that take a value, written with an equals sign and
nothing after it, each with the value `getopt_long` returns for it and the
tag of its operation. -/
def empty_value_tokens : List (String × Int × cmd_op_type) :=
  [("--add=", chr 'a', COT_INSTALL), ("--remove=", chr 'r', COT_REMOVE),
   ("--approve=", OPT_APPROVE_VAL, COT_APPROVE)]

/-- Whether the collaborators carry out a setting can be computed. -/
instance setting_ok_decidable (env : collaborators) (o : cmd_op) :
    Decidable (setting_ok env o) := by
  unfold setting_ok
  infer_instance

/-- Collaborators for the examples: the root directory `/missing` cannot be
set, the log levels known are `ERROR` and `INFO`, and every transaction
succeeds. -/
def example_collaborators : collaborators :=
  { root_dir_set := fun dir => if dir = some "/missing" then some "no such directory" else none
    log_level_get := fun name =>
      if name = some "ERROR" then some 2 else if name = some "INFO" then some 4 else none
    transaction := fun _ _ => some true }

/-- With the vector `argv`, in the state `d`, the scanner reads next the
letter `x` of an option element, the letters `cs` follow it in the element,
and the elements `R` follow the element: either no element is being read and
from `optind` on the vector holds non-options and then the element made of a
dash and these letters; or these letters are what is left of the element at
`optind`, the earlier letters of which have been read. -/
def letters_next (argv : List String) (d : getopt_data) (x : Char) (cs : List Char)
    (R : List String) : Prop :=
  (d.nextchar = [] ∧ ∃ nonopts tok, tok.data = '-' :: x :: cs
      ∧ argv.drop d.optind = nonopts ++ tok :: R ∧ ∀ a ∈ nonopts, NONOPTION_P a = true)
    ∨ (d.nextchar = x :: cs ∧ ∃ tok, argv.drop d.optind = tok :: R)

/-- With the vector `argv`, in the state `d`, the scanner reads next a long
option: no element is being read and from `optind` on the vector holds
non-options and then the element made of two dashes and the text `nm`, which
is not empty; the elements `R` follow that element. -/
def long_next (argv : List String) (d : getopt_data) (nm : List Char) (R : List String) :
    Prop :=
  d.nextchar = [] ∧ nm ≠ [] ∧ ∃ nonopts tok, tok.data = '-' :: '-' :: nm
    ∧ argv.drop d.optind = nonopts ++ tok :: R ∧ ∀ a ∈ nonopts, NONOPTION_P a = true

/-- The elements that give the option of tag `tag` the empty string as its
value: an element of the table that takes a value, followed by the empty
element, or a long option that ends in the equals sign. -/
def empty_value_given (tag : cmd_op_type) (elems : List String) : Prop :=
  (∃ e ∈ option_table, e.1 ∈ value_option_tokens ∧ e.2.2 = tag ∧ elems = [e.1, ""])
    ∨ (∃ e ∈ empty_value_tokens, e.2.2 = tag ∧ elems = [e.1])

/-! ## Arrays: `realloc`, `result_extend`, `cmd_arg_crash` -/

theorem set_length_append (A : List cmd_op) (b x : cmd_op) (B : List cmd_op) :
    (A ++ b :: B).set A.length x = A ++ x :: B := by
  induction A with
  | nil => rfl
  | cons a A ih => simp [ih]

theorem getD_length_append (A : List cmd_op) (b : cmd_op) (B : List cmd_op) :
    (A ++ b :: B).getD A.length uninit = b := by
  induction A with
  | nil => rfl
  | cons a A ih => simpa using ih

theorem realloc_succ (r : List cmd_op) : realloc r (r.length + 1) = r ++ [uninit] := by
  simp [realloc]

theorem realloc_length (r : List cmd_op) (n : Nat) : (realloc r n).length = n := by
  simp [realloc]; omega

theorem result_extend_length (r : List cmd_op) (t : cmd_op_type) (p : Option String) :
    result_extend r.length r t p = (r.length + 1, r ++ [⟨t, p⟩]) := by
  simp only [result_extend, realloc_succ, Nat.add_sub_cancel]
  rw [set_length_append]

theorem crash_loop_append (msgs : List (Option String)) :
    ∀ (A B : List cmd_op), msgs.length ≤ B.length →
      crash_loop msgs A.length (A ++ B)
        = A ++ msgs.map (fun m => ⟨COT_ERR_MSG, m⟩) ++ B.drop msgs.length := by
  induction msgs with
  | nil => intro A B _; simp [crash_loop]
  | cons m ms ih =>
    intro A B h
    cases B with
    | nil => simp at h
    | cons b B =>
      simp only [crash_loop, set_length_append]
      have h2 : ms.length ≤ B.length := by simpa using h
      have := ih (A ++ [⟨COT_ERR_MSG, m⟩]) B h2
      simp only [List.length_append, List.length_singleton, List.append_assoc,
        List.singleton_append] at this
      rw [this]
      simp

/-- The array built by `cmd_arg_crash` holds the messages, then `HELP`,
then `CRASH`, whatever the array it was given. -/
theorem cmd_arg_crash_eq (result : List cmd_op) (msgs : List (Option String)) :
    cmd_arg_crash result msgs
      = msgs.map (fun m => ⟨COT_ERR_MSG, m⟩) ++ [⟨COT_HELP, none⟩, ⟨COT_CRASH, none⟩] := by
  have hlen := realloc_length result (2 + msgs.length)
  obtain ⟨x, y, hB⟩ : ∃ x y, (realloc result (2 + msgs.length)).drop msgs.length = [x, y] := by
    have h : ((realloc result (2 + msgs.length)).drop msgs.length).length = 2 := by
      simp [hlen]
    match hd : (realloc result (2 + msgs.length)).drop msgs.length, h with
    | [x, y], _ => exact ⟨x, y, rfl⟩
  have h1 := crash_loop_append msgs [] (realloc result (2 + msgs.length)) (by omega)
  simp only [List.length_nil, List.nil_append, hB] at h1
  simp only [cmd_arg_crash, h1]
  have e1 : (msgs.map (fun m => (⟨COT_ERR_MSG, m⟩ : cmd_op))).length = msgs.length := by simp
  have s1 := set_length_append (msgs.map (fun m => (⟨COT_ERR_MSG, m⟩ : cmd_op))) x
    ⟨COT_HELP, none⟩ [y]
  rw [e1] at s1
  rw [s1]
  have s2 := set_length_append (msgs.map (fun m => (⟨COT_ERR_MSG, m⟩ : cmd_op))
    ++ [⟨COT_HELP, none⟩]) y ⟨COT_CRASH, none⟩ []
  simp only [List.length_append, e1, List.length_singleton, List.append_assoc,
    List.singleton_append] at s2
  rw [s2]

/-! ## The loop that moves the settings to the front -/

theorem shift_loop_spec (A : List cmd_op) :
    ∀ (B : List cmd_op) (x y : cmd_op) (C : List cmd_op),
      (shift_loop A.length (A.length + B.length) (A ++ B ++ x :: C)).set A.length y
        = A ++ y :: B ++ C := by
  intro B
  induction B using List.reverseRecOn with
  | nil =>
    intro x y C
    have h : shift_loop A.length (A.length + 0) (A ++ x :: C) = A ++ x :: C := by
      cases hA : A.length with
      | zero => simp [shift_loop]
      | succ n => simp [shift_loop]
    rw [Nat.add_zero] at h
    simp [h, set_length_append]
  | append_singleton B b ih =>
    intro x y C
    have e : A.length + (B ++ [b]).length = (A.length + B.length) + 1 := by simp; omega
    rw [e, shift_loop]
    have hgt : A.length + B.length + 1 > A.length := by omega
    simp only [hgt, ↓reduceIte]
    have g : (A ++ (B ++ [b]) ++ x :: C).getD (A.length + B.length) uninit = b := by
      have := getD_length_append (A ++ B) b (x :: C)
      simp at this ⊢
      exact this
    have s : (A ++ (B ++ [b]) ++ x :: C).set (A.length + B.length + 1) b
        = A ++ B ++ b :: b :: C := by
      simp [List.append_assoc, Nat.add_assoc]
    rw [g, s, ih b y (b :: C)]
    simp

theorem move_settings_spec (N : Nat) :
    ∀ (R P Q : List cmd_op) (n : Nat), R.length ≤ n →
      N = P.length + Q.length + R.length →
      move_settings N n (P.length + Q.length) P.length (P ++ Q ++ R)
        = (P ++ R.filter (fun o => is_setting o.type) ++ Q
            ++ R.filter (fun o => !is_setting o.type),
           P.length + (R.filter (fun o => is_setting o.type)).length) := by
  intro R
  induction R with
  | nil =>
    intro P Q n _ hN
    cases n with
    | zero => simp [move_settings]
    | succ n => simp [move_settings, hN]
  | cons x R ih =>
    intro P Q n hn hN
    cases n with
    | zero => simp at hn
    | succ n =>
      have hn2 : R.length ≤ n := by simpa using hn
      have hlt : P.length + Q.length < N := by simp [hN]
      have g : (P ++ Q ++ x :: R).getD (P.length + Q.length) uninit = x := by
        have := getD_length_append (P ++ Q) x R
        simp at this ⊢
        exact this
      rw [move_settings]
      simp only [hlt, ↓reduceIte, g]
      by_cases hx : is_setting x.type = true
      · simp only [hx, ↓reduceIte]
        rw [shift_loop_spec P Q x x R]
        have := ih (P ++ [x]) Q n hn2 (by simp [hN]; omega)
        simp only [List.length_append, List.length_singleton, List.append_assoc,
          List.singleton_append, List.cons_append, List.nil_append] at this
        have e : P.length + 1 + Q.length = P.length + Q.length + 1 := by omega
        rw [e] at this
        simp only [List.append_assoc, List.cons_append]
        rw [this]
        simp [hx, List.filter_cons]
        omega
      · simp only [hx, Bool.false_eq_true, ↓reduceIte]
        have := ih P (Q ++ [x]) n hn2 (by simp [hN]; omega)
        simp only [List.length_append, List.length_singleton, List.append_assoc,
          List.singleton_append, List.cons_append, List.nil_append] at this
        have e : P.length + (Q.length + 1) = P.length + Q.length + 1 := by omega
        rw [e] at this
        simp only [List.append_assoc, List.cons_append]
        rw [this]
        simp [hx, List.filter_cons]

/-- The loop that moves the settings to the front is a stable partition. -/
theorem move_settings_eq (l : List cmd_op) :
    move_settings l.length l.length 0 0 l
      = (l.filter (fun o => is_setting o.type) ++ l.filter (fun o => !is_setting o.type),
         (l.filter (fun o => is_setting o.type)).length) := by
  have := move_settings_spec l.length l [] [] l.length (Nat.le_refl _) (by simp)
  simpa using this

/-! ## Invariants of the scanner -/

theorem weight_drop_mono (l : List String) (i j : Nat) (h : i ≤ j) :
    weight (l.drop j) ≤ weight (l.drop i) := by
  induction l generalizing i j with
  | nil => simp [weight]
  | cons a l ih =>
    cases i with
    | zero =>
      cases j with
      | zero => exact Nat.le_refl _
      | succ j =>
        have := ih 0 j (Nat.zero_le _)
        simp [weight] at this ⊢
        omega
    | succ i =>
      cases j with
      | zero => omega
      | succ j => simpa using ih i j (by omega)

theorem weight_drop_lt (l : List String) (i : Nat) (s : String) (h : l[i]? = some s) :
    weight (l.drop i) = s.length + 1 + weight (l.drop (i + 1)) := by
  induction l generalizing i with
  | nil => simp at h
  | cons a l ih =>
    cases i with
    | zero => simp at h; subst h; simp [weight]
    | succ i => simpa using ih i (by simpa using h)

theorem skip_nonoptions_bounds (argv : List String) :
    ∀ n k, k ≤ argv.length →
      k ≤ skip_nonoptions argv n k ∧ skip_nonoptions argv n k ≤ argv.length := by
  intro n
  induction n with
  | zero => intro k h; simp [skip_nonoptions, h]
  | succ n ih =>
    intro k h
    rw [skip_nonoptions]
    cases hk : argv[k]? with
    | none => simp [h]
    | some s =>
      have hlt : k < argv.length := by
        rcases List.getElem?_eq_some_iff.mp hk with ⟨hlt, _⟩
        exact hlt
      by_cases hp : NONOPTION_P s = true
      · simp only [hp, ↓reduceIte]
        have := ih (k + 1) hlt
        omega
      · simp [hp, h]

theorem skip_nonoptions_stop (argv : List String) :
    ∀ n k, argv.length - k ≤ n → skip_nonoptions argv n k < argv.length →
      ∃ s, argv[skip_nonoptions argv n k]? = some s ∧ NONOPTION_P s = false := by
  intro n
  induction n with
  | zero =>
    intro k h hlt
    simp only [skip_nonoptions] at hlt
    omega
  | succ n ih =>
    intro k h hlt
    rw [skip_nonoptions] at hlt ⊢
    cases hk : argv[k]? with
    | none =>
      simp only [hk] at hlt
      have := List.getElem?_eq_none_iff.mp hk
      omega
    | some s =>
      by_cases hp : NONOPTION_P s = true
      · simp only [hk, hp, ↓reduceIte] at hlt ⊢
        exact ih (k + 1) (by omega) hlt
      · simp only [hp, Bool.false_eq_true, ↓reduceIte]
        exact ⟨s, hk, by simpa using hp⟩

theorem drop_eq_of_le {a b : List String} {i j : Nat} (h : a.drop i = b.drop i)
    (hij : i ≤ j) : a.drop j = b.drop j := by
  have := congrArg (List.drop (j - i)) h
  rw [List.drop_drop, List.drop_drop] at this
  have e : i + (j - i) = j := by omega
  rwa [e] at this

theorem exchange_spec (d : getopt_data) (hle : d.optind ≤ d.argv.length) :
    (exchange d).argv.length = d.argv.length
      ∧ (exchange d).argv.drop d.optind = d.argv.drop d.optind := by
  unfold exchange
  by_cases h : d.optind > d.last_nonopt ∧ d.last_nonopt > d.first_nonopt
  · simp only [h, and_self, ↓reduceIte]
    constructor
    · simp only [List.length_append, List.length_take, List.length_drop]
      omega
    · have hX : (d.argv.take d.first_nonopt
          ++ (d.argv.drop d.last_nonopt).take (d.optind - d.last_nonopt)
          ++ (d.argv.drop d.first_nonopt).take (d.last_nonopt - d.first_nonopt)).length
          = d.optind := by
        simp only [List.length_append, List.length_take, List.length_drop]
        omega
      exact List.drop_left' hX
  · simp [h]

theorem getopt_permute_spec (d : getopt_data) (hfl : d.first_nonopt ≤ d.last_nonopt)
    (hlo : d.last_nonopt ≤ d.optind) (hle : d.optind ≤ d.argv.length) :
    (getopt_permute d).argv.length = d.argv.length
      ∧ (getopt_permute d).optind = d.optind
      ∧ (getopt_permute d).first_nonopt ≤ d.optind
      ∧ (getopt_permute d).argv.drop d.optind = d.argv.drop d.optind
      ∧ (getopt_permute d).nextchar = d.nextchar := by
  have es := exchange_spec d hle
  rcases d with ⟨argv, optind, optarg, nc, f, l⟩
  dsimp only at *
  have m1 : min l optind = l := Nat.min_eq_left hlo
  have m2 : min f optind = f := Nat.min_eq_left (by omega)
  unfold getopt_permute
  dsimp only
  simp only [m1, m2]
  split_ifs with h1 h2
  · refine ⟨es.1, rfl, ?_, es.2, rfl⟩
    dsimp only [exchange]
    omega
  · exact ⟨rfl, rfl, Nat.le_refl _, rfl, rfl⟩
  · refine ⟨rfl, rfl, ?_, rfl, rfl⟩
    dsimp only
    omega

theorem getopt_skip_spec (d : getopt_data) (hle : d.optind ≤ d.argv.length) :
    (getopt_skip d).argv = d.argv
      ∧ d.optind ≤ (getopt_skip d).optind
      ∧ (getopt_skip d).optind ≤ d.argv.length
      ∧ (getopt_skip d).last_nonopt = (getopt_skip d).optind
      ∧ (getopt_skip d).first_nonopt = d.first_nonopt
      ∧ (getopt_skip d).nextchar = d.nextchar
      ∧ ((getopt_skip d).optind < d.argv.length →
          ∃ s, d.argv[(getopt_skip d).optind]? = some s ∧ NONOPTION_P s = false) := by
  have b := skip_nonoptions_bounds d.argv (d.argv.length - d.optind) d.optind hle
  have st := skip_nonoptions_stop d.argv (d.argv.length - d.optind) d.optind (Nat.le_refl _)
  simp only [getopt_skip]
  exact ⟨trivial, b.1, b.2, trivial, trivial, trivial, st⟩

theorem getopt_dashdash_spec (d : getopt_data) (hle : d.optind ≤ d.argv.length)
    (hfl : d.first_nonopt ≤ d.last_nonopt) (hlo : d.last_nonopt = d.optind) :
    getopt_dashdash d = d
      ∨ ((getopt_dashdash d).argv.length = d.argv.length
          ∧ (getopt_dashdash d).optind = d.argv.length
          ∧ (getopt_dashdash d).last_nonopt = d.argv.length
          ∧ (getopt_dashdash d).first_nonopt ≤ d.argv.length
          ∧ (getopt_dashdash d).nextchar = d.nextchar) := by
  unfold getopt_dashdash
  by_cases h : d.optind ≠ d.argv.length ∧ d.argv[d.optind]? = some "--"
  · right
    simp only [h, and_self, ↓reduceIte, ne_eq, not_false_eq_true]
    have hlt : d.optind + 1 ≤ d.argv.length := by
      have := h.1
      omega
    by_cases h1 : d.first_nonopt ≠ d.last_nonopt ∧ d.last_nonopt ≠ d.optind + 1
    · simp only [h1, and_self, ↓reduceIte, ne_eq, not_false_eq_true]
      have := exchange_spec { d with optind := d.optind + 1 } hlt
      refine ⟨?_, ?_, ?_, ?_, ?_⟩
      · simpa using this.1
      · simp
      · simp
      · simp only [exchange]; omega
      · simp [exchange]
    · by_cases h2 : d.first_nonopt = d.last_nonopt
      · simp only [h1, h2, ↓reduceIte]
        simp
        omega
      · simp only [h1, h2, ↓reduceIte]
        simp
        omega
  · left
    simp only [h, ↓reduceIte]

theorem getopt_advance_spec (d : getopt_data) (hfl : d.first_nonopt ≤ d.last_nonopt)
    (hlo : d.last_nonopt ≤ d.optind) (hle : d.optind ≤ d.argv.length) :
    Advanced d (getopt_advance d) := by
  obtain ⟨p1, p2, p3, p4, p5⟩ := getopt_permute_spec d hfl hlo hle
  have hle2 : (getopt_permute d).optind ≤ (getopt_permute d).argv.length := by omega
  obtain ⟨k1, k2, k3, k4, k5, k6, k7⟩ := getopt_skip_spec (getopt_permute d) hle2
  have hfl3 : (getopt_skip (getopt_permute d)).first_nonopt
      ≤ (getopt_skip (getopt_permute d)).last_nonopt := by omega
  have hle3 : (getopt_skip (getopt_permute d)).optind
      ≤ (getopt_skip (getopt_permute d)).argv.length := by rw [k1]; omega
  have sfx : (getopt_skip (getopt_permute d)).argv.drop (getopt_skip (getopt_permute d)).optind
      = d.argv.drop (getopt_skip (getopt_permute d)).optind := by
    rw [k1]
    exact drop_eq_of_le p4 (by omega)
  unfold getopt_advance
  rcases getopt_dashdash_spec (getopt_skip (getopt_permute d)) hle3 hfl3 k4 with h | h
  · rw [h]
    refine ⟨by rw [k1]; exact p1, by omega, hle3, hfl3, by omega, sfx, by rw [k6, p5], ?_⟩
    intro hlt
    rw [k1] at hlt ⊢
    exact k7 hlt
  · obtain ⟨a1, a2, a3, a4, a5⟩ := h
    rw [k1] at a1 a2 a3 a4
    refine ⟨by omega, by omega, by omega, by omega, by omega, ?_, by rw [a5, k6, p5], ?_⟩
    · rw [a2, p1, List.drop_of_length_le (by omega), List.drop_of_length_le (by omega)]
    · intro hlt
      omega

theorem optstring_data :
    optstring.data
      = [':', 'h', 'b', 'j', 'a', ':', 'r', ':', 'R', ':', 's', ':', 'e', ':', 'S', ':'] := rfl

theorem strchr_optstring (c : Char) (temp : List Char)
    (h : strchr optstring.data c = some temp) :
    c = ':'
      ∨ (chr c ∈ noarg_codes ∧ temp[1]? ≠ some ':')
      ∨ (chr c ∈ arg_codes ∧ temp[1]? = some ':' ∧ temp[2]? ≠ some ':') := by
  rw [optstring_data] at h
  simp only [strchr] at h
  split_ifs at h <;> first
    | (left; subst_vars; rfl)
    | (right; left; subst_vars; simp only [Option.some.injEq] at h; subst h; decide)
    | (right; right; subst_vars; simp only [Option.some.injEq] at h; subst h; decide)

theorem getElem?_some_of_lt (l : List String) (i : Nat) (h : i < l.length) :
    (l[i]?).isSome = true := by
  simp [List.getElem?_eq_getElem h]

theorem short_option_spec (d : getopt_data) (hnc : d.nextchar ≠ [])
    (hlt : d.optind < d.argv.length) :
    Read d (short_option optstring d).2
      ∧ RetOK (short_option optstring d).1 (short_option optstring d).2 := by
  unfold short_option
  cases hn : d.nextchar with
  | nil => exact absurd hn hnc
  | cons c rest =>
    dsimp only
    have hlen : rest.length < (c :: rest).length := by simp
    by_cases hr : rest = []
    · -- the last character of the element
      subst hr
      simp only [↓reduceIte, ne_eq, not_true_eq_false]
      cases hs : strchr optstring.data c with
      | none =>
        dsimp only
        exact ⟨⟨rfl, rfl, rfl, Or.inr ⟨rfl, by dsimp only; omega, by dsimp only; omega⟩⟩, Or.inl rfl⟩
      | some temp =>
        dsimp only
        rcases strchr_optstring c temp hs with h | ⟨h1, h2⟩ | ⟨h1, h2, h3⟩
        · simp only [h, true_or, ↓reduceIte]
          exact ⟨⟨rfl, rfl, rfl, Or.inr ⟨rfl, by dsimp only; omega, by dsimp only; omega⟩⟩, Or.inl rfl⟩
        · by_cases hc : c = ':' ∨ c = ';'
          · simp only [hc, ↓reduceIte]
            exact ⟨⟨rfl, rfl, rfl, Or.inr ⟨rfl, by dsimp only; omega, by dsimp only; omega⟩⟩, Or.inl rfl⟩
          · simp only [hc, ↓reduceIte, h2]
            exact ⟨⟨rfl, rfl, rfl, Or.inr ⟨rfl, by dsimp only; omega, by dsimp only; omega⟩⟩,
              Or.inr (Or.inr (Or.inl h1))⟩
        · by_cases hc : c = ':' ∨ c = ';'
          · simp only [hc, ↓reduceIte]
            exact ⟨⟨rfl, rfl, rfl, Or.inr ⟨rfl, by dsimp only; omega, by dsimp only; omega⟩⟩, Or.inl rfl⟩
          · simp only [hc, ↓reduceIte, h2, h3]
            by_cases he : d.optind + 1 = d.argv.length
            · simp only [he, ↓reduceIte]
              refine ⟨⟨rfl, rfl, rfl, Or.inr ⟨rfl, ?_, ?_⟩⟩, Or.inr (Or.inl rfl)⟩
              · dsimp only; omega
              · dsimp only; omega
            · simp only [he, ↓reduceIte]
              refine ⟨⟨rfl, rfl, rfl, Or.inr ⟨rfl, ?_, ?_⟩⟩, Or.inr (Or.inr (Or.inr ⟨h1, ?_⟩))⟩
              · dsimp only; omega
              · dsimp only; omega
              · exact getElem?_some_of_lt _ _ (by omega)
    · -- more characters follow in the element
      simp only [hr, ↓reduceIte, ne_eq, not_false_eq_true]
      cases hs : strchr optstring.data c with
      | none =>
        dsimp only
        exact ⟨⟨rfl, rfl, rfl, Or.inl ⟨hr, rfl, by simp [hn]⟩⟩, Or.inl rfl⟩
      | some temp =>
        dsimp only
        rcases strchr_optstring c temp hs with h | ⟨h1, h2⟩ | ⟨h1, h2, h3⟩
        · simp only [h, true_or, ↓reduceIte]
          exact ⟨⟨rfl, rfl, rfl, Or.inl ⟨hr, rfl, by simp [hn]⟩⟩, Or.inl rfl⟩
        · by_cases hc : c = ':' ∨ c = ';'
          · simp only [hc, ↓reduceIte]
            exact ⟨⟨rfl, rfl, rfl, Or.inl ⟨hr, rfl, by simp [hn]⟩⟩, Or.inl rfl⟩
          · simp only [hc, ↓reduceIte, h2]
            exact ⟨⟨rfl, rfl, rfl, Or.inl ⟨hr, rfl, by simp [hn]⟩⟩, Or.inr (Or.inr (Or.inl h1))⟩
        · by_cases hc : c = ':' ∨ c = ';'
          · simp only [hc, ↓reduceIte]
            exact ⟨⟨rfl, rfl, rfl, Or.inl ⟨hr, rfl, by simp [hn]⟩⟩, Or.inl rfl⟩
          · simp only [hc, ↓reduceIte, h2, h3]
            refine ⟨⟨rfl, rfl, rfl, Or.inr ⟨rfl, ?_, ?_⟩⟩, Or.inr (Or.inr (Or.inr ⟨h1, rfl⟩))⟩
            · dsimp only; omega
            · dsimp only; omega

theorem find_long_option_mem (longopts : List getopt_option) (name : List Char)
    (p : getopt_option) (h : find_long_option longopts name = some (some p)) :
    p ∈ longopts := by
  unfold find_long_option at h
  cases hf : longopts.find? (fun p => p.name.data = name) with
  | some q =>
    rw [hf] at h
    simp only [Option.some.injEq] at h
    subst h
    exact List.mem_of_find?_eq_some hf
  | none =>
    rw [hf] at h
    dsimp only at h
    cases hm : longopts.filter (fun p => name.isPrefixOf p.name.data) with
    | nil => rw [hm] at h; simp at h
    | cons q qs =>
      rw [hm] at h
      dsimp only at h
      split_ifs at h
      simp only [Option.some.injEq] at h
      subst h
      have : q ∈ longopts.filter (fun p => name.isPrefixOf p.name.data) := by
        rw [hm]; exact List.mem_cons_self _ _
      exact (List.mem_filter.mp this).1

theorem opt_long_codes (p : getopt_option) (h : p ∈ opt_long) :
    (p.has_arg = 0 ∧ p.val ∈ noarg_codes) ∨ (p.has_arg = 1 ∧ p.val ∈ arg_codes) := by
  simp only [opt_long, List.mem_cons, List.mem_singleton, List.not_mem_nil, or_false] at h
  rcases h with h | h | h | h | h | h | h | h | h | h <;> subst h <;> decide

theorem process_long_option_spec (d : getopt_data) (hlt : d.optind < d.argv.length) :
    Read d (process_long_option optstring opt_long d).2
      ∧ (process_long_option optstring opt_long d).2.nextchar = []
      ∧ RetOK (process_long_option optstring opt_long d).1
          (process_long_option optstring opt_long d).2 := by
  unfold process_long_option
  dsimp only
  cases hf : find_long_option opt_long (d.nextchar.takeWhile (fun c => c ≠ '=')) with
  | none =>
    dsimp only
    exact ⟨⟨rfl, rfl, rfl, Or.inr ⟨rfl, by dsimp only; omega, by dsimp only; omega⟩⟩, rfl,
      Or.inl rfl⟩
  | some o =>
    cases o with
    | none =>
      dsimp only
      exact ⟨⟨rfl, rfl, rfl, Or.inr ⟨rfl, by dsimp only; omega, by dsimp only; omega⟩⟩, rfl,
        Or.inl rfl⟩
    | some p =>
      dsimp only
      have hp := opt_long_codes p (find_long_option_mem _ _ _ hf)
      cases he : d.nextchar.dropWhile (fun c => c ≠ '=') with
      | cons e value =>
        dsimp only
        split_ifs with hh
        · rcases hp with ⟨h0, _⟩ | ⟨_, hc⟩
          · exact absurd h0 hh
          · exact ⟨⟨rfl, rfl, rfl, Or.inr ⟨rfl, by dsimp only; omega, by dsimp only; omega⟩⟩,
              rfl, Or.inr (Or.inr (Or.inr ⟨hc, rfl⟩))⟩
        · exact ⟨⟨rfl, rfl, rfl, Or.inr ⟨rfl, by dsimp only; omega, by dsimp only; omega⟩⟩,
            rfl, Or.inl rfl⟩
      | nil =>
        dsimp only
        split_ifs with hh h2
        · rcases hp with ⟨h0, _⟩ | ⟨_, hc⟩
          · omega
          · exact ⟨⟨rfl, rfl, rfl, Or.inr ⟨rfl, by dsimp only; omega, by dsimp only; omega⟩⟩,
              rfl, Or.inr (Or.inr (Or.inr ⟨hc, getElem?_some_of_lt _ _ h2⟩))⟩
        · exact ⟨⟨rfl, rfl, rfl, Or.inr ⟨rfl, by dsimp only; omega, by dsimp only; omega⟩⟩,
            rfl, Or.inr (Or.inl rfl)⟩
        · rcases hp with ⟨_, hc⟩ | ⟨h1, _⟩
          · exact ⟨⟨rfl, rfl, rfl, Or.inr ⟨rfl, by dsimp only; omega, by dsimp only; omega⟩⟩,
              rfl, Or.inr (Or.inr (Or.inl hc))⟩
          · exact absurd h1 hh

theorem RetOK_ne (c : Int) (d : getopt_data) (h : RetOK c d) : c ≠ -1 := by
  rcases h with h | h | h | ⟨h, _⟩
  · subst h; decide
  · subst h; decide
  · simp only [noarg_codes, List.mem_cons, List.mem_singleton, List.not_mem_nil, or_false] at h
    rcases h with h | h | h | h | h | h | h <;> subst h <;> decide
  · simp only [arg_codes, List.mem_cons, List.mem_singleton, List.not_mem_nil, or_false] at h
    rcases h with h | h | h | h | h | h | h <;> subst h <;> decide

theorem nonoption_false (s : String) (h : NONOPTION_P s = false) :
    ∃ c rest, s.data = '-' :: c :: rest := by
  unfold NONOPTION_P at h
  split at h
  · next c rest heq => exact ⟨_, _, heq⟩
  · simp at h

theorem read_measure (b r : getopt_data) (h : Read b r) (hnc : b.nextchar ≠ []) :
    scan_measure r < scan_measure b := by
  unfold scan_measure
  simp only [hnc, ↓reduceIte]
  rcases h.adv with ⟨h1, h2, h3⟩ | ⟨h1, h2, h3⟩
  · simp only [h1, ↓reduceIte, h.argv, h2]
    omega
  · simp only [h1, ↓reduceIte, h.argv]
    have := weight_drop_mono b.argv (b.optind + 1) r.optind (by omega)
    have : 0 < b.nextchar.length := List.length_pos.mpr hnc
    omega

theorem read_inv (b r : getopt_data) (h : Read b r) (hpos : 1 ≤ b.optind)
    (hlt : b.optind < b.argv.length) (hfl : b.first_nonopt ≤ b.last_nonopt)
    (hlo : b.last_nonopt ≤ b.optind) : GInv r := by
  have ha := h.argv
  have hf := h.first
  have hl := h.last
  rcases h.adv with ⟨h1, h2, _⟩ | ⟨h1, h2, h3⟩
  · exact ⟨by omega, by rw [ha]; omega, by omega, by omega, fun _ => by rw [ha]; omega⟩
  · exact ⟨by omega, by rw [ha]; omega, by omega, by omega, fun hne => absurd h1 hne⟩

/-- One call of `getopt_long` in a state that satisfies the invariant either
ends the scan, or reads an option, keeps the invariant and has less left to
scan. -/
theorem getopt_long_spec (d : getopt_data) (hd : GInv d) :
    ((getopt_long optstring opt_long d).1 = -1
        ∧ (getopt_long optstring opt_long d).2.optind
            ≤ (getopt_long optstring opt_long d).2.argv.length
        ∧ (getopt_long optstring opt_long d).2.argv.length = d.argv.length)
      ∨ (GInv (getopt_long optstring opt_long d).2
        ∧ scan_measure (getopt_long optstring opt_long d).2 < scan_measure d
        ∧ RetOK (getopt_long optstring opt_long d).1 (getopt_long optstring opt_long d).2
        ∧ (getopt_long optstring opt_long d).2.argv.length = d.argv.length) := by
  have hargc : ¬ d.argv.length < 1 := by
    have := hd.pos
    have := hd.le
    omega
  unfold getopt_long
  dsimp only
  rw [if_neg hargc]
  by_cases hn : d.nextchar = []
  · rw [if_pos hn]
    have A := getopt_advance_spec { d with optarg := none } hd.fl hd.lo hd.le
    generalize getopt_advance { d with optarg := none } = a at A ⊢
    have Alen : a.argv.length = d.argv.length := A.len
    have Age : d.optind ≤ a.optind := A.ge
    have Asfx : a.argv.drop a.optind = d.argv.drop a.optind := A.suffix
    have Anc : a.nextchar = [] := by rw [A.nc]; exact hn
    unfold getopt_read
    dsimp only
    rw [Alen]
    by_cases he : a.optind = d.argv.length
    · rw [if_pos he]
      left
      refine ⟨rfl, ?_, ?_⟩
      · have := A.fl
        have := A.lo
        have := A.le
        split_ifs
        · dsimp only
          omega
        · dsimp only
          omega
      · split_ifs <;> exact Alen
    · rw [if_neg he]
      right
      have hlt : a.optind < a.argv.length := by
        have := A.le
        omega
      obtain ⟨s, hs, hp⟩ := A.stop hlt
      obtain ⟨c, rest, hdata⟩ := nonoption_false s hp
      have hslen : s.length = rest.length + 2 := by
        show s.data.length = _
        rw [hdata]
        simp
      have hw := weight_drop_lt a.argv a.optind s hs
      have hm := weight_drop_mono d.argv d.optind a.optind Age
      have hμ : scan_measure d = weight (d.argv.drop d.optind) := by
        simp [scan_measure, hn]
      rw [hs]
      dsimp only
      rw [hp]
      simp only [Bool.false_eq_true, ↓reduceIte]
      rw [hdata]
      split
      · -- a long option
        next x rest2 heq =>
        have hb : ({ a with nextchar := rest2 } : getopt_data).optind
            < ({ a with nextchar := rest2 } : getopt_data).argv.length := hlt
        obtain ⟨R, Rnc, Rok⟩ := process_long_option_spec { a with nextchar := rest2 } hb
        generalize process_long_option optstring opt_long { a with nextchar := rest2 } = r
          at R Rnc Rok ⊢
        refine ⟨read_inv _ _ R (by dsimp only; have := hd.pos; omega) hb A.fl A.lo, ?_, Rok, ?_⟩
        · have ra : r.2.argv = a.argv := R.argv
          rcases R.adv with ⟨h1, _, _⟩ | ⟨_, h2, _⟩
          · exact absurd Rnc h1
          · dsimp only at h2
            have := weight_drop_mono a.argv (a.optind + 1) r.2.optind (by omega)
            rw [hμ]
            simp only [scan_measure, Rnc, ↓reduceIte, ra]
            rw [Asfx] at hw
            omega
        · rw [R.argv]
          exact Alen
      · -- a cluster of short options
        next x rest2 hne heq =>
        have e2 : rest2 = c :: rest := by
          simp only [List.cons.injEq] at heq
          exact heq.2.symm
        subst e2
        have hb : ({ a with nextchar := c :: rest } : getopt_data).optind
            < ({ a with nextchar := c :: rest } : getopt_data).argv.length := hlt
        obtain ⟨R, Rok⟩ := short_option_spec { a with nextchar := c :: rest } (by simp) hb
        have rm := read_measure _ _ R (by simp)
        generalize short_option optstring { a with nextchar := c :: rest } = r
          at R Rok rm ⊢
        refine ⟨read_inv _ _ R (by dsimp only; have := hd.pos; omega) hb A.fl A.lo, ?_, Rok, ?_⟩
        · have e : scan_measure ({ a with nextchar := c :: rest } : getopt_data)
              = weight (a.argv.drop (a.optind + 1)) + (rest.length + 1) := by
            simp [scan_measure]
          rw [e] at rm
          rw [hμ]
          rw [Asfx] at hw
          omega
        · rw [R.argv]
          exact Alen
      · next heq => simp at heq
  · rw [if_neg hn]
    right
    have hb : ({ d with optarg := none } : getopt_data).optind
        < ({ d with optarg := none } : getopt_data).argv.length := hd.nc hn
    obtain ⟨R, Rok⟩ := short_option_spec { d with optarg := none } hn hb
    have rm := read_measure _ _ R hn
    generalize short_option optstring { d with optarg := none } = r at R Rok rm ⊢
    refine ⟨read_inv _ _ R hd.pos hb hd.fl hd.lo, ?_, Rok, ?_⟩
    · have e : scan_measure ({ d with optarg := none } : getopt_data) = scan_measure d := rfl
      rw [e] at rm
      exact rm
    · rw [R.argv]

/-! ## Invariants of the parser -/

theorem extend_eq (s : parse_state) (t : cmd_op_type) (p : Option String)
    (h : s.res_count = s.result.length) :
    s.extend t p = { s with res_count := s.result.length + 1, result := s.result ++ [⟨t, p⟩] } := by
  unfold parse_state.extend
  rw [h, result_extend_length]

theorem crash3 (result : List cmd_op) (a b c : String) :
    IsCrash (cmd_arg_crash result [some a, some b, some c]) := by
  refine ⟨[a, b, c], by simp, ?_⟩
  rw [cmd_arg_crash_eq]
  rfl

theorem option_switch_spec (c : Int) (s : parse_state) (hc : RetOK c s.d)
    (hcnt : s.res_count = s.result.length) (hlt : s.d.optind - 1 < s.d.argv.length) :
    (∃ r, option_switch c s = .returned r ∧ IsCrash r)
      ∨ (∃ t p, option_switch c s = .running (appended s t p)
          ∧ is_scanned t = true ∧ t ≠ COT_NO_OP ∧ p.isSome = needs_param t) := by
  obtain ⟨tok, htok⟩ : ∃ tok, s.d.argv[s.d.optind - 1]? = some tok :=
    ⟨_, List.getElem?_eq_getElem hlt⟩
  rcases hc with h | h | h | ⟨h, ho⟩
  · subst h
    left
    refine ⟨_, ?_, crash3 s.result "Unrecognized option " tok "\n"⟩
    simp [option_switch, chr, cmd_unrecognized, htok]
  · subst h
    left
    refine ⟨_, ?_, crash3 s.result "Missing additional argument for " tok "\n"⟩
    simp [option_switch, chr, htok]
  · right
    simp only [noarg_codes, List.mem_cons, List.mem_singleton, List.not_mem_nil, or_false] at h
    rcases h with h | h | h | h | h | h | h <;> subst h
    · exact ⟨COT_HELP, none, by simp [option_switch, chr, extend_eq, hcnt, appended, is_exclusive,
        is_install_remove], rfl, by decide, rfl⟩
    · exact ⟨COT_JOURNAL_RESUME, none, by simp [option_switch, chr, extend_eq, hcnt, appended,
        is_exclusive, is_install_remove], rfl, by decide, rfl⟩
    · exact ⟨COT_JOURNAL_ABORT, none, by simp [option_switch, chr, extend_eq, hcnt, appended,
        is_exclusive, is_install_remove], rfl, by decide, rfl⟩
    · exact ⟨COT_BATCH, none, by simp [option_switch, chr, extend_eq, hcnt, appended,
        is_exclusive, is_install_remove, OPT_BATCH_VAL], rfl, by decide, rfl⟩
    · exact ⟨COT_REEXEC, none, by simp [option_switch, chr, extend_eq, hcnt, appended,
        is_exclusive, is_install_remove, OPT_BATCH_VAL, OPT_REEXEC_VAL], rfl, by decide, rfl⟩
    · exact ⟨COT_STATE_LOG, none, by simp [option_switch, chr, extend_eq, hcnt, appended,
        is_exclusive, is_install_remove, OPT_BATCH_VAL, OPT_REEXEC_VAL, OPT_STATE_LOG_VAL],
        rfl, by decide, rfl⟩
    · exact ⟨COT_ASK_APPROVAL, none, by simp [option_switch, chr, extend_eq, hcnt, appended,
        is_exclusive, is_install_remove, OPT_BATCH_VAL, OPT_REEXEC_VAL, OPT_STATE_LOG_VAL,
        OPT_ASK_APPROVAL_VAL], rfl, by decide, rfl⟩
  · right
    obtain ⟨a, ha⟩ := Option.isSome_iff_exists.mp ho
    simp only [arg_codes, List.mem_cons, List.mem_singleton, List.not_mem_nil, or_false] at h
    rcases h with h | h | h | h | h | h | h <;> subst h
    · exact ⟨COT_INSTALL, some a, by simp [option_switch, chr, with_optarg, ha, extend_eq, hcnt,
        appended, is_exclusive, is_install_remove], rfl, by decide, rfl⟩
    · exact ⟨COT_REMOVE, some a, by simp [option_switch, chr, with_optarg, ha, extend_eq, hcnt,
        appended, is_exclusive, is_install_remove], rfl, by decide, rfl⟩
    · exact ⟨COT_ROOT_DIR, some a, by simp [option_switch, chr, with_optarg, ha, extend_eq, hcnt,
        appended, is_exclusive, is_install_remove], rfl, by decide, rfl⟩
    · exact ⟨COT_SYSLOG_LEVEL, some a, by simp [option_switch, chr, with_optarg, ha, extend_eq,
        hcnt, appended, is_exclusive, is_install_remove], rfl, by decide, rfl⟩
    · exact ⟨COT_SYSLOG_NAME, some a, by simp [option_switch, chr, with_optarg, ha, extend_eq,
        hcnt, appended, is_exclusive, is_install_remove], rfl, by decide, rfl⟩
    · exact ⟨COT_STDERR_LEVEL, some a, by simp [option_switch, chr, with_optarg, ha, extend_eq,
        hcnt, appended, is_exclusive, is_install_remove], rfl, by decide, rfl⟩
    · exact ⟨COT_APPROVE, some a, by simp [option_switch, chr, ha, extend_eq, hcnt,
        appended, is_exclusive, is_install_remove, OPT_BATCH_VAL, OPT_REEXEC_VAL,
        OPT_STATE_LOG_VAL, OPT_ASK_APPROVAL_VAL, OPT_APPROVE_VAL], rfl, by decide, rfl⟩

theorem RInv_mono (P Q : cmd_op_type → Bool) (s : parse_state)
    (hPQ : ∀ t, P t = true → Q t = true) (h : RInv P s) : RInv Q s :=
  ⟨h.cnt, fun op hop => ⟨hPQ _ (h.ops op hop).acc, (h.ops op hop).tag, (h.ops op hop).par⟩,
    h.excl, h.ir⟩

theorem RInv_appended (map : cmd_op_type → Bool) (s : parse_state) (t : cmd_op_type)
    (p : Option String) (h : RInv map s) (hacc : map t = true) (htag : is_scanned t = true)
    (hpar : p.isSome = needs_param t) : RInv map (appended s t p) := by
  refine ⟨by simp [appended], ?_, ?_, ?_⟩
  · intro op hop
    simp only [appended, List.mem_append, List.mem_singleton] at hop
    rcases hop with hop | hop
    · exact h.ops op hop
    · subst hop
      exact ⟨hacc, htag, hpar⟩
  · simp [appended, h.excl]
  · simp [appended, h.ir]

theorem scan_body_spec (map : cmd_op_type → Bool) (s : parse_state) (hg : GInv s.d)
    (hr : RInv (option_tags map) s) : BodyPost (option_tags map) s (scan_body map s) := by
  unfold scan_body
  dsimp only
  rcases getopt_long_spec s.d hg with ⟨h1, h2, h3⟩ | ⟨hG, hμ, hok, hlen⟩
  · rw [if_pos h1]
    exact ⟨⟨hr.cnt, hr.ops, hr.excl, hr.ir⟩, h1, rfl⟩
  · rw [if_neg (RetOK_ne _ _ hok)]
    have hne := RetOK_ne _ _ hok
    unfold BodyPost
    generalize getopt_long optstring opt_long s.d = g at hG hμ hok hlen hne ⊢
    have hlt : g.2.optind - 1 < g.2.argv.length := by
      have := hG.pos
      have := hG.le
      omega
    have hr2 : RInv (option_tags map) { s with d := g.2 } := ⟨hr.cnt, hr.ops, hr.excl, hr.ir⟩
    rcases option_switch_spec g.1 { s with d := g.2 } hok hr.cnt hlt with
      ⟨r, e, hc⟩ | ⟨t, p, e, htag, hno, hpar⟩
    · rw [e]
      exact hc
    · rw [e]
      dsimp only
      have hget : ((appended { s with d := g.2 } t p).result.getD
          ((appended { s with d := g.2 } t p).res_count - 1) uninit).type = t := by
        simp only [appended, Nat.add_sub_cancel]
        rw [getD_length_append]
      rw [hget]
      by_cases hm : map t = true
      · simp only [hm, Bool.not_true, Bool.false_eq_true, ↓reduceIte]
        have hm2 : option_tags map t = true := by simp [option_tags, hm, hno]
        exact ⟨hG, RInv_appended _ _ t p hr2 hm2 htag hpar, hμ, hne, rfl⟩
      · simp only [hm, Bool.not_false, ↓reduceIte]
        obtain ⟨tok, htok⟩ : ∃ tok, g.2.argv[g.2.optind - 1]? = some tok :=
          ⟨_, List.getElem?_eq_getElem hlt⟩
        show IsCrash (cmd_unrecognized _ (g.2.argv[g.2.optind - 1]?))
        rw [htok]
        exact crash3 _ _ _ _

theorem scan_options_spec (map : cmd_op_type → Bool) :
    ∀ (fuel : Nat) (s : parse_state), GInv s.d → RInv (option_tags map) s →
      scan_measure s.d < fuel → LoopPost (option_tags map) (scan_options map fuel s) := by
  intro fuel
  induction fuel with
  | zero => intro s _ _ h; omega
  | succ n ih =>
    intro s hg hr hm
    have hb := scan_body_spec map s hg hr
    rw [scan_options]
    cases hs : scan_body map s with
    | failed => rw [hs] at hb; exact hb
    | returned r => rw [hs] at hb; exact hb
    | running s1 =>
      rw [hs] at hb
      obtain ⟨g1, r1, m1, _⟩ := hb
      exact ih s1 g1 r1 (by omega)
    | finished s1 =>
      rw [hs] at hb
      exact hb.1

theorem scan_nonoptions_spec (map : cmd_op_type → Bool) :
    ∀ (n : Nat) (s : parse_state), RInv map s → LoopPost map (scan_nonoptions map n s) := by
  intro n
  induction n with
  | zero => intro s hr; exact hr
  | succ n ih =>
    intro s hr
    rw [scan_nonoptions]
    by_cases hlt : s.d.optind < s.d.argv.length
    · rw [if_pos hlt]
      obtain ⟨tok, htok⟩ : ∃ tok, s.d.argv[s.d.optind]? = some tok :=
        ⟨_, List.getElem?_eq_getElem hlt⟩
      by_cases hm : map COT_NO_OP = true
      · simp only [hm, Bool.not_true, Bool.false_eq_true, ↓reduceIte]
        rw [extend_eq _ _ _ hr.cnt, htok]
        apply ih
        have := RInv_appended map s COT_NO_OP (some tok) hr hm rfl rfl
        refine ⟨by simp, this.ops, ?_, ?_⟩
        · have := this.excl
          simpa [appended, is_exclusive] using this
        · have := this.ir
          simpa [appended, is_install_remove] using this
      · simp only [hm, Bool.not_false, ↓reduceIte]
        show IsCrash (cmd_unrecognized _ _)
        rw [htok]
        exact crash3 _ _ _ _
    · rw [if_neg hlt]
      exact hr

theorem length_filter_add (l : List cmd_op) :
    (l.filter (fun o => is_setting o.type)).length
      + (l.filter (fun o => !is_setting o.type)).length = l.length := by
  induction l with
  | nil => rfl
  | cons a l ih =>
    by_cases h : is_setting a.type = true
    · simp [List.filter_cons, h]; omega
    · simp [List.filter_cons, h]; omega

theorem settings_first_length (l : List cmd_op) : (settings_first l).length = l.length := by
  simp [settings_first, length_filter_add]

/-- The end of `cmd_args_parse` in closed form. -/
theorem finish_eq (s : parse_state) (hcnt : s.res_count = s.result.length) :
    finish s =
      if s.exclusive_cmd = true
          ∧ ((s.result.filter (fun o => !is_setting o.type)).length ≠ 1
              ∨ s.install_remove = true) then
        [⟨COT_ERR_MSG, some "Incompatible commands\n"⟩, ⟨COT_HELP, none⟩, ⟨COT_CRASH, none⟩]
      else settings_first s.result ++ [⟨COT_EXIT, none⟩] := by
  unfold finish
  dsimp only
  rw [hcnt, move_settings_eq]
  dsimp only
  have hl := length_filter_add s.result
  have e : s.result.length - (s.result.filter (fun o => is_setting o.type)).length
      = (s.result.filter (fun o => !is_setting o.type)).length := by omega
  rw [e]
  split_ifs with h
  · rw [cmd_arg_crash_eq]
    rfl
  · have := result_extend_length (settings_first s.result) COT_EXIT none
    rw [settings_first_length] at this
    show (result_extend s.result.length (settings_first s.result) COT_EXIT none).2 = _
    rw [this]

theorem start_GInv (argv : List String) (h : argv ≠ []) : GInv (getopt_start argv) := by
  refine ⟨Nat.le_refl _, ?_, Nat.le_refl _, Nat.le_refl _, fun hh => absurd rfl hh⟩
  cases argv with
  | nil => exact absurd rfl h
  | cons a l => simp [getopt_start]

theorem start_RInv (P : cmd_op_type → Bool) (argv : List String) : RInv P (parse_start argv) :=
  ⟨rfl, fun _ h => by simp [parse_start] at h, rfl, rfl⟩

theorem start_measure (argv : List String) :
    scan_measure (parse_start argv).d < scan_fuel argv := by
  have := weight_drop_mono argv 0 1 (Nat.zero_le _)
  simp only [List.drop_zero] at this
  simp only [scan_measure, parse_start, getopt_start, ↓reduceIte, scan_fuel]
  simp only [weight] at *
  omega

theorem option_tags_le (map : cmd_op_type → Bool) (t : cmd_op_type)
    (h : option_tags map t = true) : map t = true := by
  simp only [option_tags, Bool.and_eq_true] at h
  exact h.1

/-- The two scanning loops end, with a crash sequence or with a state that
satisfies the invariant. -/
theorem scan_spec (argv : List String) (map : cmd_op_type → Bool) :
    LoopPost map (scan argv map) := by
  unfold scan
  by_cases hargv : argv = []
  · subst hargv
    exact start_RInv map []
  · have h := scan_options_spec map (scan_fuel argv) (parse_start argv)
      (start_GInv argv hargv) (start_RInv _ argv) (start_measure argv)
    cases hs : scan_options map (scan_fuel argv) (parse_start argv) with
    | failed => rw [hs] at h; exact h
    | returned r => rw [hs] at h; exact h
    | running s1 => rw [hs] at h; exact h
    | finished s1 =>
      rw [hs] at h
      exact scan_nonoptions_spec map _ s1 (RInv_mono _ _ _ (option_tags_le map) h)

theorem mem_settings_first (l : List cmd_op) (op : cmd_op) :
    op ∈ settings_first l ↔ op ∈ l := by
  simp only [settings_first, List.mem_append, List.mem_filter]
  constructor
  · rintro (h | h) <;> exact h.1
  · intro h
    by_cases hs : is_setting op.type = true
    · exact Or.inl ⟨h, hs⟩
    · exact Or.inr ⟨h, by simpa using hs⟩

/-- The parser returns, and what it returns is a crash sequence or a
successful result. -/
theorem parse_shape (argv : List String) (accepts : List cmd_op_type) :
    ∃ r, cmd_args_parse argv accepts = some r
      ∧ (IsCrash r ∨ IsSuccess (cmd_op_accepts_map accepts) r) := by
  have h := scan_spec argv (cmd_op_accepts_map accepts)
  unfold cmd_args_parse
  cases hs : scan argv (cmd_op_accepts_map accepts) with
  | failed => rw [hs] at h; exact absurd h id
  | returned r => rw [hs] at h; exact ⟨r, rfl, Or.inl h⟩
  | running s1 => rw [hs] at h; exact absurd h id
  | finished s1 =>
    rw [hs] at h
    refine ⟨finish s1, rfl, ?_⟩
    rw [finish_eq s1 h.cnt]
    split_ifs
    · left
      exact ⟨["Incompatible commands\n"], by simp, rfl⟩
    · right
      exact ⟨settings_first s1.result, rfl,
        fun op hop => h.ops op ((mem_settings_first _ _).mp hop)⟩

theorem accepts_loop_iff (accepts : List cmd_op_type) :
    ∀ (map : cmd_op_type → Bool) (t : cmd_op_type),
      accepts_loop accepts map t = true ↔ (t ∈ whitelist accepts ∨ map t = true) := by
  induction accepts with
  | nil => intro map t; simp [accepts_loop, whitelist]
  | cons a l ih =>
    intro map t
    rw [accepts_loop]
    by_cases ha : a = COT_LAST
    · simp [ha, whitelist]
    · rw [if_neg ha, ih]
      have hw : whitelist (a :: l) = a :: whitelist l := by
        simp [whitelist, List.takeWhile_cons, ha]
      rw [hw]
      by_cases hta : t = a
      · subst hta
        simp
      · simp [Function.update, hta]

/-- The membership map holds the tags the array lists and the three tags
that are always allowed. -/
theorem accepts_map_iff (accepts : List cmd_op_type) (t : cmd_op_type) :
    cmd_op_accepts_map accepts t = true
      ↔ (t ∈ whitelist accepts ∨ t = COT_EXIT ∨ t = COT_CRASH ∨ t = COT_HELP) := by
  unfold cmd_op_accepts_map
  by_cases h1 : t = COT_EXIT
  · subst h1; simp
  · by_cases h2 : t = COT_CRASH
    · subst h2; simp [Function.update]
    · by_cases h3 : t = COT_HELP
      · subst h3; simp [Function.update]
      · simp [Function.update, h1, h2, h3, accepts_loop_iff]

theorem IsCrash_getLast (r : List cmd_op) (h : IsCrash r) :
    r.getLast? = some ⟨COT_CRASH, none⟩ := by
  obtain ⟨msgs, _, e⟩ := h
  subst e
  simp [List.getLast?_append]

theorem IsCrash_dropLast (r : List cmd_op) (h : IsCrash r) (op : cmd_op)
    (hop : op ∈ r.dropLast) : op.type = COT_ERR_MSG ∨ op.type = COT_HELP := by
  obtain ⟨msgs, _, e⟩ := h
  subst e
  have e2 : (msgs.map (fun m => (⟨COT_ERR_MSG, some m⟩ : cmd_op))
      ++ [(⟨COT_HELP, none⟩ : cmd_op), ⟨COT_CRASH, none⟩]).dropLast
      = msgs.map (fun m => (⟨COT_ERR_MSG, some m⟩ : cmd_op)) ++ [⟨COT_HELP, none⟩] := by
    rw [List.dropLast_append_cons]
    rfl
  rw [e2] at hop
  simp only [List.mem_append, List.mem_map, List.mem_singleton] at hop
  rcases hop with ⟨m, _, rfl⟩ | rfl
  · exact Or.inl rfl
  · exact Or.inr rfl

theorem IsCrash_param (r : List cmd_op) (h : IsCrash r) (op : cmd_op) (hop : op ∈ r) :
    op.parameter.isSome = needs_param op.type := by
  obtain ⟨msgs, _, e⟩ := h
  subst e
  simp only [List.mem_append, List.mem_map, List.mem_cons, List.mem_singleton,
    List.not_mem_nil, or_false] at hop
  rcases hop with ⟨m, _, rfl⟩ | rfl | rfl <;> rfl

theorem OpOK_ne (map : cmd_op_type → Bool) (op : cmd_op) (h : OpOK map op) :
    op.type ≠ COT_EXIT ∧ op.type ≠ COT_CRASH ∧ op.type ≠ COT_ERR_MSG := by
  have := h.tag
  refine ⟨?_, ?_, ?_⟩ <;> intro e <;> rw [e] at this <;> exact absurd this (by decide)

/-! ## States the option loop reaches -/

theorem scan_rounds_spec (map : cmd_op_type → Bool) :
    ∀ (k : Nat) (s t : parse_state) (fuel : Nat), GInv s.d → RInv (option_tags map) s →
      scan_measure s.d < fuel → scan_rounds map k s = some t →
      GInv t.d ∧ RInv (option_tags map) t
        ∧ ∃ fuel2, scan_measure t.d < fuel2
            ∧ scan_options map fuel s = scan_options map fuel2 t := by
  intro k
  induction k with
  | zero =>
    intro s t fuel hg hr hm h
    simp only [scan_rounds, Option.some.injEq] at h
    subst h
    exact ⟨hg, hr, fuel, hm, rfl⟩
  | succ k ih =>
    intro s t fuel hg hr hm h
    rw [scan_rounds] at h
    have hb := scan_body_spec map s hg hr
    cases hs : scan_body map s with
    | failed => rw [hs] at h; simp at h
    | returned r => rw [hs] at h; simp at h
    | finished s1 => rw [hs] at h; simp at h
    | running s1 =>
      rw [hs] at h hb
      dsimp only at h
      obtain ⟨g1, r1, m1, _⟩ := hb
      cases fuel with
      | zero => omega
      | succ n =>
        obtain ⟨gt, rt, fuel2, hm2, e⟩ := ih s1 t n g1 r1 (by omega) h
        refine ⟨gt, rt, fuel2, hm2, ?_⟩
        rw [scan_options, hs]
        exact e

theorem scan_body_nil (map : cmd_op_type → Bool) :
    scan_body map (parse_start []) = .finished (parse_start []) := rfl

/-- A round of the option loop that returns, in a state the loop reaches,
gives the result of the parser. -/
theorem parse_of_round (argv : List String) (accepts : List cmd_op_type) (k : Nat)
    (s : parse_state) (r : List cmd_op)
    (hk : scan_rounds (cmd_op_accepts_map accepts) k (parse_start argv) = some s)
    (hb : scan_body (cmd_op_accepts_map accepts) s = .returned r) :
    cmd_args_parse argv accepts = some r := by
  by_cases hargv : argv = []
  · subst hargv
    cases k with
    | zero =>
      simp only [scan_rounds, Option.some.injEq] at hk
      subst hk
      rw [scan_body_nil] at hb
      simp at hb
    | succ k =>
      rw [scan_rounds, scan_body_nil] at hk
      simp at hk
  · obtain ⟨_, _, fuel2, hm2, e⟩ := scan_rounds_spec _ k _ s (scan_fuel argv)
      (start_GInv argv hargv) (start_RInv _ argv) (start_measure argv) hk
    cases fuel2 with
    | zero => omega
    | succ n =>
      rw [scan_options, hb] at e
      unfold cmd_args_parse scan
      rw [e]

theorem reached_GInv (argv : List String) (map : cmd_op_type → Bool) (k : Nat)
    (s : parse_state) (hargv : argv ≠ [])
    (hk : scan_rounds map k (parse_start argv) = some s) :
    GInv s.d ∧ RInv (option_tags map) s :=
  let h := scan_rounds_spec map k _ s (scan_fuel argv)
    (start_GInv argv hargv) (start_RInv _ argv) (start_measure argv) hk
  ⟨h.1, h.2.1⟩

theorem skip_nonoptions_prefix (argv : List String) (tok : String) (rest : List String) :
    ∀ (nonopts : List String) (n k : Nat), argv.drop k = nonopts ++ tok :: rest →
      (∀ a ∈ nonopts, NONOPTION_P a = true) → NONOPTION_P tok = false → nonopts.length < n →
      skip_nonoptions argv n k = k + nonopts.length := by
  intro nonopts
  induction nonopts with
  | nil =>
    intro n k hd _ ht hn
    cases n with
    | zero => simp at hn
    | succ n =>
      have h0 : argv[k]? = some tok := by
        have := congrArg (fun l => l[0]?) hd
        simpa using this
      simp [skip_nonoptions, h0, ht]
  | cons x xs ih =>
    intro n k hd hx ht hn
    cases n with
    | zero => simp at hn
    | succ n =>
      have h0 : argv[k]? = some x := by
        have := congrArg (fun l => l[0]?) hd
        simpa using this
      have h1 : argv.drop (k + 1) = xs ++ tok :: rest := by
        have := congrArg (fun l => l.drop 1) hd
        simpa using this
      have hxp : NONOPTION_P x = true := hx x (List.mem_cons_self _ _)
      rw [skip_nonoptions, h0]
      simp only [hxp, ↓reduceIte]
      rw [ih n (k + 1) h1 (fun a ha => hx a (List.mem_cons_of_mem _ ha)) ht
        (by simpa using hn)]
      simp only [List.length_cons]
      omega

theorem getElem?_length_append (pre : List String) (x : String) (post : List String) :
    (pre ++ x :: post)[pre.length]? = some x := by
  induction pre with
  | nil => simp
  | cons a pre ih => simpa using ih

theorem getElem?_of_drop (l : List String) (i : Nat) (pre : List String) (x : String)
    (post : List String) (h : l.drop i = pre ++ x :: post) :
    l[i + pre.length]? = some x := by
  rw [← List.getElem?_drop, h]
  exact getElem?_length_append pre x post

/-- The steps before the reading of an element, when after some non-options
an option element `tok` other than `--` comes: the scanner stops at `tok`. -/
theorem getopt_advance_to_option (d : getopt_data) (hfl : d.first_nonopt ≤ d.last_nonopt)
    (hlo : d.last_nonopt ≤ d.optind) (hle : d.optind ≤ d.argv.length)
    (nonopts : List String) (tok : String) (rest : List String)
    (hd : d.argv.drop d.optind = nonopts ++ tok :: rest)
    (hno : ∀ a ∈ nonopts, NONOPTION_P a = true) (ht : NONOPTION_P tok = false)
    (hdd : tok ≠ "--") :
    (getopt_advance d).argv.length = d.argv.length
      ∧ (getopt_advance d).optind = d.optind + nonopts.length
      ∧ (getopt_advance d).argv[(getopt_advance d).optind]? = some tok
      ∧ (getopt_advance d).argv.drop ((getopt_advance d).optind + 1) = rest
      ∧ (getopt_advance d).nextchar = d.nextchar
      ∧ (getopt_advance d).optarg = d.optarg := by
  obtain ⟨p1, p2, _, p4, p5⟩ := getopt_permute_spec d hfl hlo hle
  have p6 : (getopt_permute d).optarg = d.optarg := by
    unfold getopt_permute
    dsimp only
    split_ifs <;> rfl
  have hd2 : (getopt_permute d).argv.drop d.optind = nonopts ++ tok :: rest := by rw [p4, hd]
  have hlen : d.argv.length - d.optind = nonopts.length + (rest.length + 1) := by
    have := congrArg List.length hd
    simpa using this
  have hskip : skip_nonoptions (getopt_permute d).argv
      ((getopt_permute d).argv.length - (getopt_permute d).optind) (getopt_permute d).optind
      = d.optind + nonopts.length := by
    rw [p1, p2]
    exact skip_nonoptions_prefix _ tok rest nonopts _ _ hd2 hno ht (by omega)
  have htok : (getopt_permute d).argv[d.optind + nonopts.length]? = some tok :=
    getElem?_of_drop _ _ _ _ _ hd2
  have hrest : (getopt_permute d).argv.drop (d.optind + nonopts.length + 1) = rest := by
    have := congrArg (fun l => l.drop (nonopts.length + 1)) hd2
    simp only [List.drop_drop] at this
    rw [show d.optind + (nonopts.length + 1) = d.optind + nonopts.length + 1 from rfl] at this
    rw [this]
    simp
  have hk : getopt_dashdash (getopt_skip (getopt_permute d)) = getopt_skip (getopt_permute d) := by
    unfold getopt_dashdash
    have : ¬ ((getopt_skip (getopt_permute d)).optind ≠ (getopt_skip (getopt_permute d)).argv.length
        ∧ (getopt_skip (getopt_permute d)).argv[(getopt_skip (getopt_permute d)).optind]?
          = some "--") := by
      rintro ⟨_, h2⟩
      simp only [getopt_skip, hskip, htok, Option.some.injEq] at h2
      exact hdd h2
    rw [if_neg this]
  unfold getopt_advance
  rw [hk]
  simp only [getopt_skip, hskip]
  exact ⟨p1, trivial, htok, hrest, p5, p6⟩

theorem getopt_read_option (a : getopt_data) (tok : String)
    (h : a.argv[a.optind]? = some tok) (hp : NONOPTION_P tok = false) :
    getopt_read optstring opt_long a
      = match tok.data with
        | _ :: '-' :: rest => process_long_option optstring opt_long { a with nextchar := rest }
        | _ :: rest => short_option optstring { a with nextchar := rest }
        | [] => (-1, a) := by
  have hlt : a.optind ≠ a.argv.length := by
    have := (List.getElem?_eq_some_iff.mp h).1
    omega
  unfold getopt_read
  dsimp only
  rw [if_neg hlt, h]
  dsimp only
  rw [hp]
  rfl

theorem getopt_long_boundary (d : getopt_data) (hg : GInv d) (hnc : d.nextchar = []) :
    getopt_long optstring opt_long d
      = getopt_read optstring opt_long (getopt_advance { d with optarg := none }) := by
  have hargc : ¬ d.argv.length < 1 := by
    have := hg.pos
    have := hg.le
    omega
  unfold getopt_long
  dsimp only
  rw [if_neg hargc, if_pos hnc]

theorem getopt_long_cluster (d : getopt_data) (hg : GInv d) (hnc : d.nextchar ≠ []) :
    getopt_long optstring opt_long d = short_option optstring { d with optarg := none } := by
  have hargc : ¬ d.argv.length < 1 := by
    have := hg.pos
    have := hg.le
    omega
  unfold getopt_long
  dsimp only
  rw [if_neg hargc, if_neg hnc]

theorem scan_body_question (map : cmd_op_type → Bool) (s : parse_state) (d1 : getopt_data)
    (tok : String) (hg : getopt_long optstring opt_long s.d = (chr '?', d1))
    (ht : d1.argv[d1.optind - 1]? = some tok) :
    scan_body map s = .returned [⟨COT_ERR_MSG, some "Unrecognized option "⟩,
      ⟨COT_ERR_MSG, some tok⟩, ⟨COT_ERR_MSG, some "\n"⟩, ⟨COT_HELP, none⟩,
      ⟨COT_CRASH, none⟩] := by
  unfold scan_body
  dsimp only
  rw [hg]
  simp [option_switch, chr, cmd_unrecognized, ht, cmd_arg_crash_eq]

theorem scan_body_colon (map : cmd_op_type → Bool) (s : parse_state) (d1 : getopt_data)
    (tok : String) (hg : getopt_long optstring opt_long s.d = (chr ':', d1))
    (ht : d1.argv[d1.optind - 1]? = some tok) :
    scan_body map s = .returned [⟨COT_ERR_MSG, some "Missing additional argument for "⟩,
      ⟨COT_ERR_MSG, some tok⟩, ⟨COT_ERR_MSG, some "\n"⟩, ⟨COT_HELP, none⟩,
      ⟨COT_CRASH, none⟩] := by
  unfold scan_body
  dsimp only
  rw [hg]
  simp [option_switch, chr, ht, cmd_arg_crash_eq]

theorem short_option_unknown (a : getopt_data) (c : Char) (hc : c ∉ option_letters) :
    short_option optstring { a with nextchar := [c] }
      = (chr '?', { a with nextchar := [], optind := a.optind + 1 }) := by
  simp only [option_letters, List.mem_cons, List.mem_singleton, List.not_mem_nil, or_false,
    not_or] at hc
  obtain ⟨h1, h2, h3, h4, h5, h6, h7, h8, h9⟩ := hc
  unfold short_option
  dsimp only
  by_cases hcolon : c = ':'
  · subst hcolon
    simp [strchr, optstring_data]
  · have hs : strchr optstring.data c = none := by
      rw [optstring_data]
      simp [strchr, Ne.symm hcolon, Ne.symm h1, Ne.symm h2, Ne.symm h3, Ne.symm h4,
        Ne.symm h5, Ne.symm h6, Ne.symm h7, Ne.symm h8, Ne.symm h9]
    rw [hs]
    simp

theorem unknown_token_option (tok : String) (h : unknown_token tok) :
    NONOPTION_P tok = false ∧ tok ≠ "--" := by
  rcases h with ⟨name, hd, hn, _⟩ | ⟨c, hd, hc, _⟩
  · constructor
    · cases name with
      | nil => exact absurd rfl hn
      | cons x xs => simp [NONOPTION_P, hd]
    · intro e
      subst e
      have : ("--" : String).data = ['-', '-'] := rfl
      rw [this] at hd
      simp only [List.cons.injEq, true_and] at hd
      exact hn hd.symm
  · constructor
    · simp [NONOPTION_P, hd]
    · intro e
      subst e
      have : ("--" : String).data = ['-', '-'] := rfl
      rw [this] at hd
      simp only [List.cons.injEq, true_and, and_true] at hd
      exact hc hd.symm

theorem getopt_read_unknown (a : getopt_data) (tok : String)
    (h : a.argv[a.optind]? = some tok) (hu : unknown_token tok) :
    getopt_read optstring opt_long a
      = (chr '?', { a with nextchar := [], optind := a.optind + 1 }) := by
  rw [getopt_read_option a tok h (unknown_token_option tok hu).1]
  rcases hu with ⟨name, hd, hn, hf⟩ | ⟨c, hd, hc, hl⟩
  · rw [hd]
    show process_long_option optstring opt_long { a with nextchar := name } = _
    unfold process_long_option
    dsimp only
    rcases hf with hf | hf <;> rw [hf]
  · rw [hd]
    split
    · next x rest heq =>
      simp only [List.cons.injEq] at heq
      exact absurd heq.2.1 hc
    · next x rest hne heq =>
      simp only [List.cons.injEq] at heq
      rw [← heq.2]
      exact short_option_unknown a c hl
    · next heq => simp at heq

theorem getopt_read_missing (a : getopt_data) (tok : String)
    (h : a.argv[a.optind]? = some tok) (hlast : a.optind + 1 = a.argv.length)
    (ht : tok ∈ value_option_tokens) :
    getopt_read optstring opt_long a
      = (chr ':', { a with nextchar := [], optind := a.optind + 1 }) := by
  simp only [value_option_tokens, List.mem_cons, List.mem_singleton, List.not_mem_nil,
    or_false] at ht
  rcases ht with e | e | e | e | e | e | e | e | e <;> subst e
  · rw [getopt_read_option a _ h (by decide)]
    show short_option optstring { a with nextchar := ['a'] } = _
    simp [short_option, strchr, optstring_data, hlast, missing_code]
  · rw [getopt_read_option a _ h (by decide)]
    show short_option optstring { a with nextchar := ['r'] } = _
    simp [short_option, strchr, optstring_data, hlast, missing_code]
  · rw [getopt_read_option a _ h (by decide)]
    show short_option optstring { a with nextchar := ['R'] } = _
    simp [short_option, strchr, optstring_data, hlast, missing_code]
  · rw [getopt_read_option a _ h (by decide)]
    show short_option optstring { a with nextchar := ['s'] } = _
    simp [short_option, strchr, optstring_data, hlast, missing_code]
  · rw [getopt_read_option a _ h (by decide)]
    show short_option optstring { a with nextchar := ['e'] } = _
    simp [short_option, strchr, optstring_data, hlast, missing_code]
  · rw [getopt_read_option a _ h (by decide)]
    show short_option optstring { a with nextchar := ['S'] } = _
    simp [short_option, strchr, optstring_data, hlast, missing_code]
  · rw [getopt_read_option a _ h (by decide)]
    show process_long_option optstring opt_long { a with nextchar := ['a', 'd', 'd'] } = _
    have hf : find_long_option opt_long
        (['a', 'd', 'd'].takeWhile (fun c => c ≠ '=')) = some (some ⟨"add", 1, chr 'a'⟩) := by
      decide
    unfold process_long_option
    dsimp only
    rw [hf]
    simp [hlast, missing_code, optstring_data]
  · rw [getopt_read_option a _ h (by decide)]
    show process_long_option optstring opt_long
      { a with nextchar := ['r', 'e', 'm', 'o', 'v', 'e'] } = _
    have hf : find_long_option opt_long
        (['r', 'e', 'm', 'o', 'v', 'e'].takeWhile (fun c => c ≠ '='))
        = some (some ⟨"remove", 1, chr 'r'⟩) := by
      decide
    unfold process_long_option
    dsimp only
    rw [hf]
    simp [hlast, missing_code, optstring_data]
  · rw [getopt_read_option a _ h (by decide)]
    show process_long_option optstring opt_long
      { a with nextchar := ['a', 'p', 'p', 'r', 'o', 'v', 'e'] } = _
    have hf : find_long_option opt_long
        (['a', 'p', 'p', 'r', 'o', 'v', 'e'].takeWhile (fun c => c ≠ '='))
        = some (some ⟨"approve", 1, OPT_APPROVE_VAL⟩) := by
      decide
    unfold process_long_option
    dsimp only
    rw [hf]
    simp [hlast, missing_code, optstring_data]

theorem value_token_option (tok : String) (ht : tok ∈ value_option_tokens) :
    NONOPTION_P tok = false ∧ tok ≠ "--" := by
  simp only [value_option_tokens, List.mem_cons, List.mem_singleton, List.not_mem_nil,
    or_false] at ht
  rcases ht with e | e | e | e | e | e | e | e | e <;> subst e <;> decide

/-! ## The permutation keeps the arguments and their order -/

theorem slice_append_drop (l : List String) (f o : Nat) (h : f ≤ o) :
    (l.drop f).take (o - f) ++ l.drop o = l.drop f := by
  have := List.take_append_drop (o - f) (l.drop f)
  rw [List.drop_drop] at this
  have e : f + (o - f) = o := by omega
  rw [e] at this
  exact this

theorem drop_sublist_drop (l : List String) (i j : Nat) (h : i ≤ j) :
    (l.drop j).Sublist (l.drop i) := by
  have e : l.drop j = (l.drop i).drop (j - i) := by
    rw [List.drop_drop]
    congr 1
    omega
  rw [e]
  exact List.drop_sublist _ _

theorem exchange_pending (d : getopt_data) (h1 : d.first_nonopt < d.last_nonopt)
    (h2 : d.last_nonopt < d.optind) (hle : d.optind ≤ d.argv.length) :
    pending (exchange d) = pending d := by
  have hs := (exchange_spec d hle).2
  have hg : d.optind > d.last_nonopt ∧ d.last_nonopt > d.first_nonopt := ⟨h2, h1⟩
  have hargv : (exchange d).argv
      = (d.argv.take d.first_nonopt
          ++ (d.argv.drop d.last_nonopt).take (d.optind - d.last_nonopt))
        ++ ((d.argv.drop d.first_nonopt).take (d.last_nonopt - d.first_nonopt)
          ++ d.argv.drop d.optind) := by
    simp only [exchange, hg, and_self, ↓reduceIte, List.append_assoc]
  have hl1 : (d.argv.take d.first_nonopt
      ++ (d.argv.drop d.last_nonopt).take (d.optind - d.last_nonopt)).length
      = d.first_nonopt + (d.optind - d.last_nonopt) := by
    simp only [List.length_append, List.length_take, List.length_drop]
    omega
  have hl2 : ((d.argv.drop d.first_nonopt).take (d.last_nonopt - d.first_nonopt)).length
      = d.optind - (d.first_nonopt + (d.optind - d.last_nonopt)) := by
    simp only [List.length_take, List.length_drop]
    omega
  unfold pending
  have e1 : (exchange d).first_nonopt = d.first_nonopt + (d.optind - d.last_nonopt) := rfl
  have e2 : (exchange d).last_nonopt = d.optind := rfl
  have e3 : (exchange d).optind = d.optind := rfl
  rw [e1, e2, e3, hs, hargv, List.drop_left' hl1, List.take_left' hl2]

theorem getopt_permute_pending (d : getopt_data) (hfl : d.first_nonopt ≤ d.last_nonopt)
    (hlo : d.last_nonopt ≤ d.optind) (hle : d.optind ≤ d.argv.length) :
    pending (getopt_permute d) = pending d
      ∧ pending (getopt_permute d)
          = (getopt_permute d).argv.drop (getopt_permute d).first_nonopt := by
  have ep := exchange_pending d
  have es := exchange_spec d hle
  rcases d with ⟨argv, optind, optarg, nc, f, l⟩
  dsimp only at *
  have m1 : min l optind = l := Nat.min_eq_left hlo
  have m2 : min f optind = f := Nat.min_eq_left (by omega)
  unfold getopt_permute
  dsimp only
  simp only [m1, m2]
  split_ifs with h1 h2
  · have hp := ep (by omega) (by omega) hle
    refine ⟨hp, ?_⟩
    have : pending (exchange ⟨argv, optind, optarg, nc, f, l⟩)
        = ((exchange ⟨argv, optind, optarg, nc, f, l⟩).argv.drop (f + (optind - l))).take
            (optind - (f + (optind - l)))
          ++ (exchange ⟨argv, optind, optarg, nc, f, l⟩).argv.drop optind := rfl
    rw [this]
    exact slice_append_drop _ _ _ (by omega)
  · have hfl2 : f = l := by
      by_contra hne
      exact h1 ⟨hne, h2⟩
    subst hfl2
    constructor
    · simp [pending]
      left
      omega
    · simp only [pending]
      have : f - optind = 0 := by omega
      rw [this]
      simp
  · have hlo2 : l = optind := by
      by_contra hne
      exact h2 hne
    subst hlo2
    refine ⟨rfl, ?_⟩
    simp only [pending]
    exact slice_append_drop _ _ _ hfl

theorem getopt_skip_pending (p : getopt_data)
    (hc : pending p = p.argv.drop p.first_nonopt) (hfo : p.first_nonopt ≤ p.optind)
    (hle : p.optind ≤ p.argv.length) :
    pending (getopt_skip p) = pending p
      ∧ pending (getopt_skip p) = (getopt_skip p).argv.drop (getopt_skip p).first_nonopt := by
  obtain ⟨k1, k2, _, k4, k5, _, _⟩ := getopt_skip_spec p hle
  have e : pending (getopt_skip p) = (getopt_skip p).argv.drop (getopt_skip p).first_nonopt := by
    unfold pending
    rw [k4]
    exact slice_append_drop _ _ _ (by omega)
  refine ⟨?_, e⟩
  rw [e, k1, k5, hc]

theorem take_drop_all (l : List String) (i : Nat) :
    (l.drop i).take (l.length - i) = l.drop i := by
  apply List.take_of_length_le
  simp

theorem getopt_dashdash_pending (k : getopt_data) (hle : k.optind ≤ k.argv.length)
    (hfl : k.first_nonopt ≤ k.last_nonopt) (hlo : k.last_nonopt = k.optind) :
    (pending (getopt_dashdash k)).Sublist (pending k)
      ∧ pending (getopt_dashdash k)
          = (getopt_dashdash k).argv.drop (getopt_dashdash k).first_nonopt := by
  have hck : pending k = k.argv.drop k.first_nonopt := by
    unfold pending
    rw [hlo]
    exact slice_append_drop _ _ _ (by omega)
  unfold getopt_dashdash
  dsimp only
  by_cases h : k.optind ≠ k.argv.length ∧ k.argv[k.optind]? = some "--"
  · rw [if_pos h]
    have hlt : k.optind + 1 ≤ k.argv.length := by
      have := h.1
      omega
    by_cases h1 : k.first_nonopt ≠ k.last_nonopt ∧ k.last_nonopt ≠ k.optind + 1
    · rw [if_pos h1]
      have hp := exchange_pending { k with optind := k.optind + 1 }
        (by have := h1.1; dsimp only; omega) (by dsimp only; omega) hlt
      have hlen := (exchange_spec { k with optind := k.optind + 1 } hlt).1
      have hce : pending (exchange { k with optind := k.optind + 1 })
          = (exchange { k with optind := k.optind + 1 }).argv.drop
              (exchange { k with optind := k.optind + 1 }).first_nonopt := by
        have : pending (exchange { k with optind := k.optind + 1 })
            = ((exchange { k with optind := k.optind + 1 }).argv.drop
                  (k.first_nonopt + (k.optind + 1 - k.last_nonopt))).take
                (k.optind + 1 - (k.first_nonopt + (k.optind + 1 - k.last_nonopt)))
              ++ (exchange { k with optind := k.optind + 1 }).argv.drop (k.optind + 1) := rfl
        rw [this]
        exact slice_append_drop _ _ _ (by omega)
      generalize exchange { k with optind := k.optind + 1 } = e at hp hlen hce
      have hlen2 : e.argv.length = k.argv.length := hlen
      have hfin : pending { e with last_nonopt := k.argv.length, optind := k.argv.length }
          = e.argv.drop e.first_nonopt := by
        simp only [pending]
        rw [← hlen2, take_drop_all, List.drop_length, List.append_nil]
      refine ⟨?_, hfin⟩
      rw [hfin, ← hce, hp]
      have e1 : pending { k with optind := k.optind + 1 }
          = (k.argv.drop k.first_nonopt).take (k.last_nonopt - k.first_nonopt)
            ++ k.argv.drop (k.optind + 1) := rfl
      rw [e1]
      exact List.Sublist.append (List.Sublist.refl _) (drop_sublist_drop _ _ _ (by omega))
    · have hfl2 : k.first_nonopt = k.last_nonopt := by
        by_contra hne
        exact h1 ⟨hne, by omega⟩
      rw [if_neg h1, if_pos hfl2]
      have hfin : pending ⟨k.argv, k.argv.length, k.optarg, k.nextchar, k.optind + 1, k.argv.length⟩
          = k.argv.drop (k.optind + 1) := by
        simp only [pending]
        rw [take_drop_all, List.drop_length, List.append_nil]
      refine ⟨?_, hfin⟩
      rw [hfin, hck, hfl2, hlo]
      exact drop_sublist_drop _ _ _ (by omega)
  · rw [if_neg h]
    exact ⟨List.Sublist.refl _, hck⟩

theorem getopt_advance_pending (d : getopt_data) (hfl : d.first_nonopt ≤ d.last_nonopt)
    (hlo : d.last_nonopt ≤ d.optind) (hle : d.optind ≤ d.argv.length) :
    (pending (getopt_advance d)).Sublist (pending d)
      ∧ pending (getopt_advance d)
          = (getopt_advance d).argv.drop (getopt_advance d).first_nonopt := by
  obtain ⟨p1, p2, p3, _, _⟩ := getopt_permute_spec d hfl hlo hle
  obtain ⟨q1, q2⟩ := getopt_permute_pending d hfl hlo hle
  have hle2 : (getopt_permute d).optind ≤ (getopt_permute d).argv.length := by omega
  obtain ⟨k1, k2, k3, k4, k5, _, _⟩ := getopt_skip_spec (getopt_permute d) hle2
  obtain ⟨r1, _⟩ := getopt_skip_pending (getopt_permute d) q2 (by omega) hle2
  obtain ⟨s1, s2⟩ := getopt_dashdash_pending (getopt_skip (getopt_permute d))
    (by rw [k1]; omega) (by omega) k4
  unfold getopt_advance
  refine ⟨?_, s2⟩
  rw [← q1, ← r1]
  exact s1

theorem read_pending (b r : getopt_data) (h : Read b r) :
    (pending r).Sublist (pending b) := by
  unfold pending
  rw [h.argv, h.first, h.last]
  have hle : b.optind ≤ r.optind := by
    rcases h.adv with ⟨_, h2, _⟩ | ⟨_, h2, _⟩ <;> omega
  exact List.Sublist.append (List.Sublist.refl _) (drop_sublist_drop _ _ _ hle)

theorem read_kept (argv0 : List String) (b r : getopt_data) (h : Read b r)
    (hk : Kept argv0 b) : Kept argv0 r := by
  have hle : b.optind ≤ r.optind := by
    rcases h.adv with ⟨_, h2, _⟩ | ⟨_, h2, _⟩ <;> omega
  refine ⟨by rw [h.argv]; exact hk.len, ?_, (read_pending b r h).trans hk.sub⟩
  rw [h.argv]
  exact drop_eq_of_le hk.tail hle

/-- The reading of an element, after the steps that precede it: the scan
ends, or an option is read. -/
theorem getopt_read_cases (a : getopt_data) (hle : a.optind ≤ a.argv.length)
    (hstop : a.optind < a.argv.length →
      ∃ s, a.argv[a.optind]? = some s ∧ NONOPTION_P s = false) :
    (a.optind = a.argv.length
        ∧ getopt_read optstring opt_long a
          = (-1, if a.first_nonopt ≠ a.last_nonopt then { a with optind := a.first_nonopt }
                 else a))
      ∨ (a.optind ≠ a.argv.length
        ∧ (getopt_read optstring opt_long a).1 ≠ -1
        ∧ ∃ nc, Read { a with nextchar := nc } (getopt_read optstring opt_long a).2) := by
  by_cases he : a.optind = a.argv.length
  · left
    refine ⟨he, ?_⟩
    unfold getopt_read
    dsimp only
    rw [if_pos he]
  · right
    refine ⟨he, ?_⟩
    have hlt : a.optind < a.argv.length := by omega
    obtain ⟨s, hs, hp⟩ := hstop hlt
    obtain ⟨c, rest, hdata⟩ := nonoption_false s hp
    rw [getopt_read_option a s hs hp, hdata]
    split
    · next x rest2 heq =>
      obtain ⟨R, _, Rok⟩ := process_long_option_spec { a with nextchar := rest2 } hlt
      exact ⟨RetOK_ne _ _ Rok, rest2, R⟩
    · next x rest2 hne heq =>
      have e2 : rest2 = c :: rest := by
        simp only [List.cons.injEq] at heq
        exact heq.2.symm
      subst e2
      obtain ⟨R, Rok⟩ := short_option_spec { a with nextchar := c :: rest } (by simp) hlt
      exact ⟨RetOK_ne _ _ Rok, c :: rest, R⟩
    · next heq => simp at heq

/-- One call of `getopt_long` keeps the relation to the vector the parser
was given; when it ends the scan, the elements it leaves from `optind` on
are arguments of that vector, in their order. -/
theorem getopt_long_kept (argv0 : List String) (d : getopt_data) (hg : GInv d)
    (hk : Kept argv0 d) :
    ((getopt_long optstring opt_long d).1 ≠ -1 → Kept argv0 (getopt_long optstring opt_long d).2)
      ∧ ((getopt_long optstring opt_long d).1 = -1 →
          ((getopt_long optstring opt_long d).2.argv.drop
              (getopt_long optstring opt_long d).2.optind).Sublist (argv0.drop 1)) := by
  have hk0 : Kept argv0 { d with optarg := none } := ⟨hk.len, hk.tail, hk.sub⟩
  by_cases hn : d.nextchar = []
  · rw [getopt_long_boundary d hg hn]
    have A := getopt_advance_spec { d with optarg := none } hg.fl hg.lo hg.le
    obtain ⟨P1, P2⟩ := getopt_advance_pending { d with optarg := none } hg.fl hg.lo hg.le
    generalize getopt_advance { d with optarg := none } = a at A P1 P2
    have Age : d.optind ≤ a.optind := A.ge
    have ka : Kept argv0 a := by
      refine ⟨by rw [A.len]; exact hk.len, ?_, P1.trans hk.sub⟩
      rw [A.suffix]
      exact drop_eq_of_le hk.tail Age
    rcases getopt_read_cases a A.le A.stop with ⟨he, e⟩ | ⟨_, hne, nc, R⟩
    · rw [e]
      refine ⟨fun h => absurd rfl h, fun _ => ?_⟩
      dsimp only
      split_ifs
      · dsimp only
        rw [← P2]
        exact ka.sub
      · have : (a.argv.drop a.optind).Sublist (pending a) := by
          unfold pending
          exact List.sublist_append_right _ _
        exact this.trans ka.sub
    · refine ⟨fun _ => ?_, fun h => absurd h hne⟩
      have kb : Kept argv0 { a with nextchar := nc } := ⟨ka.len, ka.tail, ka.sub⟩
      exact read_kept argv0 _ _ R kb
  · rw [getopt_long_cluster d hg hn]
    obtain ⟨R, Rok⟩ := short_option_spec { d with optarg := none } hn (hg.nc hn)
    exact ⟨fun _ => read_kept argv0 _ _ R hk0, fun h => absurd h (RetOK_ne _ _ Rok)⟩

theorem start_kept (argv : List String) : Kept argv (getopt_start argv) := by
  refine ⟨rfl, rfl, ?_⟩
  simp [pending, getopt_start]

theorem scan_rounds_kept (argv0 : List String) (map : cmd_op_type → Bool) :
    ∀ (k : Nat) (s t : parse_state), GInv s.d → RInv (option_tags map) s → Kept argv0 s.d →
      scan_rounds map k s = some t → Kept argv0 t.d := by
  intro k
  induction k with
  | zero =>
    intro s t _ _ hk h
    simp only [scan_rounds, Option.some.injEq] at h
    subst h
    exact hk
  | succ k ih =>
    intro s t hg hr hk h
    rw [scan_rounds] at h
    have hb := scan_body_spec map s hg hr
    cases hs : scan_body map s with
    | failed => rw [hs] at h; simp at h
    | returned r => rw [hs] at h; simp at h
    | finished s1 => rw [hs] at h; simp at h
    | running s1 =>
      rw [hs] at h hb
      dsimp only at h
      obtain ⟨g1, r1, _, hne, hd⟩ := hb
      have k1 : Kept argv0 s1.d := by
        rw [hd]
        exact (getopt_long_kept argv0 s.d hg hk).1 hne
      exact ih s1 t g1 r1 k1 h

theorem scan_options_kept (argv0 : List String) (map : cmd_op_type → Bool) :
    ∀ (fuel : Nat) (s t : parse_state), GInv s.d → RInv (option_tags map) s → Kept argv0 s.d →
      scan_options map fuel s = .finished t →
      (t.d.argv.drop t.d.optind).Sublist (argv0.drop 1) := by
  intro fuel
  induction fuel with
  | zero => intro s t _ _ _ h; simp [scan_options] at h
  | succ n ih =>
    intro s t hg hr hk h
    rw [scan_options] at h
    have hb := scan_body_spec map s hg hr
    cases hs : scan_body map s with
    | failed => rw [hs] at h; simp at h
    | returned r => rw [hs] at h; simp at h
    | finished s1 =>
      rw [hs] at h hb
      simp only [flow.finished.injEq] at h
      subst h
      obtain ⟨_, h1, hd⟩ := hb
      rw [hd]
      exact (getopt_long_kept argv0 s.d hg hk).2 h1
    | running s1 =>
      rw [hs] at h hb
      dsimp only at h
      obtain ⟨g1, r1, _, hne, hd⟩ := hb
      have k1 : Kept argv0 s1.d := by
        rw [hd]
        exact (getopt_long_kept argv0 s.d hg hk).1 hne
      exact ih s1 t g1 r1 k1 h

theorem reached_kept (argv : List String) (map : cmd_op_type → Bool) (k : Nat)
    (s : parse_state) (hargv : argv ≠ [])
    (hk : scan_rounds map k (parse_start argv) = some s) : Kept argv s.d :=
  scan_rounds_kept argv map k _ s (start_GInv argv hargv) (start_RInv _ argv)
    (start_kept argv) hk

/-! ## Lemmas for the claims -/

theorem any_iff (ops : List cmd_op) (f : cmd_op_type → Bool) :
    ops.any (fun o => f o.type) = true ↔ ∃ op ∈ ops, f op.type = true := by
  simp [List.any_eq_true]

theorem parse_of_scan (argv : List String) (accepts : List cmd_op_type) (s : parse_state)
    (h : scan argv (cmd_op_accepts_map accepts) = .finished s) :
    RInv (cmd_op_accepts_map accepts) s
      ∧ cmd_args_parse argv accepts = some
          (if incompatible s.result then
            [⟨COT_ERR_MSG, some "Incompatible commands\n"⟩, ⟨COT_HELP, none⟩,
              ⟨COT_CRASH, none⟩]
          else settings_first s.result ++ [⟨COT_EXIT, none⟩]) := by
  have hs := scan_spec argv (cmd_op_accepts_map accepts)
  rw [h] at hs
  refine ⟨hs, ?_⟩
  unfold cmd_args_parse
  rw [h]
  dsimp only
  rw [finish_eq s hs.cnt]
  have e : (s.exclusive_cmd = true
      ∧ ((s.result.filter (fun o => !is_setting o.type)).length ≠ 1
          ∨ s.install_remove = true)) ↔ incompatible s.result := by
    unfold incompatible
    rw [hs.excl, hs.ir, any_iff, any_iff]
  by_cases hi : incompatible s.result
  · rw [if_pos hi, if_pos (e.mpr hi)]
  · rw [if_neg hi, if_neg (fun x => hi (e.mp x))]

theorem parse_of_returned (argv : List String) (accepts : List cmd_op_type) (r : List cmd_op)
    (h : scan argv (cmd_op_accepts_map accepts) = .returned r) :
    IsCrash r ∧ cmd_args_parse argv accepts = some r := by
  have hs := scan_spec argv (cmd_op_accepts_map accepts)
  rw [h] at hs
  refine ⟨hs, ?_⟩
  unfold cmd_args_parse
  rw [h]

theorem reached_nonempty (map : cmd_op_type → Bool) (k : Nat) (s : parse_state)
    (hk : scan_rounds map k (parse_start []) = some s) : s = parse_start [] := by
  cases k with
  | zero =>
    simp only [scan_rounds, Option.some.injEq] at hk
    exact hk.symm
  | succ k =>
    rw [scan_rounds, scan_body_nil] at hk
    simp at hk

theorem scan_nonoptions_accept (map : cmd_op_type → Bool) (hm : map COT_NO_OP = true) :
    ∀ (toks : List String) (n : Nat) (s : parse_state), s.res_count = s.result.length →
      s.d.argv.drop s.d.optind = toks → toks.length ≤ n →
      ∃ t, scan_nonoptions map n s = .finished t
        ∧ t.result = s.result ++ toks.map (fun a => ⟨COT_NO_OP, some a⟩) := by
  intro toks
  induction toks with
  | nil =>
    intro n s _ hd _
    have hge : ¬ s.d.optind < s.d.argv.length := by
      have := List.drop_eq_nil_iff.mp hd
      omega
    cases n with
    | zero => exact ⟨s, rfl, by simp⟩
    | succ n =>
      rw [scan_nonoptions, if_neg hge]
      exact ⟨s, rfl, by simp⟩
  | cons x xs ih =>
    intro n s hcnt hd hn
    cases n with
    | zero => simp at hn
    | succ n =>
      have h0 : s.d.argv[s.d.optind]? = some x := by
        have := congrArg (fun l => l[0]?) hd
        simpa using this
      have hlt : s.d.optind < s.d.argv.length := (List.getElem?_eq_some_iff.mp h0).1
      have h1 : s.d.argv.drop (s.d.optind + 1) = xs := by
        have := congrArg (fun l => l.drop 1) hd
        simpa using this
      rw [scan_nonoptions, if_pos hlt]
      simp only [hm, Bool.not_true, Bool.false_eq_true, ↓reduceIte]
      rw [extend_eq _ _ _ hcnt, h0]
      obtain ⟨t, e, hr⟩ := ih n
        { res_count := s.result.length + 1,
          result := s.result ++ [⟨COT_NO_OP, some x⟩],
          exclusive_cmd := s.exclusive_cmd, install_remove := s.install_remove,
          d := { s.d with optind := s.d.optind + 1 } }
        (by simp) h1 (by simpa using hn)
      exact ⟨t, e, by rw [hr]; simp⟩

theorem settings_first_append_no_op (l : List cmd_op) (toks : List String) :
    settings_first (l ++ toks.map (fun a => ⟨COT_NO_OP, some a⟩))
      = l.filter (fun o => is_setting o.type) ++ l.filter (fun o => !is_setting o.type)
          ++ toks.map (fun a => ⟨COT_NO_OP, some a⟩) := by
  have h1 : (toks.map (fun a => (⟨COT_NO_OP, some a⟩ : cmd_op))).filter
      (fun o => is_setting o.type) = [] := by
    rw [List.filter_eq_nil_iff]
    intro o ho
    simp only [List.mem_map] at ho
    obtain ⟨a, _, rfl⟩ := ho
    simp [is_setting]
  have h2 : (toks.map (fun a => (⟨COT_NO_OP, some a⟩ : cmd_op))).filter
      (fun o => !is_setting o.type) = toks.map (fun a => (⟨COT_NO_OP, some a⟩ : cmd_op)) := by
    rw [List.filter_eq_self]
    intro o ho
    simp only [List.mem_map] at ho
    obtain ⟨a, _, rfl⟩ := ho
    simp [is_setting]
  simp only [settings_first, List.filter_append, h1, h2, List.append_nil, List.append_assoc]

/-! ## The scanner seen without positions -/

theorem drop_cons_facts (l : List String) (i : Nat) (u : String) (V : List String)
    (h : l.drop i = u :: V) :
    l[i]? = some u ∧ l[i + 1]? = V.head? ∧ l.length = i + 1 + V.length
      ∧ l.drop (i + 1) = V := by
  have h0 : l[i]? = some u := by
    have := congrArg (fun x => x[0]?) h
    simpa using this
  have h1 : l.drop (i + 1) = V := by
    have := congrArg (fun x => x.drop 1) h
    simpa using this
  have h2 : l[i + 1]? = V.head? := by
    have := congrArg (fun x => x[0]?) h1
    simp only [List.getElem?_drop, Nat.add_zero] at this
    rw [this]
    cases V <;> simp
  have h3 : l.length = i + 1 + V.length := by
    have := congrArg List.length h
    simp only [List.length_drop, List.length_cons] at this
    omega
  exact ⟨h0, h2, h3, h1⟩

theorem short_option_window (os : String) (d : getopt_data) (hlt : d.optind < d.argv.length)
    (hoa : d.optarg = none) :
    short_option os d
      = ((short_option os (window (d.argv.drop d.optind) d.nextchar)).1,
          { d with
            optarg := (short_option os (window (d.argv.drop d.optind) d.nextchar)).2.optarg
            nextchar := (short_option os (window (d.argv.drop d.optind) d.nextchar)).2.nextchar
            optind := d.optind
              + (short_option os (window (d.argv.drop d.optind) d.nextchar)).2.optind }) := by
  obtain ⟨u, V, hT⟩ : ∃ u V, d.argv.drop d.optind = u :: V := by
    cases h : d.argv.drop d.optind with
    | nil =>
      have := List.drop_eq_nil_iff.mp h
      omega
    | cons u V => exact ⟨u, V, rfl⟩
  obtain ⟨h0, h1, h2, h3⟩ := drop_cons_facts _ _ _ _ hT
  rcases d with ⟨argv, optind, optarg, nc, f, l⟩
  dsimp only at *
  subst hoa
  rw [hT]
  cases nc with
  | nil => simp [short_option, window]
  | cons c rest =>
    cases V with
    | nil =>
      simp only [List.head?_nil] at h1
      simp only [List.length_nil, Nat.add_zero] at h2
      unfold short_option window
      simp only [List.take, h2, h1]
      by_cases hr : rest = []
      · subst hr
        simp only [↓reduceIte]
        split
        · rfl
        · split_ifs <;> first | rfl | (exfalso; simp at *; done) | (exfalso; simp at *; omega) | (simp [h1]; done)
      · simp only [hr, ↓reduceIte]
        split
        · simp
        · split_ifs <;> first | rfl | (exfalso; simp at *; done) | (exfalso; simp at *; omega) | (simp [h1]; done)
    | cons v V2 =>
      simp only [List.head?_cons] at h1
      unfold short_option window
      simp only [List.take, h2, h1]
      by_cases hr : rest = []
      · subst hr
        simp only [↓reduceIte]
        split
        · rfl
        · split_ifs <;> first | rfl | (exfalso; simp at *; done) | (exfalso; simp at *; omega) | (simp [h1]; done)
      · simp only [hr, ↓reduceIte]
        split
        · simp
        · split_ifs <;> first | rfl | (exfalso; simp at *; done) | (exfalso; simp at *; omega) | (simp [h1]; done)

theorem process_long_option_window (os : String) (lo : List getopt_option) (d : getopt_data)
    (hlt : d.optind < d.argv.length) (hoa : d.optarg = none) :
    process_long_option os lo d
      = ((process_long_option os lo (window (d.argv.drop d.optind) d.nextchar)).1,
          { d with
            optarg := (process_long_option os lo (window (d.argv.drop d.optind) d.nextchar)).2.optarg
            nextchar :=
              (process_long_option os lo (window (d.argv.drop d.optind) d.nextchar)).2.nextchar
            optind := d.optind
              + (process_long_option os lo (window (d.argv.drop d.optind) d.nextchar)).2.optind }) := by
  obtain ⟨u, V, hT⟩ : ∃ u V, d.argv.drop d.optind = u :: V := by
    cases h : d.argv.drop d.optind with
    | nil =>
      have := List.drop_eq_nil_iff.mp h
      omega
    | cons u V => exact ⟨u, V, rfl⟩
  obtain ⟨h0, h1, h2, h3⟩ := drop_cons_facts _ _ _ _ hT
  rcases d with ⟨argv, optind, optarg, nc, f, l⟩
  dsimp only at *
  subst hoa
  rw [hT]
  cases V with
  | nil =>
    simp only [List.head?_nil] at h1
    simp only [List.length_nil, Nat.add_zero] at h2
    unfold process_long_option window
    simp only [List.take, h2, h1]
    split
    · rfl
    · rfl
    · split
      · split_ifs <;> rfl
      · split_ifs <;> first | rfl | (exfalso; simp at *; done) | (exfalso; simp at *; omega) | (simp [h1]; done)
  | cons v V2 =>
    simp only [List.head?_cons] at h1
    unfold process_long_option window
    simp only [List.take, h2, h1]
    split
    · rfl
    · rfl
    · split
      · split_ifs <;> rfl
      · split_ifs <;> first | rfl | (exfalso; simp at *; done) | (exfalso; simp at *; omega) | (simp [h1]; done)

theorem getopt_read_window (os : String) (lo : List getopt_option) (d : getopt_data)
    (hlt : d.optind < d.argv.length) (hoa : d.optarg = none) (hnc : d.nextchar = []) :
    getopt_read os lo d
      = ((getopt_read os lo (window (d.argv.drop d.optind) [])).1,
          { d with
            optarg := (getopt_read os lo (window (d.argv.drop d.optind) [])).2.optarg
            nextchar := (getopt_read os lo (window (d.argv.drop d.optind) [])).2.nextchar
            optind := d.optind + (getopt_read os lo (window (d.argv.drop d.optind) [])).2.optind }) := by
  obtain ⟨u, V, hT⟩ : ∃ u V, d.argv.drop d.optind = u :: V := by
    cases h : d.argv.drop d.optind with
    | nil =>
      have := List.drop_eq_nil_iff.mp h
      omega
    | cons u V => exact ⟨u, V, rfl⟩
  obtain ⟨h0, h1, h2, h3⟩ := drop_cons_facts _ _ _ _ hT
  have hw0 : (window (u :: V) []).argv[(window (u :: V) []).optind]? = some u := by
    simp [window]
  have hwl : ¬ (window (u :: V) []).optind = (window (u :: V) []).argv.length := by
    simp [window]
  have hdl : ¬ d.optind = d.argv.length := by omega
  rw [hT]
  unfold getopt_read
  dsimp only
  rw [if_neg hwl, if_neg hdl, h0, hw0]
  dsimp only
  by_cases hp : NONOPTION_P u = true
  · simp only [hp, ↓reduceIte]
    rcases d with ⟨argv, optind, optarg, nc, f, l⟩
    dsimp only at *
    subst hnc
    rfl
  · simp only [hp, Bool.false_eq_true, ↓reduceIte]
    split
    · next x rest heq =>
      have := process_long_option_window os lo { d with nextchar := rest } hlt hoa
      dsimp only at this
      rw [hT] at this
      exact this
    · next x rest hne heq =>
      have := short_option_window os { d with nextchar := rest } hlt hoa
      dsimp only at this
      rw [hT] at this
      exact this
    · rcases d with ⟨argv, optind, optarg, nc, f, l⟩
      dsimp only at *
      subst hnc
      subst hoa
      rfl

theorem pending_view (d : getopt_data) : pending d = (view d).skipped ++ (view d).rest := rfl

theorem view_permute (d : getopt_data) (hfl : d.first_nonopt ≤ d.last_nonopt)
    (hlo : d.last_nonopt ≤ d.optind) (hle : d.optind ≤ d.argv.length) :
    view (getopt_permute d) = view d := by
  obtain ⟨p1, p2, p3, p4, p5⟩ := getopt_permute_spec d hfl hlo hle
  obtain ⟨q1, _⟩ := getopt_permute_pending d hfl hlo hle
  have hT : (view (getopt_permute d)).rest = (view d).rest := by
    show (getopt_permute d).argv.drop (getopt_permute d).optind = d.argv.drop d.optind
    rw [p2, p4]
  have hN : (view (getopt_permute d)).skipped = (view d).skipped := by
    rw [pending_view, pending_view, hT] at q1
    exact List.append_cancel_right q1
  have hc : (view (getopt_permute d)).nextchar = (view d).nextchar := p5
  cases hv : view (getopt_permute d) with
  | mk a b c =>
    cases hw : view d with
    | mk a2 b2 c2 =>
      rw [hv, hw] at hT hN hc
      dsimp only at hT hN hc
      rw [hT, hN, hc]

theorem skip_takeWhile (argv : List String) :
    ∀ n k, argv.length - k ≤ n →
      skip_nonoptions argv n k = k + ((argv.drop k).takeWhile NONOPTION_P).length := by
  intro n
  induction n with
  | zero =>
    intro k h
    have : argv.drop k = [] := List.drop_eq_nil_iff.mpr (by omega)
    simp [skip_nonoptions, this]
  | succ n ih =>
    intro k h
    rw [skip_nonoptions]
    cases hk : argv[k]? with
    | none =>
      have : argv.drop k = [] := List.drop_eq_nil_iff.mpr (List.getElem?_eq_none_iff.mp hk)
      simp [this]
    | some s =>
      have hlt := (List.getElem?_eq_some_iff.mp hk).1
      have hd : argv.drop k = s :: argv.drop (k + 1) := by
        rw [List.drop_eq_getElem_cons hlt]
        congr 1
        exact (List.getElem?_eq_some_iff.mp hk).2
      dsimp only
      rw [hd]
      by_cases hp : NONOPTION_P s = true
      · rw [if_pos hp, ih (k + 1) (by omega)]
        simp [List.takeWhile, hp]
        omega
      · rw [if_neg hp]
        simp [List.takeWhile, hp]

theorem drop_takeWhile_length (P : String → Bool) (T : List String) :
    T.drop (T.takeWhile P).length = T.dropWhile P := by
  induction T with
  | nil => rfl
  | cons x xs ih => by_cases h : P x = true <;> simp [List.takeWhile, List.dropWhile, h, ih]

theorem take_takeWhile_length (P : String → Bool) (T : List String) :
    T.take (T.takeWhile P).length = T.takeWhile P := by
  induction T with
  | nil => rfl
  | cons x xs ih => by_cases h : P x = true <;> simp [List.takeWhile, h, ih]

theorem view_of_skip (p : getopt_data) (hc : pending p = p.argv.drop p.first_nonopt)
    (hfo : p.first_nonopt ≤ p.optind) (hle : p.optind ≤ p.argv.length) :
    (view (getopt_skip p)).skipped = (view p).skipped ++ (view p).rest.takeWhile NONOPTION_P
      ∧ (view (getopt_skip p)).rest = (view p).rest.dropWhile NONOPTION_P := by
  obtain ⟨k1, k2, k3, k4, k5, k6, _⟩ := getopt_skip_spec p hle
  have ho : (getopt_skip p).optind
      = p.optind + ((p.argv.drop p.optind).takeWhile NONOPTION_P).length := by
    show skip_nonoptions p.argv (p.argv.length - p.optind) p.optind = _
    exact skip_takeWhile p.argv _ _ (Nat.le_refl _)
  have hsplit := List.takeWhile_append_dropWhile NONOPTION_P (p.argv.drop p.optind)
  have hT : (view (getopt_skip p)).rest = (p.argv.drop p.optind).dropWhile NONOPTION_P := by
    show (getopt_skip p).argv.drop (getopt_skip p).optind = _
    rw [k1, ho, ← List.drop_drop, drop_takeWhile_length]
  refine ⟨?_, hT⟩
  have hlenN : ((view p).skipped).length = p.optind - p.first_nonopt := by
    have := congrArg List.length hc
    rw [pending_view] at this
    simp only [List.length_append, List.length_drop] at this
    have e : (view p).rest.length = p.argv.length - p.optind := by
      show (p.argv.drop p.optind).length = _
      simp
    omega
  show ((getopt_skip p).argv.drop (getopt_skip p).first_nonopt).take
      ((getopt_skip p).last_nonopt - (getopt_skip p).first_nonopt) = _
  rw [k1, k4, k5, ← hc, pending_view, ho]
  have e : p.optind + ((p.argv.drop p.optind).takeWhile NONOPTION_P).length - p.first_nonopt
      = ((view p).skipped).length + ((p.argv.drop p.optind).takeWhile NONOPTION_P).length := by
    omega
  rw [e, List.take_append]
  congr 1
  exact take_takeWhile_length _ _

theorem view_of_dashdash (k : getopt_data) (hle : k.optind ≤ k.argv.length)
    (hfl : k.first_nonopt ≤ k.last_nonopt) (hlo : k.last_nonopt = k.optind) (V : List String)
    (hT : k.argv.drop k.optind = "--" :: V) :
    (view (getopt_dashdash k)).skipped = (view k).skipped ++ V
      ∧ (getopt_dashdash k).optind = (getopt_dashdash k).argv.length
      ∧ (getopt_dashdash k).last_nonopt = (getopt_dashdash k).argv.length
      ∧ (getopt_dashdash k).argv.drop (getopt_dashdash k).first_nonopt = (view k).skipped ++ V
      ∧ (getopt_dashdash k).nextchar = k.nextchar
      ∧ (getopt_dashdash k).optarg = k.optarg := by
  obtain ⟨h0, _, h2, h3⟩ := drop_cons_facts _ _ _ _ hT
  have h : k.optind ≠ k.argv.length ∧ k.argv[k.optind]? = some "--" := ⟨by omega, h0⟩
  have hlt : k.optind + 1 ≤ k.argv.length := by omega
  have hN : (view k).skipped
      = (k.argv.drop k.first_nonopt).take (k.last_nonopt - k.first_nonopt) := rfl
  unfold getopt_dashdash
  dsimp only
  rw [if_pos h]
  by_cases h1 : k.first_nonopt ≠ k.last_nonopt ∧ k.last_nonopt ≠ k.optind + 1
  · rw [if_pos h1]
    have hp := exchange_pending { k with optind := k.optind + 1 }
      (by have := h1.1; dsimp only; omega) (by dsimp only; omega) hlt
    have hlen := (exchange_spec { k with optind := k.optind + 1 } hlt).1
    have hce : pending (exchange { k with optind := k.optind + 1 })
        = (exchange { k with optind := k.optind + 1 }).argv.drop
            (exchange { k with optind := k.optind + 1 }).first_nonopt := by
      have : pending (exchange { k with optind := k.optind + 1 })
          = ((exchange { k with optind := k.optind + 1 }).argv.drop
                (k.first_nonopt + (k.optind + 1 - k.last_nonopt))).take
              (k.optind + 1 - (k.first_nonopt + (k.optind + 1 - k.last_nonopt)))
            ++ (exchange { k with optind := k.optind + 1 }).argv.drop (k.optind + 1) := rfl
      rw [this]
      exact slice_append_drop _ _ _ (by omega)
    have e1 : pending { k with optind := k.optind + 1 } = (view k).skipped ++ V := by
      show (k.argv.drop k.first_nonopt).take (k.last_nonopt - k.first_nonopt)
          ++ k.argv.drop (k.optind + 1) = _
      rw [h3, hN]
    have hnc : (exchange { k with optind := k.optind + 1 }).nextchar = k.nextchar := rfl
    have hoa : (exchange { k with optind := k.optind + 1 }).optarg = k.optarg := rfl
    generalize exchange { k with optind := k.optind + 1 } = e at hp hlen hce hnc hoa
    have hlen2 : e.argv.length = k.argv.length := hlen
    have hdrop : e.argv.drop e.first_nonopt = (view k).skipped ++ V := by
      rw [← hce, hp, e1]
    refine ⟨?_, hlen2.symm, hlen2.symm, hdrop, hnc, hoa⟩
    show (e.argv.drop e.first_nonopt).take (k.argv.length - e.first_nonopt) = _
    rw [← hlen2, take_drop_all, hdrop]
  · have hfl2 : k.first_nonopt = k.last_nonopt := by
      by_contra hne
      exact h1 ⟨hne, by omega⟩
    rw [if_neg h1, if_pos hfl2]
    have hN0 : (view k).skipped = [] := by
      rw [hN, hfl2]
      simp
    rw [hN0]
    refine ⟨?_, rfl, rfl, ?_, rfl, rfl⟩
    · show (k.argv.drop (k.optind + 1)).take (k.argv.length - (k.optind + 1)) = _
      rw [take_drop_all, h3]
      rfl
    · show k.argv.drop (k.optind + 1) = _
      rw [h3]
      rfl

theorem dashdash_none (k : getopt_data) (h : (k.argv.drop k.optind).head? ≠ some "--") :
    getopt_dashdash k = k := by
  unfold getopt_dashdash
  have : ¬ (k.optind ≠ k.argv.length ∧ k.argv[k.optind]? = some "--") := by
    rintro ⟨_, h2⟩
    apply h
    rw [List.head?_drop]
    exact h2
  rw [if_neg this]

theorem view_of_advance (d : getopt_data) (hfl : d.first_nonopt ≤ d.last_nonopt)
    (hlo : d.last_nonopt ≤ d.optind) (hle : d.optind ≤ d.argv.length) :
    (view (getopt_advance d)).skipped = (view_skip (view d).skipped (view d).rest).1
      ∧ (getopt_advance d).argv.drop (getopt_advance d).optind
          = (view_skip (view d).skipped (view d).rest).2
      ∧ (getopt_advance d).argv.drop (getopt_advance d).first_nonopt
          = (view (getopt_advance d)).skipped
            ++ (getopt_advance d).argv.drop (getopt_advance d).optind
      ∧ (getopt_advance d).optarg = d.optarg := by
  obtain ⟨p1, p2, p3, _, _⟩ := getopt_permute_spec d hfl hlo hle
  obtain ⟨_, q2⟩ := getopt_permute_pending d hfl hlo hle
  have hv := view_permute d hfl hlo hle
  have p6 : (getopt_permute d).optarg = d.optarg := by
    unfold getopt_permute
    dsimp only
    split_ifs <;> rfl
  have hle2 : (getopt_permute d).optind ≤ (getopt_permute d).argv.length := by omega
  obtain ⟨k1, k2, k3, k4, k5, _, _⟩ := getopt_skip_spec (getopt_permute d) hle2
  obtain ⟨_, r2⟩ := getopt_skip_pending (getopt_permute d) q2 (by omega) hle2
  obtain ⟨s1, s2⟩ := view_of_skip (getopt_permute d) q2 (by omega) hle2
  have k6 : (getopt_skip (getopt_permute d)).optarg = d.optarg := p6
  rw [hv] at s1 s2
  rw [pending_view] at r2
  unfold getopt_advance
  generalize getopt_skip (getopt_permute d) = k at k1 k2 k3 k4 k5 r2 s1 s2 k6
  have hkle : k.optind ≤ k.argv.length := by rw [k1]; exact k3
  have hkfl : k.first_nonopt ≤ k.last_nonopt := by omega
  have s2b : k.argv.drop k.optind = (view d).rest.dropWhile NONOPTION_P := s2
  unfold view_skip
  cases hdw : (view d).rest.dropWhile NONOPTION_P with
  | nil =>
    rw [hdw] at s2b
    have hn : getopt_dashdash k = k := dashdash_none k (by rw [s2b]; simp)
    rw [hn]
    exact ⟨s1, s2b, r2.symm, k6⟩
  | cons t V =>
    rw [hdw] at s2b
    dsimp only
    by_cases ht : t = "--"
    · subst ht
      rw [if_pos rfl]
      obtain ⟨v1, v2, _, v4, _, v6⟩ := view_of_dashdash k hkle hkfl k4 V s2b
      rw [s1] at v1 v4
      have hnil : (getopt_dashdash k).argv.drop (getopt_dashdash k).optind = [] := by
        rw [v2]
        exact List.drop_length _
      refine ⟨v1, hnil, ?_, by rw [v6]; exact k6⟩
      rw [hnil, List.append_nil, v1, v4]
    · rw [if_neg ht]
      have hn : getopt_dashdash k = k := dashdash_none k (by rw [s2b]; simpa using ht)
      rw [hn]
      exact ⟨s1, s2b, r2.symm, k6⟩

theorem getopt_long_view (d : getopt_data) (hg : GInv d) :
    (getopt_long optstring opt_long d).1 = (view_getopt (view d)).1
      ∧ (getopt_long optstring opt_long d).2.optarg = (view_getopt (view d)).2.1
      ∧ ((getopt_long optstring opt_long d).1 ≠ -1 →
          view (getopt_long optstring opt_long d).2 = (view_getopt (view d)).2.2)
      ∧ ((getopt_long optstring opt_long d).1 = -1 →
          (getopt_long optstring opt_long d).2.argv.drop
              (getopt_long optstring opt_long d).2.optind
            = (view_getopt (view d)).2.2.skipped) := by
  by_cases hn : d.nextchar = []
  · rw [getopt_long_boundary d hg hn]
    have A := getopt_advance_spec { d with optarg := none } hg.fl hg.lo hg.le
    obtain ⟨a1, a2, a3, a4⟩ := view_of_advance { d with optarg := none } hg.fl hg.lo hg.le
    have hvd : view { d with optarg := none } = view d := rfl
    rw [hvd] at a1 a2
    have hvn : (view d).nextchar = [] := hn
    unfold view_getopt
    rw [if_pos hvn]
    dsimp only
    generalize getopt_advance { d with optarg := none } = a at A a1 a2 a3 a4
    have Anc : a.nextchar = [] := by rw [A.nc]; exact hn
    have Aoa : a.optarg = none := a4
    rw [← a1, ← a2]
    by_cases he : a.argv.drop a.optind = []
    · rw [if_pos he]
      have hlen : a.optind = a.argv.length := by
        have := List.drop_eq_nil_iff.mp he
        have := A.le
        omega
      have hr : getopt_read optstring opt_long a
          = (-1, if a.first_nonopt ≠ a.last_nonopt then { a with optind := a.first_nonopt }
                 else a) := by
        unfold getopt_read
        dsimp only
        rw [if_pos hlen]
      rw [hr]
      refine ⟨rfl, ?_, fun h => absurd rfl h, fun _ => ?_⟩
      · dsimp only
        split_ifs <;> exact Aoa
      · dsimp only
        rw [he, List.append_nil] at a3
        split_ifs with hfl
        · exact a3
        · have hfl2 : a.first_nonopt = a.last_nonopt := by
            by_contra hne
            exact hfl hne
          rw [he]
          show [] = (a.argv.drop a.first_nonopt).take (a.last_nonopt - a.first_nonopt)
          rw [hfl2]
          simp
    · rw [if_neg he]
      have hlt : a.optind < a.argv.length := by
        by_contra hge
        exact he (List.drop_eq_nil_iff.mpr (by omega))
      have hw := getopt_read_window optstring opt_long a hlt Aoa Anc
      have hne : (getopt_read optstring opt_long a).1 ≠ -1 := by
        rcases getopt_read_cases a A.le A.stop with ⟨h1, _⟩ | ⟨_, h2, _⟩
        · omega
        · exact h2
      refine ⟨?_, ?_, fun _ => ?_, fun h => absurd h hne⟩
      · rw [hw]
      · rw [hw]
      · rw [hw]
        show (⟨(a.argv.drop a.first_nonopt).take (a.last_nonopt - a.first_nonopt),
          a.argv.drop (a.optind + _), _⟩ : scan_view) = _
        rw [← List.drop_drop]
        rfl
  · rw [getopt_long_cluster d hg hn]
    have hlt := hg.nc hn
    have hw := short_option_window optstring { d with optarg := none } hlt rfl
    obtain ⟨_, Rok⟩ := short_option_spec { d with optarg := none } hn hlt
    have hne := RetOK_ne _ _ Rok
    have hvn : ¬ (view d).nextchar = [] := hn
    unfold view_getopt
    rw [if_neg hvn]
    dsimp only
    refine ⟨?_, ?_, fun _ => ?_, fun h => absurd h hne⟩
    · rw [hw]
      rfl
    · rw [hw]
      rfl
    · rw [hw]
      show (⟨(d.argv.drop d.first_nonopt).take (d.last_nonopt - d.first_nonopt),
        d.argv.drop (d.optind + _), _⟩ : scan_view) = _
      rw [← List.drop_drop]
      rfl

/-! ## Two parses side by side -/

theorem option_switch_rel (c : Int) (S S' : parse_state) (h : SameOps S S')
    (ho : S'.d.optarg = S.d.optarg) :
    FlowRel (fun a b => SameOps a b ∧ a.d = S.d ∧ b.d = S'.d)
      (fun a b => SameOps a b ∧ a.d = S.d ∧ b.d = S'.d)
      (option_switch c S) (option_switch c S') := by
  rcases S with ⟨n, r, e, i, d⟩
  rcases S' with ⟨n', r', e', i', d'⟩
  obtain ⟨h1, h2, h3, h4⟩ := h
  dsimp only at h1 h2 h3 h4 ho
  subst h1 h2 h3 h4
  by_cases c0 : c = chr 'h'
  · subst c0
    simp only [option_switch, chr, OPT_BATCH_VAL, OPT_REEXEC_VAL, OPT_STATE_LOG_VAL,
      OPT_ASK_APPROVAL_VAL, OPT_APPROVE_VAL, with_optarg, ho]
    first
    | exact ⟨⟨rfl, rfl, rfl, rfl⟩, rfl, rfl⟩
    | trivial
    | (cases d.optarg <;> first | trivial | exact ⟨⟨rfl, rfl, rfl, rfl⟩, rfl, rfl⟩)
  by_cases c1 : c = chr ':'
  · subst c1
    simp only [option_switch, chr, OPT_BATCH_VAL, OPT_REEXEC_VAL, OPT_STATE_LOG_VAL,
      OPT_ASK_APPROVAL_VAL, OPT_APPROVE_VAL, with_optarg, ho]
    first
    | exact ⟨⟨rfl, rfl, rfl, rfl⟩, rfl, rfl⟩
    | trivial
    | (cases d.optarg <;> first | trivial | exact ⟨⟨rfl, rfl, rfl, rfl⟩, rfl, rfl⟩)
  by_cases c2 : c = chr '?'
  · subst c2
    simp only [option_switch, chr, OPT_BATCH_VAL, OPT_REEXEC_VAL, OPT_STATE_LOG_VAL,
      OPT_ASK_APPROVAL_VAL, OPT_APPROVE_VAL, with_optarg, ho]
    first
    | exact ⟨⟨rfl, rfl, rfl, rfl⟩, rfl, rfl⟩
    | trivial
    | (cases d.optarg <;> first | trivial | exact ⟨⟨rfl, rfl, rfl, rfl⟩, rfl, rfl⟩)
  by_cases c3 : c = chr 'j'
  · subst c3
    simp only [option_switch, chr, OPT_BATCH_VAL, OPT_REEXEC_VAL, OPT_STATE_LOG_VAL,
      OPT_ASK_APPROVAL_VAL, OPT_APPROVE_VAL, with_optarg, ho]
    first
    | exact ⟨⟨rfl, rfl, rfl, rfl⟩, rfl, rfl⟩
    | trivial
    | (cases d.optarg <;> first | trivial | exact ⟨⟨rfl, rfl, rfl, rfl⟩, rfl, rfl⟩)
  by_cases c4 : c = chr 'b'
  · subst c4
    simp only [option_switch, chr, OPT_BATCH_VAL, OPT_REEXEC_VAL, OPT_STATE_LOG_VAL,
      OPT_ASK_APPROVAL_VAL, OPT_APPROVE_VAL, with_optarg, ho]
    first
    | exact ⟨⟨rfl, rfl, rfl, rfl⟩, rfl, rfl⟩
    | trivial
    | (cases d.optarg <;> first | trivial | exact ⟨⟨rfl, rfl, rfl, rfl⟩, rfl, rfl⟩)
  by_cases c5 : c = chr 'a'
  · subst c5
    simp only [option_switch, chr, OPT_BATCH_VAL, OPT_REEXEC_VAL, OPT_STATE_LOG_VAL,
      OPT_ASK_APPROVAL_VAL, OPT_APPROVE_VAL, with_optarg, ho]
    first
    | exact ⟨⟨rfl, rfl, rfl, rfl⟩, rfl, rfl⟩
    | trivial
    | (cases d.optarg <;> first | trivial | exact ⟨⟨rfl, rfl, rfl, rfl⟩, rfl, rfl⟩)
  by_cases c6 : c = chr 'r'
  · subst c6
    simp only [option_switch, chr, OPT_BATCH_VAL, OPT_REEXEC_VAL, OPT_STATE_LOG_VAL,
      OPT_ASK_APPROVAL_VAL, OPT_APPROVE_VAL, with_optarg, ho]
    first
    | exact ⟨⟨rfl, rfl, rfl, rfl⟩, rfl, rfl⟩
    | trivial
    | (cases d.optarg <;> first | trivial | exact ⟨⟨rfl, rfl, rfl, rfl⟩, rfl, rfl⟩)
  by_cases c7 : c = chr 'R'
  · subst c7
    simp only [option_switch, chr, OPT_BATCH_VAL, OPT_REEXEC_VAL, OPT_STATE_LOG_VAL,
      OPT_ASK_APPROVAL_VAL, OPT_APPROVE_VAL, with_optarg, ho]
    first
    | exact ⟨⟨rfl, rfl, rfl, rfl⟩, rfl, rfl⟩
    | trivial
    | (cases d.optarg <;> first | trivial | exact ⟨⟨rfl, rfl, rfl, rfl⟩, rfl, rfl⟩)
  by_cases c8 : c = chr 's'
  · subst c8
    simp only [option_switch, chr, OPT_BATCH_VAL, OPT_REEXEC_VAL, OPT_STATE_LOG_VAL,
      OPT_ASK_APPROVAL_VAL, OPT_APPROVE_VAL, with_optarg, ho]
    first
    | exact ⟨⟨rfl, rfl, rfl, rfl⟩, rfl, rfl⟩
    | trivial
    | (cases d.optarg <;> first | trivial | exact ⟨⟨rfl, rfl, rfl, rfl⟩, rfl, rfl⟩)
  by_cases c9 : c = chr 'S'
  · subst c9
    simp only [option_switch, chr, OPT_BATCH_VAL, OPT_REEXEC_VAL, OPT_STATE_LOG_VAL,
      OPT_ASK_APPROVAL_VAL, OPT_APPROVE_VAL, with_optarg, ho]
    first
    | exact ⟨⟨rfl, rfl, rfl, rfl⟩, rfl, rfl⟩
    | trivial
    | (cases d.optarg <;> first | trivial | exact ⟨⟨rfl, rfl, rfl, rfl⟩, rfl, rfl⟩)
  by_cases c10 : c = chr 'e'
  · subst c10
    simp only [option_switch, chr, OPT_BATCH_VAL, OPT_REEXEC_VAL, OPT_STATE_LOG_VAL,
      OPT_ASK_APPROVAL_VAL, OPT_APPROVE_VAL, with_optarg, ho]
    first
    | exact ⟨⟨rfl, rfl, rfl, rfl⟩, rfl, rfl⟩
    | trivial
    | (cases d.optarg <;> first | trivial | exact ⟨⟨rfl, rfl, rfl, rfl⟩, rfl, rfl⟩)
  by_cases c11 : c = OPT_BATCH_VAL
  · subst c11
    simp only [option_switch, chr, OPT_BATCH_VAL, OPT_REEXEC_VAL, OPT_STATE_LOG_VAL,
      OPT_ASK_APPROVAL_VAL, OPT_APPROVE_VAL, with_optarg, ho]
    first
    | exact ⟨⟨rfl, rfl, rfl, rfl⟩, rfl, rfl⟩
    | trivial
    | (cases d.optarg <;> first | trivial | exact ⟨⟨rfl, rfl, rfl, rfl⟩, rfl, rfl⟩)
  by_cases c12 : c = OPT_REEXEC_VAL
  · subst c12
    simp only [option_switch, chr, OPT_BATCH_VAL, OPT_REEXEC_VAL, OPT_STATE_LOG_VAL,
      OPT_ASK_APPROVAL_VAL, OPT_APPROVE_VAL, with_optarg, ho]
    first
    | exact ⟨⟨rfl, rfl, rfl, rfl⟩, rfl, rfl⟩
    | trivial
    | (cases d.optarg <;> first | trivial | exact ⟨⟨rfl, rfl, rfl, rfl⟩, rfl, rfl⟩)
  by_cases c13 : c = OPT_STATE_LOG_VAL
  · subst c13
    simp only [option_switch, chr, OPT_BATCH_VAL, OPT_REEXEC_VAL, OPT_STATE_LOG_VAL,
      OPT_ASK_APPROVAL_VAL, OPT_APPROVE_VAL, with_optarg, ho]
    first
    | exact ⟨⟨rfl, rfl, rfl, rfl⟩, rfl, rfl⟩
    | trivial
    | (cases d.optarg <;> first | trivial | exact ⟨⟨rfl, rfl, rfl, rfl⟩, rfl, rfl⟩)
  by_cases c14 : c = OPT_ASK_APPROVAL_VAL
  · subst c14
    simp only [option_switch, chr, OPT_BATCH_VAL, OPT_REEXEC_VAL, OPT_STATE_LOG_VAL,
      OPT_ASK_APPROVAL_VAL, OPT_APPROVE_VAL, with_optarg, ho]
    first
    | exact ⟨⟨rfl, rfl, rfl, rfl⟩, rfl, rfl⟩
    | trivial
    | (cases d.optarg <;> first | trivial | exact ⟨⟨rfl, rfl, rfl, rfl⟩, rfl, rfl⟩)
  by_cases c15 : c = OPT_APPROVE_VAL
  · subst c15
    simp only [option_switch, chr, OPT_BATCH_VAL, OPT_REEXEC_VAL, OPT_STATE_LOG_VAL,
      OPT_ASK_APPROVAL_VAL, OPT_APPROVE_VAL, with_optarg, ho]
    first
    | exact ⟨⟨rfl, rfl, rfl, rfl⟩, rfl, rfl⟩
    | trivial
    | (cases d.optarg <;> first | trivial | exact ⟨⟨rfl, rfl, rfl, rfl⟩, rfl, rfl⟩)
  simp only [option_switch, c0, c1, c2, c3, c4, c5, c6, c7, c8, c9, c10, c11, c12, c13, c14, c15,
    ↓reduceIte]
  trivial

theorem scan_body_rel (map : cmd_op_type → Bool) (s s' : parse_state) (h : SameOps s s')
    (hc : (getopt_long optstring opt_long s'.d).1 = (getopt_long optstring opt_long s.d).1)
    (ho : (getopt_long optstring opt_long s'.d).2.optarg
      = (getopt_long optstring opt_long s.d).2.optarg) :
    FlowRel
      (fun a b => SameOps a b ∧ a.d = (getopt_long optstring opt_long s.d).2
        ∧ b.d = (getopt_long optstring opt_long s'.d).2)
      (fun a b => SameOps a b ∧ a.d = (getopt_long optstring opt_long s.d).2
        ∧ b.d = (getopt_long optstring opt_long s'.d).2)
      (scan_body map s) (scan_body map s') := by
  unfold scan_body
  dsimp only
  rw [hc]
  by_cases h1 : (getopt_long optstring opt_long s.d).1 = -1
  · rw [if_pos h1, if_pos h1]
    exact ⟨⟨h.cnt, h.res, h.excl, h.ir⟩, rfl, rfl⟩
  · rw [if_neg h1, if_neg h1]
    have hS : SameOps { s with d := (getopt_long optstring opt_long s.d).2 }
        { s' with d := (getopt_long optstring opt_long s'.d).2 } :=
      ⟨h.cnt, h.res, h.excl, h.ir⟩
    have := option_switch_rel (getopt_long optstring opt_long s.d).1 _ _ hS ho
    generalize option_switch (getopt_long optstring opt_long s.d).1
      { s with d := (getopt_long optstring opt_long s.d).2 } = f at this
    generalize option_switch (getopt_long optstring opt_long s.d).1
      { s' with d := (getopt_long optstring opt_long s'.d).2 } = f' at this
    cases f with
    | failed => cases f' <;> first | exact this.elim | exact this
    | returned r => cases f' <;> first | exact this.elim | exact this
    | finished a => cases f' <;> first | exact this.elim | exact this
    | running a =>
      cases f' with
      | failed => exact this.elim
      | returned r => exact this.elim
      | finished b => exact this.elim
      | running b =>
        obtain ⟨hab, ha, hb⟩ := this
        dsimp only
        rw [hab.res, hab.cnt]
        split_ifs
        · trivial
        · exact ⟨hab, ha, hb⟩

theorem scan_body_sim (map : cmd_op_type → Bool) (s s' : parse_state) (hg : GInv s.d)
    (hg' : GInv s'.d) (hr : RInv (option_tags map) s) (h : ViewSim s s') :
    FlowRel ViewSim FinSim (scan_body map s) (scan_body map s') := by
  obtain ⟨v1, v2, v3, v4⟩ := getopt_long_view s.d hg
  obtain ⟨w1, w2, w3, w4⟩ := getopt_long_view s'.d hg'
  rw [h.2] at w1 w2 w3 w4
  have hc : (getopt_long optstring opt_long s'.d).1 = (getopt_long optstring opt_long s.d).1 := by
    rw [w1, v1]
  have ho : (getopt_long optstring opt_long s'.d).2.optarg
      = (getopt_long optstring opt_long s.d).2.optarg := by
    rw [w2, v2]
  have hrel := scan_body_rel map s s' h.1 hc ho
  have hpost : ∀ a, scan_body map s = .running a →
      (getopt_long optstring opt_long s.d).1 ≠ -1 := by
    intro a ha
    have := scan_body_spec map s hg hr
    rw [ha] at this
    exact this.2.2.2.1
  have hpost2 : ∀ a, scan_body map s = .finished a →
      (getopt_long optstring opt_long s.d).1 = -1 := by
    intro a ha
    have := scan_body_spec map s hg hr
    rw [ha] at this
    exact this.2.1
  revert hrel
  cases hs : scan_body map s with
  | failed => cases scan_body map s' <;> exact id
  | returned r => cases scan_body map s' <;> exact id
  | running a =>
    cases hs' : scan_body map s' with
    | failed => exact id
    | returned r => exact id
    | finished b => exact id
    | running b =>
      rintro ⟨hab, ha, hb⟩
      have hne := hpost a hs
      refine ⟨hab, ?_⟩
      rw [ha, hb, v3 hne, w3 (by rw [hc]; exact hne)]
  | finished a =>
    cases hs' : scan_body map s' with
    | failed => exact id
    | returned r => exact id
    | running b => exact id
    | finished b =>
      rintro ⟨hab, ha, hb⟩
      have he := hpost2 a hs
      refine ⟨hab, ?_⟩
      rw [ha, hb, v4 he, w4 (by rw [hc]; exact he)]

theorem scan_options_sim (map : cmd_op_type → Bool) :
    ∀ (fuel fuel' : Nat) (s s' : parse_state), GInv s.d → GInv s'.d →
      RInv (option_tags map) s → RInv (option_tags map) s' → ViewSim s s' →
      scan_measure s.d < fuel → scan_measure s'.d < fuel' →
      FlowRel FinSim FinSim (scan_options map fuel s) (scan_options map fuel' s') := by
  intro fuel
  induction fuel with
  | zero => intro fuel' s s' _ _ _ _ _ h; omega
  | succ n ih =>
    intro fuel' s s' hg hg' hr hr' h hm hm'
    cases fuel' with
    | zero => omega
    | succ n' =>
      have hb := scan_body_spec map s hg hr
      have hb' := scan_body_spec map s' hg' hr'
      have hsim := scan_body_sim map s s' hg hg' hr h
      rw [scan_options, scan_options]
      cases hs : scan_body map s with
      | failed => rw [hs] at hb; exact hb.elim
      | returned r =>
        cases hs' : scan_body map s' with
        | failed => rw [hs'] at hb'; exact hb'.elim
        | returned r' => trivial
        | running b => rw [hs, hs'] at hsim; exact hsim.elim
        | finished b => rw [hs, hs'] at hsim; exact hsim.elim
      | running a =>
        cases hs' : scan_body map s' with
        | failed => rw [hs'] at hb'; exact hb'.elim
        | returned r' => rw [hs, hs'] at hsim; exact hsim.elim
        | finished b => rw [hs, hs'] at hsim; exact hsim.elim
        | running b =>
          rw [hs, hs'] at hsim
          rw [hs] at hb
          rw [hs'] at hb'
          obtain ⟨g1, r1, m1, _⟩ := hb
          obtain ⟨g2, r2, m2, _⟩ := hb'
          exact ih n' a b g1 g2 r1 r2 hsim (by omega) (by omega)
      | finished a =>
        cases hs' : scan_body map s' with
        | failed => rw [hs'] at hb'; exact hb'.elim
        | returned r' => rw [hs, hs'] at hsim; exact hsim.elim
        | running b => rw [hs, hs'] at hsim; exact hsim.elim
        | finished b =>
          rw [hs, hs'] at hsim
          exact hsim

theorem scan_nonoptions_sim (map : cmd_op_type → Bool) :
    ∀ (T : List String) (n n' : Nat) (s s' : parse_state), SameOps s s' →
      s.d.argv.drop s.d.optind = T → s'.d.argv.drop s'.d.optind = T →
      T.length ≤ n → T.length ≤ n' →
      FlowRel FinSim FinSim (scan_nonoptions map n s) (scan_nonoptions map n' s') := by
  intro T
  induction T with
  | nil =>
    intro n n' s s' h hT hT' _ _
    have hge : ¬ s.d.optind < s.d.argv.length := by
      have := List.drop_eq_nil_iff.mp hT
      omega
    have hge' : ¬ s'.d.optind < s'.d.argv.length := by
      have := List.drop_eq_nil_iff.mp hT'
      omega
    have e : scan_nonoptions map n s = .finished s := by
      cases n with
      | zero => rfl
      | succ n => rw [scan_nonoptions, if_neg hge]
    have e' : scan_nonoptions map n' s' = .finished s' := by
      cases n' with
      | zero => rfl
      | succ n => rw [scan_nonoptions, if_neg hge']
    rw [e, e']
    exact ⟨h, by rw [hT, hT']⟩
  | cons x xs ih =>
    intro n n' s s' h hT hT' hn hn'
    cases n with
    | zero => simp at hn
    | succ n =>
      cases n' with
      | zero => simp at hn'
      | succ n' =>
        obtain ⟨a0, _, a2, a3⟩ := drop_cons_facts _ _ _ _ hT
        obtain ⟨b0, _, b2, b3⟩ := drop_cons_facts _ _ _ _ hT'
        have hlt : s.d.optind < s.d.argv.length := by omega
        have hlt' : s'.d.optind < s'.d.argv.length := by omega
        rw [scan_nonoptions, scan_nonoptions, if_pos hlt, if_pos hlt']
        by_cases hm : map COT_NO_OP = true
        · simp only [hm, Bool.not_true, Bool.false_eq_true, ↓reduceIte]
          rw [a0, b0]
          apply ih
          · refine ⟨?_, ?_, h.excl, h.ir⟩ <;> simp only [parse_state.extend, h.cnt, h.res]
          · exact a3
          · exact b3
          · simpa using hn
          · simpa using hn'
        · simp only [hm, Bool.not_false, ↓reduceIte]
          trivial

theorem finish_same (s s' : parse_state) (h : SameOps s s') : finish s' = finish s := by
  unfold finish
  rw [h.cnt, h.res, h.excl, h.ir]

/-- Two scans that reach states with the same operations and the same view
end alike: both crash, or both give the same result. -/
theorem parse_sim (argv argv' : List String) (accepts : List cmd_op_type) (k k' : Nat)
    (s s' : parse_state) (hargv : argv ≠ []) (hargv' : argv' ≠ [])
    (hk : scan_rounds (cmd_op_accepts_map accepts) k (parse_start argv) = some s)
    (hk' : scan_rounds (cmd_op_accepts_map accepts) k' (parse_start argv') = some s')
    (h : ViewSim s s') :
    cmd_args_parse argv' accepts = cmd_args_parse argv accepts
      ∨ ∃ r r', cmd_args_parse argv accepts = some r ∧ cmd_args_parse argv' accepts = some r'
          ∧ IsCrash r ∧ IsCrash r' := by
  obtain ⟨g1, r1, f1, m1, e1⟩ := scan_rounds_spec _ k _ s (scan_fuel argv)
    (start_GInv argv hargv) (start_RInv _ argv) (start_measure argv) hk
  obtain ⟨g2, r2, f2, m2, e2⟩ := scan_rounds_spec _ k' _ s' (scan_fuel argv')
    (start_GInv argv' hargv') (start_RInv _ argv') (start_measure argv') hk'
  have hsim := scan_options_sim _ f1 f2 s s' g1 g2 r1 r2 h m1 m2
  rw [← e1, ← e2] at hsim
  have hscan : scan argv (cmd_op_accepts_map accepts)
      = match scan_options (cmd_op_accepts_map accepts) (scan_fuel argv) (parse_start argv) with
        | .finished s => scan_nonoptions (cmd_op_accepts_map accepts)
            (s.d.argv.length - s.d.optind) s
        | other => other := rfl
  have hscan' : scan argv' (cmd_op_accepts_map accepts)
      = match scan_options (cmd_op_accepts_map accepts) (scan_fuel argv') (parse_start argv') with
        | .finished s => scan_nonoptions (cmd_op_accepts_map accepts)
            (s.d.argv.length - s.d.optind) s
        | other => other := rfl
  have hrel : FlowRel FinSim FinSim (scan argv (cmd_op_accepts_map accepts))
      (scan argv' (cmd_op_accepts_map accepts)) := by
    rw [hscan, hscan']
    cases hA : scan_options (cmd_op_accepts_map accepts) (scan_fuel argv) (parse_start argv) with
    | failed =>
      cases hB : scan_options (cmd_op_accepts_map accepts) (scan_fuel argv')
        (parse_start argv') <;> rw [hA, hB] at hsim <;> first | exact hsim.elim | trivial
    | returned r =>
      cases hB : scan_options (cmd_op_accepts_map accepts) (scan_fuel argv')
        (parse_start argv') <;> rw [hA, hB] at hsim <;> first | exact hsim.elim | trivial
    | running a =>
      cases hB : scan_options (cmd_op_accepts_map accepts) (scan_fuel argv')
        (parse_start argv') <;> rw [hA, hB] at hsim <;> first | exact hsim.elim | exact hsim
    | finished a =>
      cases hB : scan_options (cmd_op_accepts_map accepts) (scan_fuel argv')
          (parse_start argv') with
      | failed => rw [hA, hB] at hsim; exact hsim.elim
      | returned r => rw [hA, hB] at hsim; exact hsim.elim
      | running b => rw [hA, hB] at hsim; exact hsim.elim
      | finished b =>
        rw [hA, hB] at hsim
        obtain ⟨hab, hT⟩ := hsim
        dsimp only
        apply scan_nonoptions_sim _ (a.d.argv.drop a.d.optind) _ _ a b hab rfl hT
        · simp
        · rw [← hT]
          simp
  have hs := scan_spec argv (cmd_op_accepts_map accepts)
  have hs' := scan_spec argv' (cmd_op_accepts_map accepts)
  unfold cmd_args_parse
  cases hA : scan argv (cmd_op_accepts_map accepts) with
  | failed => rw [hA] at hs; exact hs.elim
  | running a => rw [hA] at hs; exact hs.elim
  | returned r =>
    cases hB : scan argv' (cmd_op_accepts_map accepts) with
    | failed => rw [hA, hB] at hrel; exact hrel.elim
    | running b => rw [hA, hB] at hrel; exact hrel.elim
    | finished b => rw [hA, hB] at hrel; exact hrel.elim
    | returned r' =>
      rw [hA] at hs
      rw [hB] at hs'
      right
      exact ⟨r, r', rfl, rfl, hs, hs'⟩
  | finished a =>
    cases hB : scan argv' (cmd_op_accepts_map accepts) with
    | failed => rw [hA, hB] at hrel; exact hrel.elim
    | running b => rw [hA, hB] at hrel; exact hrel.elim
    | returned r' => rw [hA, hB] at hrel; exact hrel.elim
    | finished b =>
      rw [hA, hB] at hrel
      left
      dsimp only
      rw [finish_same a b hrel.1]

/-! ## The option table -/

theorem split_nonopts (P : List String) (z : String) (Z : List String)
    (hP : ∀ a ∈ P, NONOPTION_P a = true) (hz : NONOPTION_P z = false) :
    (P ++ z :: Z).takeWhile NONOPTION_P = P ∧ (P ++ z :: Z).dropWhile NONOPTION_P = z :: Z := by
  induction P with
  | nil => simp [List.takeWhile, List.dropWhile, hz]
  | cons x xs ih =>
    have hx := hP x (by simp)
    obtain ⟨i1, i2⟩ := ih (fun a ha => hP a (by simp [ha]))
    simp [List.takeWhile, List.dropWhile, hx, i1, i2]

theorem view_skip_option (N P : List String) (z : String) (Z : List String)
    (hP : ∀ a ∈ P, NONOPTION_P a = true) (hz : NONOPTION_P z = false) (hdd : z ≠ "--") :
    view_skip N (P ++ z :: Z) = (N ++ P, z :: Z) := by
  obtain ⟨h1, h2⟩ := split_nonopts P z Z hP hz
  unfold view_skip
  rw [h1, h2]
  dsimp only
  rw [if_neg hdd]

/-- The reading of an element of the table that takes no value. -/
theorem read_plain_token (e : String × Int × cmd_op_type) (he : e ∈ option_table)
    (hv : e.1 ∉ value_option_tokens) (rest : List String) :
    (getopt_read optstring opt_long (window (e.1 :: rest) [])).1 = e.2.1
      ∧ (getopt_read optstring opt_long (window (e.1 :: rest) [])).2.optarg = none
      ∧ (getopt_read optstring opt_long (window (e.1 :: rest) [])).2.optind = 1
      ∧ (getopt_read optstring opt_long (window (e.1 :: rest) [])).2.nextchar = [] := by
  simp only [option_table, List.mem_cons, List.mem_singleton, List.not_mem_nil, or_false] at he
  rcases he with h | h | h | h | h | h | h | h | h | h | h | h | h | h | h | h | h | h | h <;>
    subst h <;>
    first
    | exact absurd (by decide) hv
    | (cases rest <;> exact ⟨rfl, rfl, rfl, rfl⟩)

/-- The reading of an element of the table that takes a value, followed by
the element `v`. -/
theorem read_value_token (e : String × Int × cmd_op_type) (he : e ∈ option_table)
    (hv : e.1 ∈ value_option_tokens) (v : String) (V : List String) :
    (getopt_read optstring opt_long (window (e.1 :: v :: V) [])).1 = e.2.1
      ∧ (getopt_read optstring opt_long (window (e.1 :: v :: V) [])).2.optarg = some v
      ∧ (getopt_read optstring opt_long (window (e.1 :: v :: V) [])).2.optind = 2
      ∧ (getopt_read optstring opt_long (window (e.1 :: v :: V) [])).2.nextchar = [] := by
  simp only [option_table, List.mem_cons, List.mem_singleton, List.not_mem_nil, or_false] at he
  rcases he with h | h | h | h | h | h | h | h | h | h | h | h | h | h | h | h | h | h | h <;>
    subst h <;>
    first
    | exact absurd hv (by decide)
    | exact ⟨rfl, rfl, rfl, rfl⟩

/-- The reading of an element of the table that takes a value and is the last
element. -/
theorem read_value_token_last (e : String × Int × cmd_op_type) (he : e ∈ option_table)
    (hv : e.1 ∈ value_option_tokens) :
    (getopt_read optstring opt_long (window [e.1] [])).1 = chr ':'
      ∧ (getopt_read optstring opt_long (window [e.1] [])).2.optarg = none
      ∧ (getopt_read optstring opt_long (window [e.1] [])).2.optind = 1
      ∧ (getopt_read optstring opt_long (window [e.1] [])).2.nextchar = [] := by
  simp only [option_table, List.mem_cons, List.mem_singleton, List.not_mem_nil, or_false] at he
  rcases he with h | h | h | h | h | h | h | h | h | h | h | h | h | h | h | h | h | h | h <;>
    subst h <;>
    first
    | exact absurd hv (by decide)
    | exact ⟨by decide, by decide, by decide, by decide⟩

theorem table_option (e : String × Int × cmd_op_type) (he : e ∈ option_table) :
    NONOPTION_P e.1 = false ∧ e.1 ≠ "--" := by
  simp only [option_table, List.mem_cons, List.mem_singleton, List.not_mem_nil, or_false] at he
  rcases he with h | h | h | h | h | h | h | h | h | h | h | h | h | h | h | h | h | h | h <;>
    subst h <;> decide

theorem view_getopt_plain (e : String × Int × cmd_op_type) (he : e ∈ option_table)
    (hv : e.1 ∉ value_option_tokens) (N P rest : List String)
    (hP : ∀ a ∈ P, NONOPTION_P a = true) :
    view_getopt ⟨N, P ++ e.1 :: rest, []⟩ = (e.2.1, none, ⟨N ++ P, rest, []⟩) := by
  obtain ⟨t1, t2⟩ := table_option e he
  obtain ⟨r1, r2, r3, r4⟩ := read_plain_token e he hv rest
  unfold view_getopt
  simp only [↓reduceIte, view_skip_option N P e.1 rest hP t1 t2]
  rw [if_neg (by simp), r1, r2, r3, r4]
  rfl

theorem view_getopt_value (e : String × Int × cmd_op_type) (he : e ∈ option_table)
    (hv : e.1 ∈ value_option_tokens) (N P : List String) (v : String) (V : List String)
    (hP : ∀ a ∈ P, NONOPTION_P a = true) :
    view_getopt ⟨N, P ++ e.1 :: v :: V, []⟩ = (e.2.1, some v, ⟨N ++ P, V, []⟩) := by
  obtain ⟨t1, t2⟩ := table_option e he
  obtain ⟨r1, r2, r3, r4⟩ := read_value_token e he hv v V
  unfold view_getopt
  simp only [↓reduceIte, view_skip_option N P e.1 (v :: V) hP t1 t2]
  rw [if_neg (by simp), r1, r2, r3, r4]
  rfl

theorem view_getopt_value_last (e : String × Int × cmd_op_type) (he : e ∈ option_table)
    (hv : e.1 ∈ value_option_tokens) (N P : List String)
    (hP : ∀ a ∈ P, NONOPTION_P a = true) :
    view_getopt ⟨N, P ++ [e.1], []⟩ = (chr ':', none, ⟨N ++ P, [], []⟩) := by
  obtain ⟨t1, t2⟩ := table_option e he
  obtain ⟨r1, r2, r3, r4⟩ := read_value_token_last e he hv
  unfold view_getopt
  simp only [↓reduceIte, view_skip_option N P e.1 [] hP t1 t2]
  rw [if_neg (by simp), r1, r2, r3, r4]
  rfl

theorem option_switch_plain (e : String × Int × cmd_op_type) (he : e ∈ option_table)
    (hv : e.1 ∉ value_option_tokens) (S : parse_state) (hcnt : S.res_count = S.result.length) :
    option_switch e.2.1 S = .running (appended S e.2.2 none) := by
  simp only [option_table, List.mem_cons, List.mem_singleton, List.not_mem_nil, or_false] at he
  rcases he with h | h | h | h | h | h | h | h | h | h | h | h | h | h | h | h | h | h | h <;>
    subst h <;>
    first
    | exact absurd (by decide) hv
    | simp [option_switch, chr, extend_eq, hcnt, appended, is_exclusive, is_install_remove,
        OPT_BATCH_VAL, OPT_REEXEC_VAL, OPT_STATE_LOG_VAL, OPT_ASK_APPROVAL_VAL]

theorem option_switch_value (e : String × Int × cmd_op_type) (he : e ∈ option_table)
    (hv : e.1 ∈ value_option_tokens) (S : parse_state) (hcnt : S.res_count = S.result.length)
    (v : String) (hoa : S.d.optarg = some v) :
    option_switch e.2.1 S = .running (appended S e.2.2 (some v)) := by
  simp only [option_table, List.mem_cons, List.mem_singleton, List.not_mem_nil, or_false] at he
  rcases he with h | h | h | h | h | h | h | h | h | h | h | h | h | h | h | h | h | h | h <;>
    subst h <;>
    first
    | exact absurd hv (by decide)
    | simp [option_switch, chr, with_optarg, hoa, extend_eq, hcnt, appended, is_exclusive,
        is_install_remove, OPT_BATCH_VAL, OPT_REEXEC_VAL, OPT_STATE_LOG_VAL,
        OPT_ASK_APPROVAL_VAL, OPT_APPROVE_VAL]

/-- A round of the option loop on an option whose operation the `switch`
appends: the round goes on with that operation when its tag is accepted and
returns otherwise. -/
theorem scan_body_accept (map : cmd_op_type → Bool) (s : parse_state) (hg : GInv s.d)
    (hcnt : s.res_count = s.result.length) (c : Int) (oa : Option String) (v1 : scan_view)
    (tag : cmd_op_type) (p : Option String)
    (hview : view_getopt (view s.d) = (c, oa, v1)) (hne : c ≠ -1)
    (hsw : ∀ S : parse_state, S.res_count = S.result.length → S.d.optarg = oa →
      option_switch c S = .running (appended S tag p)) :
    view (getopt_long optstring opt_long s.d).2 = v1
      ∧ (map tag = true → scan_body map s
          = .running (appended { s with d := (getopt_long optstring opt_long s.d).2 } tag p))
      ∧ (map tag = false → ∃ r, scan_body map s = .returned r) := by
  obtain ⟨v1a, v2a, v3a, _⟩ := getopt_long_view s.d hg
  rw [hview] at v1a v2a v3a
  dsimp only at v1a v2a v3a
  have hne2 : (getopt_long optstring opt_long s.d).1 ≠ -1 := by rw [v1a]; exact hne
  have hsw2 := hsw { s with d := (getopt_long optstring opt_long s.d).2 } hcnt v2a
  have hget : ((appended { s with d := (getopt_long optstring opt_long s.d).2 } tag p).result.getD
      ((appended { s with d := (getopt_long optstring opt_long s.d).2 } tag p).res_count - 1)
      uninit).type = tag := by
    simp only [appended, Nat.add_sub_cancel]
    rw [getD_length_append]
  refine ⟨v3a hne2, ?_, ?_⟩
  · intro hm
    unfold scan_body
    dsimp only
    rw [if_neg hne2, v1a, hsw2]
    dsimp only
    rw [hget, hm]
    rfl
  · intro hm
    unfold scan_body
    dsimp only
    rw [if_neg hne2, v1a, hsw2]
    dsimp only
    rw [hget, hm]
    exact ⟨_, rfl⟩

theorem scan_body_grows (map : cmd_op_type → Bool) (s s1 : parse_state) (hg : GInv s.d)
    (hr : RInv (option_tags map) s) (h : scan_body map s = .running s1) :
    ∃ op, s1.result = s.result ++ [op] := by
  unfold scan_body at h
  dsimp only at h
  rcases getopt_long_spec s.d hg with ⟨h1, _, _⟩ | ⟨hG, _, hok, _⟩
  · rw [if_pos h1] at h
    cases h
  · rw [if_neg (RetOK_ne _ _ hok)] at h
    have hlt : (getopt_long optstring opt_long s.d).2.optind - 1
        < (getopt_long optstring opt_long s.d).2.argv.length := by
      have := hG.pos
      have := hG.le
      omega
    rcases option_switch_spec (getopt_long optstring opt_long s.d).1
        { s with d := (getopt_long optstring opt_long s.d).2 } hok hr.cnt hlt with
      ⟨r, e, _⟩ | ⟨t, p, e, _, _, _⟩
    · rw [e] at h
      cases h
    · rw [e] at h
      dsimp only at h
      split_ifs at h
      simp only [flow.running.injEq] at h
      subst h
      exact ⟨⟨t, p⟩, rfl⟩

theorem scan_body_ends (map : cmd_op_type → Bool) (s s1 : parse_state) (hg : GInv s.d)
    (hr : RInv (option_tags map) s) (h : scan_body map s = .finished s1) :
    s1.result = s.result := by
  have hb := scan_body_spec map s hg hr
  rw [h] at hb
  have h1 := hb.2.1
  unfold scan_body at h
  dsimp only at h
  rw [if_pos h1] at h
  simp only [flow.finished.injEq] at h
  subst h
  rfl

theorem scan_options_grows (map : cmd_op_type → Bool) :
    ∀ (fuel : Nat) (s t : parse_state), GInv s.d → RInv (option_tags map) s →
      scan_options map fuel s = .finished t → s.result <+: t.result := by
  intro fuel
  induction fuel with
  | zero => intro s t _ _ h; simp [scan_options] at h
  | succ n ih =>
    intro s t hg hr h
    rw [scan_options] at h
    have hb := scan_body_spec map s hg hr
    cases hs : scan_body map s with
    | failed => rw [hs] at h; cases h
    | returned r => rw [hs] at h; cases h
    | finished s1 =>
      rw [hs] at h
      simp only [flow.finished.injEq] at h
      subst h
      rw [scan_body_ends map s s1 hg hr hs]
    | running s1 =>
      rw [hs] at h hb
      dsimp only at h
      obtain ⟨g1, r1, _, _, _⟩ := hb
      obtain ⟨op, e⟩ := scan_body_grows map s s1 hg hr hs
      have := ih s1 t g1 r1 h
      rw [e] at this
      exact (List.prefix_append _ _).trans this

theorem scan_nonoptions_grows (map : cmd_op_type → Bool) :
    ∀ (n : Nat) (s t : parse_state), s.res_count = s.result.length →
      scan_nonoptions map n s = .finished t → s.result <+: t.result := by
  intro n
  induction n with
  | zero =>
    intro s t _ h
    simp only [scan_nonoptions, flow.finished.injEq] at h
    subst h
    exact List.prefix_refl _
  | succ n ih =>
    intro s t hcnt h
    rw [scan_nonoptions] at h
    split_ifs at h with h1 h2
    · rw [extend_eq _ _ _ hcnt] at h
      have := ih _ t (by simp) h
      exact (List.prefix_append _ _).trans this
    · simp only [flow.finished.injEq] at h
      subst h
      exact List.prefix_refl _

/-- An operation the option loop has stored is in every successful
result. -/
theorem reached_op_kept (argv : List String) (accepts : List cmd_op_type) (k : Nat)
    (s : parse_state) (r : List cmd_op) (op : cmd_op)
    (hk : scan_rounds (cmd_op_accepts_map accepts) k (parse_start argv) = some s)
    (hop : op ∈ s.result) (hr : cmd_args_parse argv accepts = some r)
    (hx : r.getLast? = some ⟨COT_EXIT, none⟩) : op ∈ r := by
  have hargv : argv ≠ [] := by
    intro e
    subst e
    have := reached_nonempty _ k s hk
    subst this
    simp [parse_start] at hop
  obtain ⟨g1, r1, f1, m1, e1⟩ := scan_rounds_spec _ k _ s (scan_fuel argv)
    (start_GInv argv hargv) (start_RInv _ argv) (start_measure argv) hk
  cases hs : scan argv (cmd_op_accepts_map accepts) with
  | failed =>
    have := scan_spec argv (cmd_op_accepts_map accepts)
    rw [hs] at this
    exact this.elim
  | running a =>
    have := scan_spec argv (cmd_op_accepts_map accepts)
    rw [hs] at this
    exact this.elim
  | returned r0 =>
    obtain ⟨hc, hp⟩ := parse_of_returned argv accepts r0 hs
    rw [hp] at hr
    simp only [Option.some.injEq] at hr
    subst hr
    rw [IsCrash_getLast _ hc] at hx
    simp at hx
  | finished t =>
    obtain ⟨_, hp⟩ := parse_of_scan argv accepts t hs
    rw [hp] at hr
    simp only [Option.some.injEq] at hr
    have hpre : s.result <+: t.result := by
      unfold scan at hs
      rw [e1] at hs
      cases ho : scan_options (cmd_op_accepts_map accepts) f1 s with
      | failed => rw [ho] at hs; cases hs
      | returned r0 => rw [ho] at hs; cases hs
      | running a => rw [ho] at hs; cases hs
      | finished u =>
        rw [ho] at hs
        dsimp only at hs
        have h1 := scan_options_grows _ f1 s u g1 r1 ho
        have hu := scan_options_spec _ f1 s g1 r1 m1
        rw [ho] at hu
        have hu2 : RInv (option_tags (cmd_op_accepts_map accepts)) u := hu
        exact h1.trans (scan_nonoptions_grows _ _ u t hu2.cnt hs)
    by_cases hi : incompatible t.result
    · rw [if_pos hi] at hr
      subst hr
      simp at hx
    · rw [if_neg hi] at hr
      subst hr
      rw [List.mem_append]
      left
      rw [mem_settings_first]
      exact hpre.subset hop

/-! ## A call of the scanner depends on two elements -/

theorem short_option_indep (os : String) (d : getopt_data) (B : List String)
    (hlen : B.length = d.argv.length)
    (h : B[d.optind + 1]? = d.argv[d.optind + 1]?
      ∨ (short_option os d).2.optind ≤ d.optind + 1) :
    short_option os { d with argv := B }
      = ((short_option os d).1, { (short_option os d).2 with argv := B }) := by
  rcases d with ⟨argv, optind, optarg, nc, f, l⟩
  dsimp only at *
  revert h
  unfold short_option
  dsimp only
  cases nc with
  | nil => intro _; rfl
  | cons c rest =>
    dsimp only
    by_cases hr : rest = []
    · subst hr
      simp only [↓reduceIte, hlen]
      split
      · intro _; rfl
      · split_ifs <;> intro h <;>
          first
          | rfl
          | (rcases h with h | h
             · dsimp only
               rw [h]
             · dsimp only at h
               omega)
    · simp only [hr, ↓reduceIte, hlen]
      split
      · intro _; rfl
      · split_ifs <;> intro h <;>
          first
          | rfl
          | (rcases h with h | h
             · dsimp only
               rw [h]
             · dsimp only at h
               omega)

theorem process_long_option_indep (os : String) (lo : List getopt_option) (d : getopt_data)
    (B : List String) (hlen : B.length = d.argv.length)
    (h : B[d.optind + 1]? = d.argv[d.optind + 1]?
      ∨ (process_long_option os lo d).2.optind ≤ d.optind + 1) :
    process_long_option os lo { d with argv := B }
      = ((process_long_option os lo d).1, { (process_long_option os lo d).2 with argv := B }) := by
  rcases d with ⟨argv, optind, optarg, nc, f, l⟩
  dsimp only at *
  revert h
  unfold process_long_option
  dsimp only
  simp only [hlen]
  split
  · intro _; rfl
  · intro _; rfl
  · split
    · split_ifs <;> intro _ <;> rfl
    · split_ifs <;> intro h <;>
        first
        | rfl
        | (rcases h with h | h
           · dsimp only
             rw [h]
           · dsimp only at h
             omega)

theorem getopt_read_indep (os : String) (lo : List getopt_option) (d : getopt_data)
    (B : List String) (hlen : B.length = d.argv.length)
    (h0 : B[d.optind]? = d.argv[d.optind]?)
    (h : B[d.optind + 1]? = d.argv[d.optind + 1]?
      ∨ (getopt_read os lo d).2.optind ≤ d.optind + 1) :
    getopt_read os lo { d with argv := B }
      = ((getopt_read os lo d).1, { (getopt_read os lo d).2 with argv := B }) := by
  revert h
  unfold getopt_read
  dsimp only
  rw [hlen, h0]
  by_cases he : d.optind = d.argv.length
  · rw [if_pos he, if_pos he]
    intro _
    dsimp only
    split_ifs <;> rfl
  · rw [if_neg he, if_neg he]
    cases hs : d.argv[d.optind]? with
    | none =>
      intro _
      rfl
    | some s =>
      dsimp only
      by_cases hp : NONOPTION_P s = true
      · simp only [hp, ↓reduceIte]
        intro _
        trivial
      · simp only [hp, Bool.false_eq_true, ↓reduceIte]
        split
        · next x rest heq =>
          intro h
          exact process_long_option_indep os lo { d with nextchar := rest } B hlen h
        · next x rest hne heq =>
          intro h
          exact short_option_indep os { d with nextchar := rest } B hlen h
        · intro _
          rfl

theorem nonopts_or_option (U : List String) :
    (∀ a ∈ U, NONOPTION_P a = true)
      ∨ ∃ P u U', U = P ++ u :: U' ∧ (∀ a ∈ P, NONOPTION_P a = true)
          ∧ NONOPTION_P u = false := by
  induction U with
  | nil => left; simp
  | cons x xs ih =>
    by_cases hx : NONOPTION_P x = true
    · rcases ih with h | ⟨P, u, U', e, hP, hu⟩
      · left
        intro a ha
        simp only [List.mem_cons] at ha
        rcases ha with rfl | ha
        · exact hx
        · exact h a ha
      · right
        refine ⟨x :: P, u, U', by rw [e]; rfl, ?_, hu⟩
        intro a ha
        simp only [List.mem_cons] at ha
        rcases ha with rfl | ha
        · exact hx
        · exact hP a ha
    · right
      exact ⟨[], x, xs, rfl, by simp, by simpa using hx⟩

theorem view_skip_dashdash (N P Z : List String) (hP : ∀ a ∈ P, NONOPTION_P a = true) :
    view_skip N (P ++ "--" :: Z) = (N ++ P ++ Z, []) := by
  obtain ⟨h1, h2⟩ := split_nonopts P "--" Z hP (by decide)
  unfold view_skip
  rw [h1, h2]
  rfl

theorem drop_local (U U1 L : List String) (n : Nat) (hL : L ≠ [])
    (h : (U ++ L).drop n = U1 ++ L) :
    n ≤ U.length ∧ ∀ L' : List String, (U ++ L').drop n = U1 ++ L' := by
  have hlen := congrArg List.length h
  simp only [List.length_drop, List.length_append] at hlen
  have hpos : 0 < L.length := List.length_pos.mpr hL
  have hn : n ≤ U.length := by omega
  refine ⟨hn, fun L' => ?_⟩
  rw [List.drop_append_of_le_length hn] at h ⊢
  rw [List.append_cancel_right h]

theorem take2_facts (U rest : List String) (x y : String) :
    ((U ++ y :: rest).take 2).length = ((U ++ x :: rest).take 2).length
      ∧ (U ≠ [] → ((U ++ y :: rest).take 2)[0]? = ((U ++ x :: rest).take 2)[0]?)
      ∧ (U.length ≠ 1 → ((U ++ y :: rest).take 2)[1]? = ((U ++ x :: rest).take 2)[1]?) := by
  cases U with
  | nil => cases rest <;> simp
  | cons a U2 =>
    cases U2 with
    | nil => simp
    | cons b U3 => simp

/-- What one call of the scanner does with the elements it reads does not
depend on an option element further on that it does not reach. -/
theorem view_getopt_local (N U U1 rest : List String) (nc : List Char) (long short : String)
    (ho : NONOPTION_P long = false) (hdd : long ≠ "--")
    (hcons : 1 ≤ (getopt_read optstring opt_long (window (long :: rest) [])).2.optind)
    (h : (view_getopt ⟨N, U ++ long :: rest, nc⟩).2.2.rest = U1 ++ long :: rest) :
    view_getopt ⟨N, U ++ short :: rest, nc⟩
      = ((view_getopt ⟨N, U ++ long :: rest, nc⟩).1,
          (view_getopt ⟨N, U ++ long :: rest, nc⟩).2.1,
          ⟨(view_getopt ⟨N, U ++ long :: rest, nc⟩).2.2.skipped, U1 ++ short :: rest,
            (view_getopt ⟨N, U ++ long :: rest, nc⟩).2.2.nextchar⟩) := by
  by_cases hnc : nc = []
  · subst hnc
    rcases nonopts_or_option U with hU | ⟨P, u, U', e, hP, hu⟩
    · exfalso
      have hs := view_skip_option N U long rest hU ho hdd
      unfold view_getopt at h
      simp only [↓reduceIte, hs] at h
      rw [if_neg (by simp)] at h
      have := congrArg List.length h
      simp only [List.length_drop, List.length_cons, List.length_append] at this
      omega
    · subst e
      have eT : ∀ x : String, (P ++ u :: U') ++ x :: rest = P ++ u :: (U' ++ x :: rest) := by
        intro x
        simp
      by_cases hu2 : u = "--"
      · subst hu2
        exfalso
        have hs := view_skip_dashdash N P (U' ++ long :: rest) hP
        unfold view_getopt at h
        simp only [↓reduceIte, eT, hs] at h
        simp at h
      · have hs := view_skip_option N P u (U' ++ long :: rest) hP hu hu2
        have hs' := view_skip_option N P u (U' ++ short :: rest) hP hu hu2
        unfold view_getopt at h ⊢
        have e1 : (u :: (U' ++ long :: rest) = []) = False := by simp
        have e2 : (u :: (U' ++ short :: rest) = []) = False := by simp
        simp only [↓reduceIte, eT, hs, hs', e1, e2] at h ⊢
        obtain ⟨hn, hdrop⟩ := drop_local (u :: U') U1 (long :: rest) _ (by simp) h
        obtain ⟨f1, f2, f3⟩ := take2_facts (u :: U') rest long short
        have hw : getopt_read optstring opt_long (window (u :: (U' ++ short :: rest)) [])
            = ((getopt_read optstring opt_long (window (u :: (U' ++ long :: rest)) [])).1,
                { (getopt_read optstring opt_long (window (u :: (U' ++ long :: rest)) [])).2
                  with argv := (u :: (U' ++ short :: rest)).take 2 }) := by
          apply getopt_read_indep optstring opt_long (window (u :: (U' ++ long :: rest)) [])
            ((u :: (U' ++ short :: rest)).take 2) f1 (f2 (by simp))
          by_cases hl : (u :: U').length = 1
          · right
            show _ ≤ 0 + 1
            omega
          · left
            exact f3 hl
        rw [hw]
        dsimp only
        have := hdrop (short :: rest)
        rw [List.cons_append] at this
        rw [this]
  · unfold view_getopt at h ⊢
    simp only [hnc, ↓reduceIte] at h ⊢
    obtain ⟨hn, hdrop⟩ := drop_local U U1 (long :: rest) _ (by simp) h
    obtain ⟨f1, _, f3⟩ := take2_facts U rest long short
    have hw : short_option optstring (window (U ++ short :: rest) nc)
        = ((short_option optstring (window (U ++ long :: rest) nc)).1,
            { (short_option optstring (window (U ++ long :: rest) nc)).2
              with argv := (U ++ short :: rest).take 2 }) := by
      apply short_option_indep optstring (window (U ++ long :: rest) nc)
        ((U ++ short :: rest).take 2) f1
      by_cases hl : U.length = 1
      · right
        show _ ≤ 0 + 1
        omega
      · left
        exact f3 hl
    rw [hw]
    dsimp only
    rw [hdrop (short :: rest)]

theorem view_skip_suffix (N T : List String) : (view_skip N T).2 <:+ T := by
  unfold view_skip
  have h := List.dropWhile_suffix (l := T) NONOPTION_P
  cases hd : T.dropWhile NONOPTION_P with
  | nil => exact List.nil_suffix
  | cons t V =>
    dsimp only
    split_ifs
    · exact List.nil_suffix
    · rw [hd] at h
      exact h

theorem view_getopt_suffix (v : scan_view) : (view_getopt v).2.2.rest <:+ v.rest := by
  unfold view_getopt
  dsimp only
  split_ifs
  · exact List.nil_suffix
  · exact (List.drop_suffix _ _).trans (view_skip_suffix _ _)
  · exact List.drop_suffix _ _

theorem scan_body_suffix (map : cmd_op_type → Bool) (s s1 : parse_state) (hg : GInv s.d)
    (hr : RInv (option_tags map) s) (h : scan_body map s = .running s1) :
    s1.d.argv.drop s1.d.optind <:+ s.d.argv.drop s.d.optind := by
  have hb := scan_body_spec map s hg hr
  rw [h] at hb
  obtain ⟨_, _, _, hne, hd⟩ := hb
  obtain ⟨_, _, v3, _⟩ := getopt_long_view s.d hg
  have := view_getopt_suffix (view s.d)
  rw [← v3 hne, ← hd] at this
  exact this

theorem scan_rounds_suffix (map : cmd_op_type → Bool) :
    ∀ (k : Nat) (s t : parse_state), GInv s.d → RInv (option_tags map) s →
      scan_rounds map k s = some t →
      t.d.argv.drop t.d.optind <:+ s.d.argv.drop s.d.optind := by
  intro k
  induction k with
  | zero =>
    intro s t _ _ h
    simp only [scan_rounds, Option.some.injEq] at h
    subst h
    exact List.suffix_refl _
  | succ k ih =>
    intro s t hg hr h
    rw [scan_rounds] at h
    have hb := scan_body_spec map s hg hr
    cases hs : scan_body map s with
    | failed => rw [hs] at h; simp at h
    | returned r => rw [hs] at h; simp at h
    | finished s1 => rw [hs] at h; simp at h
    | running s1 =>
      rw [hs] at h hb
      dsimp only at h
      obtain ⟨g1, r1, _, _, _⟩ := hb
      exact (ih s1 t g1 r1 h).trans (scan_body_suffix map s s1 hg hr hs)

theorem scan_rounds_snoc (map : cmd_op_type → Bool) :
    ∀ (k : Nat) (s0 s a : parse_state), scan_rounds map k s0 = some s →
      scan_body map s = .running a → scan_rounds map (k + 1) s0 = some a := by
  intro k
  induction k with
  | zero =>
    intro s0 s a h hb
    simp only [scan_rounds, Option.some.injEq] at h
    subst h
    rw [scan_rounds, hb]
    rfl
  | succ k ih =>
    intro s0 s a h hb
    rw [scan_rounds] at h ⊢
    cases hs : scan_body map s0 with
    | failed => rw [hs] at h; simp at h
    | returned r => rw [hs] at h; simp at h
    | finished s1 => rw [hs] at h; simp at h
    | running s1 =>
      rw [hs] at h
      dsimp only at h ⊢
      exact ih s1 s a h hb

theorem view_eta (d : getopt_data) (N T : List String) (nc : List Char)
    (h1 : (view d).skipped = N) (h2 : d.argv.drop d.optind = T) (h3 : d.nextchar = nc) :
    view d = ⟨N, T, nc⟩ := by
  subst h1 h2 h3
  rfl

/-- The rounds before the scanner reaches an option element do not depend on
that element. -/
theorem scan_rounds_local (map : cmd_op_type → Bool) (long short : String)
    (rest : List String) (ho : NONOPTION_P long = false) (hdd : long ≠ "--")
    (hcons : 1 ≤ (getopt_read optstring opt_long (window (long :: rest) [])).2.optind) :
    ∀ (k : Nat) (s s' t : parse_state) (U Ut : List String), GInv s.d → GInv s'.d →
      RInv (option_tags map) s → RInv (option_tags map) s' → SameOps s s' →
      (view s'.d).skipped = (view s.d).skipped → s'.d.nextchar = s.d.nextchar →
      s.d.argv.drop s.d.optind = U ++ long :: rest →
      s'.d.argv.drop s'.d.optind = U ++ short :: rest →
      scan_rounds map k s = some t → t.d.argv.drop t.d.optind = Ut ++ long :: rest →
      ∃ t', scan_rounds map k s' = some t' ∧ SameOps t t'
        ∧ (view t'.d).skipped = (view t.d).skipped ∧ t'.d.nextchar = t.d.nextchar
        ∧ t'.d.argv.drop t'.d.optind = Ut ++ short :: rest := by
  intro k
  induction k with
  | zero =>
    intro s s' t U Ut _ _ _ _ hso hN hnc hT hT' h ht
    simp only [scan_rounds, Option.some.injEq] at h
    subst h
    rw [hT] at ht
    have := List.append_cancel_right ht
    subst this
    exact ⟨s', rfl, hso, hN, hnc, hT'⟩
  | succ k ih =>
    intro s s' t U Ut hg hg' hr hr' hso hN hnc hT hT' h ht
    rw [scan_rounds] at h
    have hb := scan_body_spec map s hg hr
    have hb' := scan_body_spec map s' hg' hr'
    cases hs : scan_body map s with
    | failed => rw [hs] at h; simp at h
    | returned r => rw [hs] at h; simp at h
    | finished s1 => rw [hs] at h; simp at h
    | running s1 =>
      rw [hs] at h hb
      dsimp only at h
      obtain ⟨g1, r1, _, hne, hd1⟩ := hb
      obtain ⟨W, hW⟩ := scan_rounds_suffix map k s1 t g1 r1 h
      rw [ht] at hW
      have hT1 : s1.d.argv.drop s1.d.optind = (W ++ Ut) ++ long :: rest := by
        rw [← hW, List.append_assoc]
      obtain ⟨v1, v2, v3, _⟩ := getopt_long_view s.d hg
      obtain ⟨w1, w2, w3, _⟩ := getopt_long_view s'.d hg'
      have hvs : view s.d = ⟨(view s.d).skipped, U ++ long :: rest, s.d.nextchar⟩ :=
        view_eta s.d _ _ _ rfl hT rfl
      have hvs' : view s'.d = ⟨(view s.d).skipped, U ++ short :: rest, s.d.nextchar⟩ :=
        view_eta s'.d _ _ _ hN hT' hnc
      have hrest : (view_getopt ⟨(view s.d).skipped, U ++ long :: rest, s.d.nextchar⟩).2.2.rest
          = (W ++ Ut) ++ long :: rest := by
        rw [← hvs, ← v3 hne, ← hd1]
        exact hT1
      have hloc := view_getopt_local (view s.d).skipped U (W ++ Ut) rest s.d.nextchar long short
        ho hdd hcons hrest
      rw [← hvs', ← hvs] at hloc
      rw [hloc] at w1 w2 w3
      dsimp only at w1 w2 w3
      have hc : (getopt_long optstring opt_long s'.d).1
          = (getopt_long optstring opt_long s.d).1 := by rw [w1, v1]
      have hoa : (getopt_long optstring opt_long s'.d).2.optarg
          = (getopt_long optstring opt_long s.d).2.optarg := by rw [w2, v2]
      have hrel := scan_body_rel map s s' hso hc hoa
      rw [hs] at hrel
      cases hs' : scan_body map s' with
      | failed => rw [hs'] at hrel; exact hrel.elim
      | returned r => rw [hs'] at hrel; exact hrel.elim
      | finished b => rw [hs'] at hrel; exact hrel.elim
      | running s1' =>
        rw [hs'] at hrel hb'
        obtain ⟨hso1, ha, hb1⟩ := hrel
        obtain ⟨g1', r1', _, _, _⟩ := hb'
        have hview1' := w3 (by rw [hc]; exact hne)
        have hview1 := v3 hne
        rw [← hb1] at hview1'
        rw [← ha] at hview1
        have hN1 : (view s1'.d).skipped = (view s1.d).skipped := by
          rw [hview1', hview1]
        have hnc1 : s1'.d.nextchar = s1.d.nextchar := by
          have e1 : (view s1'.d).nextchar = s1'.d.nextchar := rfl
          have e2 : (view s1.d).nextchar = s1.d.nextchar := rfl
          rw [← e1, ← e2, hview1', hview1]
        have hT1' : s1'.d.argv.drop s1'.d.optind = (W ++ Ut) ++ short :: rest := by
          have e1 : (view s1'.d).rest = s1'.d.argv.drop s1'.d.optind := rfl
          rw [← e1, hview1']
        obtain ⟨t', e, q1, q2, q3, q4⟩ := ih s1 s1' t (W ++ Ut) Ut g1 g1' r1 r1' hso1 hN1 hnc1
          hT1 hT1' h ht
        refine ⟨t', ?_, q1, q2, q3, q4⟩
        rw [scan_rounds, hs']
        exact e

/-! ## An option element replaced by an equivalent one -/

theorem pair_table (long short : String) (hp : (long, short) ∈ long_short_pairs) :
    ∃ c tag, (long, c, tag) ∈ option_table ∧ (short, c, tag) ∈ option_table
      ∧ (long ∈ value_option_tokens ↔ short ∈ value_option_tokens) := by
  simp only [long_short_pairs, List.mem_cons, List.mem_singleton, Prod.mk.injEq,
    List.not_mem_nil, or_false] at hp
  rcases hp with ⟨rfl, rfl⟩ | ⟨rfl, rfl⟩ | ⟨rfl, rfl⟩ | ⟨rfl, rfl⟩ | ⟨rfl, rfl⟩
  · exact ⟨chr 'h', COT_HELP, by decide, by decide, by decide⟩
  · exact ⟨chr 'j', COT_JOURNAL_RESUME, by decide, by decide, by decide⟩
  · exact ⟨chr 'b', COT_JOURNAL_ABORT, by decide, by decide, by decide⟩
  · exact ⟨chr 'a', COT_INSTALL, by decide, by decide, by decide⟩
  · exact ⟨chr 'r', COT_REMOVE, by decide, by decide, by decide⟩

theorem table_code_ne (e : String × Int × cmd_op_type) (he : e ∈ option_table) :
    e.2.1 ≠ -1 := by
  simp only [option_table, List.mem_cons, List.mem_singleton, List.not_mem_nil, or_false] at he
  rcases he with h | h | h | h | h | h | h | h | h | h | h | h | h | h | h | h | h | h | h <;>
    subst h <;> decide

theorem table_consumes (e : String × Int × cmd_op_type) (he : e ∈ option_table)
    (rest : List String) :
    1 ≤ (getopt_read optstring opt_long (window (e.1 :: rest) [])).2.optind := by
  by_cases hv : e.1 ∈ value_option_tokens
  · cases rest with
    | nil => rw [(read_value_token_last e he hv).2.2.1]
    | cons v V =>
      rw [(read_value_token e he hv v V).2.2.1]
      omega
  · rw [(read_plain_token e he hv rest).2.2.1]

/-- Two elements of the table with the same value of `getopt_long`, both
taking a value or both taking none, are read alike. -/
theorem view_getopt_same (e e' : String × Int × cmd_op_type) (he : e ∈ option_table)
    (he' : e' ∈ option_table) (hc : e'.2.1 = e.2.1)
    (hv : e.1 ∈ value_option_tokens ↔ e'.1 ∈ value_option_tokens) (N P rest : List String)
    (hP : ∀ a ∈ P, NONOPTION_P a = true) :
    view_getopt ⟨N, P ++ e'.1 :: rest, []⟩ = view_getopt ⟨N, P ++ e.1 :: rest, []⟩
      ∧ (view_getopt ⟨N, P ++ e.1 :: rest, []⟩).1 ≠ -1 := by
  by_cases h : e.1 ∈ value_option_tokens
  · cases rest with
    | nil =>
      rw [view_getopt_value_last e he h N P hP, view_getopt_value_last e' he' (hv.mp h) N P hP]
      exact ⟨rfl, by show chr ':' ≠ -1; decide⟩
    | cons v V =>
      rw [view_getopt_value e he h N P v V hP, view_getopt_value e' he' (hv.mp h) N P v V hP, hc]
      exact ⟨rfl, table_code_ne e he⟩
  · have h' : e'.1 ∉ value_option_tokens := fun x => h (hv.mpr x)
    rw [view_getopt_plain e he h N P rest hP, view_getopt_plain e' he' h' N P rest hP, hc]
    exact ⟨rfl, table_code_ne e he⟩

/-- The decomposition of the vector at an element the scanner is about to
read. -/
theorem split_at_option (argv : List String) (o : Nat) (nonopts : List String) (x : String)
    (rest : List String) (h : argv.drop o = nonopts ++ x :: rest) :
    argv = argv.take (o + nonopts.length) ++ x :: rest
      ∧ (argv.take (o + nonopts.length)).length = o + nonopts.length
      ∧ (argv.take (o + nonopts.length)).drop o = nonopts := by
  have h1 : argv.drop (o + nonopts.length) = x :: rest := by
    rw [← List.drop_drop, h]
    simp
  have hlen : o + nonopts.length + (rest.length + 1) = argv.length := by
    have := congrArg List.length h1
    simp only [List.length_drop, List.length_cons] at this
    omega
  refine ⟨?_, ?_, ?_⟩
  · conv_lhs => rw [← List.take_append_drop (o + nonopts.length) argv, h1]
  · rw [List.length_take]
    omega
  · have e := List.take_append_drop (o + nonopts.length) argv
    have h2 := h
    rw [← e] at h2
    rw [List.drop_append_of_le_length (by rw [List.length_take]; omega)] at h2
    rw [h1] at h2
    exact List.append_cancel_right h2

/-- An option element the scanner comes to read, replaced by an element of
the table with the same value of `getopt_long`: the two parses crash both,
or give the same result. -/
theorem replace_option (argv : List String) (accepts : List cmd_op_type) (k : Nat)
    (s : parse_state) (nonopts rest : List String) (e e' : String × Int × cmd_op_type)
    (he : e ∈ option_table) (he' : e' ∈ option_table) (hc : e'.2.1 = e.2.1)
    (hv : e.1 ∈ value_option_tokens ↔ e'.1 ∈ value_option_tokens)
    (hk : scan_rounds (cmd_op_accepts_map accepts) k (parse_start argv) = some s)
    (hnc : s.d.nextchar = [])
    (hd : argv.drop s.d.optind = nonopts ++ e.1 :: rest)
    (hno : ∀ a ∈ nonopts, NONOPTION_P a = true) :
    cmd_args_parse (argv.take (s.d.optind + nonopts.length) ++ e'.1 :: rest) accepts
        = cmd_args_parse argv accepts
      ∨ ∃ r r', cmd_args_parse argv accepts = some r
          ∧ cmd_args_parse (argv.take (s.d.optind + nonopts.length) ++ e'.1 :: rest) accepts
            = some r'
          ∧ IsCrash r ∧ IsCrash r' := by
  have hargv : argv ≠ [] := by
    intro e0
    subst e0
    have := reached_nonempty _ k s hk
    subst this
    simp [parse_start, getopt_start] at hd
  obtain ⟨hg, hr⟩ := reached_GInv argv _ k s hargv hk
  have hkept := reached_kept argv _ k s hargv hk
  obtain ⟨hA, hAlen, _⟩ := split_at_option argv s.d.optind nonopts e.1 rest hd
  generalize argv.take (s.d.optind + nonopts.length) = A at hA hAlen ⊢
  have hApos : 1 ≤ A.length := by
    have := hg.pos
    omega
  have hargv' : A ++ e'.1 :: rest ≠ [] := by simp
  have hT0 : (parse_start argv).d.argv.drop (parse_start argv).d.optind
      = A.drop 1 ++ e.1 :: rest := by
    show argv.drop 1 = _
    conv_lhs => rw [hA]
    exact List.drop_append_of_le_length hApos
  have hT0' : (parse_start (A ++ e'.1 :: rest)).d.argv.drop
      (parse_start (A ++ e'.1 :: rest)).d.optind = A.drop 1 ++ e'.1 :: rest :=
    List.drop_append_of_le_length hApos
  have hTs : s.d.argv.drop s.d.optind = nonopts ++ e.1 :: rest := by rw [hkept.tail, hd]
  obtain ⟨t1, t2⟩ := table_option e he
  obtain ⟨s', hk', hso, hN, hnc', hTs'⟩ := scan_rounds_local (cmd_op_accepts_map accepts)
    e.1 e'.1 rest t1 t2 (table_consumes e he rest) k (parse_start argv)
    (parse_start (A ++ e'.1 :: rest)) s (A.drop 1) nonopts (start_GInv argv hargv)
    (start_GInv _ hargv') (start_RInv _ _) (start_RInv _ _) ⟨rfl, rfl, rfl, rfl⟩
    (by simp [view, parse_start, getopt_start]) rfl hT0 hT0' hk hTs
  obtain ⟨hg', hr'⟩ := reached_GInv _ _ k s' hargv' hk'
  obtain ⟨hsame, hne⟩ := view_getopt_same e e' he he' hc hv (view s.d).skipped nonopts rest hno
  have hvs : view s.d = ⟨(view s.d).skipped, nonopts ++ e.1 :: rest, []⟩ :=
    view_eta s.d _ _ _ rfl hTs hnc
  have hvs' : view s'.d = ⟨(view s.d).skipped, nonopts ++ e'.1 :: rest, []⟩ :=
    view_eta s'.d _ _ _ hN hTs' (by rw [hnc', hnc])
  obtain ⟨v1, v2, v3, _⟩ := getopt_long_view s.d hg
  obtain ⟨w1, w2, w3, _⟩ := getopt_long_view s'.d hg'
  rw [hvs', hsame, ← hvs] at w1 w2 w3
  have hc2 : (getopt_long optstring opt_long s'.d).1
      = (getopt_long optstring opt_long s.d).1 := by rw [w1, v1]
  have hoa : (getopt_long optstring opt_long s'.d).2.optarg
      = (getopt_long optstring opt_long s.d).2.optarg := by rw [w2, v2]
  have hne2 : (getopt_long optstring opt_long s.d).1 ≠ -1 := by
    rw [v1, hvs]
    exact hne
  have hrel := scan_body_rel (cmd_op_accepts_map accepts) s s' hso hc2 hoa
  have hb := scan_body_spec (cmd_op_accepts_map accepts) s hg hr
  have hb' := scan_body_spec (cmd_op_accepts_map accepts) s' hg' hr'
  cases hs : scan_body (cmd_op_accepts_map accepts) s with
  | failed => rw [hs] at hb; exact hb.elim
  | finished a => rw [hs] at hb; exact absurd hb.2.1 hne2
  | returned r =>
    cases hs' : scan_body (cmd_op_accepts_map accepts) s' with
    | failed => rw [hs, hs'] at hrel; exact hrel.elim
    | finished b => rw [hs, hs'] at hrel; exact hrel.elim
    | running b => rw [hs, hs'] at hrel; exact hrel.elim
    | returned r' =>
      right
      rw [hs] at hb
      rw [hs'] at hb'
      exact ⟨r, r', parse_of_round argv accepts k s r hk hs,
        parse_of_round _ accepts k s' r' hk' hs', hb, hb'⟩
  | running a =>
    cases hs' : scan_body (cmd_op_accepts_map accepts) s' with
    | failed => rw [hs, hs'] at hrel; exact hrel.elim
    | finished b => rw [hs, hs'] at hrel; exact hrel.elim
    | returned r' => rw [hs, hs'] at hrel; exact hrel.elim
    | running b =>
      rw [hs, hs'] at hrel
      obtain ⟨hab, ha, hb1⟩ := hrel
      have hview : view b.d = view a.d := by
        rw [ha, hb1, v3 hne2, w3 (by rw [hc2]; exact hne2)]
      exact parse_sim argv _ accepts (k + 1) (k + 1) a b hargv hargv'
        (scan_rounds_snoc _ k _ s a hk hs) (scan_rounds_snoc _ k _ s' b hk' hs') ⟨hab, hview⟩

/-! ## The result is monotone in the whitelist -/

/-- A round of the option loop that reads an element of the table that takes
no value. -/
theorem round_plain (map : cmd_op_type → Bool) (s : parse_state) (hg : GInv s.d)
    (hcnt : s.res_count = s.result.length) (hnc : s.d.nextchar = [])
    (e : String × Int × cmd_op_type) (he : e ∈ option_table)
    (hv : e.1 ∉ value_option_tokens) (P rest : List String)
    (hT : s.d.argv.drop s.d.optind = P ++ e.1 :: rest)
    (hP : ∀ a ∈ P, NONOPTION_P a = true) :
    view (getopt_long optstring opt_long s.d).2 = ⟨(view s.d).skipped ++ P, rest, []⟩
      ∧ (map e.2.2 = true → scan_body map s
          = .running (appended { s with d := (getopt_long optstring opt_long s.d).2 } e.2.2 none))
      ∧ (map e.2.2 = false → ∃ r, scan_body map s = .returned r) := by
  have hvs : view s.d = ⟨(view s.d).skipped, P ++ e.1 :: rest, []⟩ :=
    view_eta s.d _ _ _ rfl hT hnc
  have hview := view_getopt_plain e he hv (view s.d).skipped P rest hP
  rw [← hvs] at hview
  exact scan_body_accept map s hg hcnt e.2.1 none _ e.2.2 none hview (table_code_ne e he)
    (fun S hS _ => option_switch_plain e he hv S hS)

/-- A round of the option loop that reads an element of the table that takes
a value, followed by the element `v`. -/
theorem round_value (map : cmd_op_type → Bool) (s : parse_state) (hg : GInv s.d)
    (hcnt : s.res_count = s.result.length) (hnc : s.d.nextchar = [])
    (e : String × Int × cmd_op_type) (he : e ∈ option_table)
    (hv : e.1 ∈ value_option_tokens) (P : List String) (v : String) (V : List String)
    (hT : s.d.argv.drop s.d.optind = P ++ e.1 :: v :: V)
    (hP : ∀ a ∈ P, NONOPTION_P a = true) :
    view (getopt_long optstring opt_long s.d).2 = ⟨(view s.d).skipped ++ P, V, []⟩
      ∧ (map e.2.2 = true → scan_body map s
          = .running (appended { s with d := (getopt_long optstring opt_long s.d).2 } e.2.2
              (some v)))
      ∧ (map e.2.2 = false → ∃ r, scan_body map s = .returned r) := by
  have hvs : view s.d = ⟨(view s.d).skipped, P ++ e.1 :: v :: V, []⟩ :=
    view_eta s.d _ _ _ rfl hT hnc
  have hview := view_getopt_value e he hv (view s.d).skipped P v V hP
  rw [← hvs] at hview
  exact scan_body_accept map s hg hcnt e.2.1 (some v) _ e.2.2 (some v) hview
    (table_code_ne e he) (fun S hS hoa => option_switch_value e he hv S hS v hoa)

theorem scan_body_mono (P Q : cmd_op_type → Bool) (hPQ : ∀ t, P t = true → Q t = true)
    (s s1 : parse_state) :
    (scan_body P s = .running s1 → scan_body Q s = .running s1)
      ∧ (scan_body P s = .finished s1 → scan_body Q s = .finished s1) := by
  unfold scan_body
  dsimp only
  by_cases h : (getopt_long optstring opt_long s.d).1 = -1
  · rw [if_pos h, if_pos h]
    exact ⟨id, id⟩
  · rw [if_neg h, if_neg h]
    cases option_switch (getopt_long optstring opt_long s.d).1
        { s with d := (getopt_long optstring opt_long s.d).2 } with
    | failed => exact ⟨id, id⟩
    | returned r => exact ⟨id, id⟩
    | finished a => exact ⟨id, id⟩
    | running a =>
      dsimp only
      by_cases hp : P (a.result.getD (a.res_count - 1) uninit).type = true
      · have hq := hPQ _ hp
        rw [hp, hq]
        exact ⟨id, id⟩
      · have hp2 : P (a.result.getD (a.res_count - 1) uninit).type = false := by
          simpa using hp
        rw [hp2]
        constructor <;> intro h <;> simp at h

theorem scan_options_mono (P Q : cmd_op_type → Bool) (hPQ : ∀ t, P t = true → Q t = true) :
    ∀ (fuel : Nat) (s t : parse_state), scan_options P fuel s = .finished t →
      scan_options Q fuel s = .finished t := by
  intro fuel
  induction fuel with
  | zero => intro s t h; simp [scan_options] at h
  | succ n ih =>
    intro s t h
    rw [scan_options] at h ⊢
    cases hs : scan_body P s with
    | failed => rw [hs] at h; cases h
    | returned r => rw [hs] at h; cases h
    | finished a =>
      rw [hs] at h
      rw [(scan_body_mono P Q hPQ s a).2 hs]
      exact h
    | running a =>
      rw [hs] at h
      rw [(scan_body_mono P Q hPQ s a).1 hs]
      exact ih a t h

theorem scan_nonoptions_mono (P Q : cmd_op_type → Bool) (hPQ : ∀ t, P t = true → Q t = true) :
    ∀ (n : Nat) (s t : parse_state), scan_nonoptions P n s = .finished t →
      scan_nonoptions Q n s = .finished t := by
  intro n
  induction n with
  | zero => intro s t h; exact h
  | succ n ih =>
    intro s t h
    rw [scan_nonoptions] at h ⊢
    by_cases hlt : s.d.optind < s.d.argv.length
    · rw [if_pos hlt] at h ⊢
      by_cases hp : P COT_NO_OP = true
      · have hq := hPQ _ hp
        simp only [hp, hq, Bool.not_true, Bool.false_eq_true, ↓reduceIte] at h ⊢
        exact ih _ t h
      · have hp2 : P COT_NO_OP = false := by simpa using hp
        simp [hp2] at h
    · rw [if_neg hlt] at h ⊢
      exact h

/-- A scan that ends without a crash ends the same way under a map that
accepts more. -/
theorem scan_mono (P Q : cmd_op_type → Bool) (hPQ : ∀ t, P t = true → Q t = true)
    (argv : List String) (t : parse_state) (h : scan argv P = .finished t) :
    scan argv Q = .finished t := by
  unfold scan at h ⊢
  cases ho : scan_options P (scan_fuel argv) (parse_start argv) with
  | failed => rw [ho] at h; cases h
  | returned r => rw [ho] at h; cases h
  | running a => rw [ho] at h; cases h
  | finished a =>
    rw [ho] at h
    rw [scan_options_mono P Q hPQ _ _ a ho]
    exact scan_nonoptions_mono P Q hPQ _ a t h

/-- A result that ends in `EXIT` is the result under every whitelist that
lists more. -/
theorem parse_mono (argv : List String) (W W' : List cmd_op_type)
    (h : ∀ t, t ∈ whitelist W → t ∈ whitelist W') (r : List cmd_op)
    (hr : cmd_args_parse argv W = some r) (hx : r.getLast? = some ⟨COT_EXIT, none⟩) :
    cmd_args_parse argv W' = some r := by
  have hPQ : ∀ t, cmd_op_accepts_map W t = true → cmd_op_accepts_map W' t = true := by
    intro t ht
    rw [accepts_map_iff] at ht ⊢
    rcases ht with ht | ht
    · exact Or.inl (h t ht)
    · exact Or.inr ht
  cases hs : scan argv (cmd_op_accepts_map W) with
  | failed =>
    have := scan_spec argv (cmd_op_accepts_map W)
    rw [hs] at this
    exact this.elim
  | running a =>
    have := scan_spec argv (cmd_op_accepts_map W)
    rw [hs] at this
    exact this.elim
  | returned r0 =>
    obtain ⟨hc, hp⟩ := parse_of_returned argv W r0 hs
    rw [hp] at hr
    simp only [Option.some.injEq] at hr
    subst hr
    rw [IsCrash_getLast _ hc] at hx
    simp at hx
  | finished t =>
    have hs' := scan_mono _ _ hPQ argv t hs
    unfold cmd_args_parse at hr ⊢
    rw [hs] at hr
    rw [hs']
    exact hr

/-! ## The backup and the help -/

/-- The loop of `args_backup` ends, with the working directory in the
buffer, as soon as the fuel covers the length of the path. -/
theorem getcwd_loop_ok (wd : String) :
    ∀ (fuel s : Nat), wd.length + 1 ≤ s + 128 * (fuel + 1) →
      ∃ size, getcwd_loop (some wd) (fuel + 1) s = some ⟨size, some wd⟩ := by
  intro fuel
  induction fuel with
  | zero =>
    intro s h
    have hle : wd.length + 1 ≤ s + 128 := by omega
    exact ⟨s + 128, by simp [getcwd_loop, getcwd, hle]⟩
  | succ n ih =>
    intro s h
    by_cases hle : wd.length + 1 ≤ s + 128
    · exact ⟨s + 128, by simp [getcwd_loop, getcwd, hle]⟩
    · obtain ⟨size, e⟩ := ih (s + 128) (by omega)
      refine ⟨size, ?_⟩
      rw [getcwd_loop]
      simp only [getcwd, hle, ↓reduceIte, and_self]
      exact e

theorem args_backup_wd (wd : String) (argv : List String) (b : backup) :
    ∃ size, (args_backup (some wd) argv b).orig_wd = some ⟨size, some wd⟩ := by
  have h : wd.length + 1 ≤ 0 + 128 * (wd.length / 128 + 1) := by omega
  exact getcwd_loop_ok wd (wd.length / 128) 0 h

theorem help_loop_eq (map : cmd_op_type → Bool) :
    ∀ (tags : List cmd_op_type) (out : List String),
      help_loop map tags out
        = out ++ tags.filterMap (fun t => if map t = true then opt_help t else none) := by
  intro tags
  induction tags with
  | nil => intro out; simp [help_loop]
  | cons i tags ih =>
    intro out
    rw [help_loop]
    cases hm : map i <;> cases ho : opt_help i <;>
      simp [ih, List.filterMap_cons, hm, ho]

/-! ## The loop of `main` of pkgupdate -/

theorem iterable_set (ops : List cmd_op) (i : Nat) (o1 : cmd_op) (h : Iterable ops i)
    (hlt : i + 1 < ops.length) :
    Iterable (ops.set (i + 1) { o1 with type := COT_CRASH }) (i + 1) := by
  refine ⟨by simpa using hlt, ?_, ?_⟩
  · intro j o hj hget
    by_cases h1 : i + 1 = j
    · subst h1
      rw [List.getElem?_set_self hlt] at hget
      simp only [Option.some.injEq] at hget
      subst hget
      right
      rfl
    · rw [List.getElem?_set_ne h1] at hget
      exact h.ok j o (by omega) hget
  · obtain ⟨o, ho, ht⟩ := h.last
    simp only [List.length_set]
    by_cases h1 : i + 1 = ops.length - 1
    · rw [← h1, List.getElem?_set_self hlt]
      exact ⟨_, rfl, rfl⟩
    · rw [List.getElem?_set_ne h1]
      exact ⟨o, ho, ht⟩

theorem iterable_next (ops : List cmd_op) (i : Nat) (h : Iterable ops i)
    (hlt : i + 1 < ops.length) : Iterable ops (i + 1) :=
  ⟨hlt, fun j o hj hget => h.ok j o (by omega) hget, h.last⟩

/-- One round of the loop of `main` on an element that does not end it: the
process dies in an `ASSERT_MSG`, or the `switch` is left, and the array can
be gone through from the next element on. -/
theorem dispatch_step (env : collaborators) (s : main_state) (o : cmd_op)
    (hi : Iterable s.ops s.op) (ho : s.ops[s.op]? = some o)
    (hterm : is_terminal o.type = false) :
    (∃ t, dispatch env s o = .died t)
      ∨ ∃ s', dispatch env s o = .next s' ∧ s'.op = s.op
          ∧ s'.ops.length = s.ops.length ∧ Iterable s'.ops (s.op + 1) := by
  have hd : is_dispatched o.type = true := by
    rcases hi.ok s.op o (Nat.le_refl _) ho with h | h
    · exact h
    · rw [hterm] at h
      cases h
  have hlt : s.op + 1 < s.ops.length := by
    obtain ⟨ol, hol, htl⟩ := hi.last
    have := hi.lt
    by_contra hge
    have e : s.ops.length - 1 = s.op := by omega
    rw [e, ho] at hol
    simp only [Option.some.injEq] at hol
    subst hol
    rw [hterm] at htl
    cases htl
  have hnext := iterable_next s.ops s.op hi hlt
  obtain ⟨o1, ho1⟩ : ∃ o1, s.ops[s.op + 1]? = some o1 := ⟨_, List.getElem?_eq_getElem hlt⟩
  rcases o with ⟨t, p⟩
  cases t <;> simp only [is_dispatched, Bool.false_eq_true] at hd
  · right
    exact ⟨_, rfl, rfl, rfl, hnext⟩
  · unfold dispatch
    dsimp only
    cases env.root_dir_set p with
    | some err => left; exact ⟨_, rfl⟩
    | none => right; exact ⟨_, rfl, rfl, rfl, hnext⟩
  · right
    exact ⟨_, rfl, rfl, rfl, hnext⟩
  · unfold dispatch
    dsimp only
    cases env.log_level_get p with
    | none => left; exact ⟨_, rfl⟩
    | some l => right; exact ⟨_, rfl, rfl, rfl, hnext⟩
  · unfold dispatch
    dsimp only
    cases env.log_level_get p with
    | none => left; exact ⟨_, rfl⟩
    | some l => right; exact ⟨_, rfl, rfl, rfl, hnext⟩
  · right
    exact ⟨_, rfl, rfl, rfl, hnext⟩
  · right
    unfold dispatch
    dsimp only
    by_cases hc : s.top_level_config.isSome = true
    · rw [if_pos hc, ho1]
      exact ⟨_, rfl, rfl, by simp, iterable_set s.ops s.op o1 hi hlt⟩
    · rw [if_neg hc]
      exact ⟨_, rfl, rfl, rfl, hnext⟩
  · right
    exact ⟨_, rfl, rfl, rfl, hnext⟩

/-- The loop of `main` on an array it can go through: it ends in one of the
two ways without a fault. -/
theorem main_loop_safe (env : collaborators) :
    ∀ (n fuel : Nat) (s : main_state), s.ops.length - s.op ≤ n → n < fuel →
      Iterable s.ops s.op → LoopSafe s.ops.length (main_loop env fuel s) := by
  intro n
  induction n with
  | zero =>
    intro fuel s hn _ hi
    have := hi.lt
    omega
  | succ n ih =>
    intro fuel s hn hf hi
    cases fuel with
    | zero => omega
    | succ fuel =>
      obtain ⟨o, ho⟩ : ∃ o, s.ops[s.op]? = some o := ⟨_, List.getElem?_eq_getElem hi.lt⟩
      rw [main_loop, ho]
      dsimp only
      by_cases hterm : is_terminal o.type = true
      · have hc : ¬ (o.type ≠ COT_EXIT ∧ o.type ≠ COT_CRASH) := by
          rintro ⟨h1, h2⟩
          revert hterm h1 h2
          cases o.type <;> simp [is_terminal]
        rw [if_neg hc]
        exact ⟨rfl, o, ho, hterm⟩
      · have hterm2 : is_terminal o.type = false := by simpa using hterm
        have hc : o.type ≠ COT_EXIT ∧ o.type ≠ COT_CRASH := by
          constructor <;> intro h <;> rw [h] at hterm2 <;> cases hterm2
        rw [if_pos hc]
        rcases dispatch_step env s o hi ho hterm2 with ⟨t, e⟩ | ⟨s', e, e1, e2, e3⟩
        · rw [e]
          trivial
        · rw [e]
          dsimp only
          have := ih fuel { s' with op := s'.op + 1 } (by dsimp only; rw [e1, e2]; omega)
            (by omega) (by dsimp only; rw [e1]; exact e3)
          dsimp only at this
          rw [e2] at this
          exact this

theorem allowed_dispatched (t : cmd_op_type)
    (h : cmd_op_accepts_map cmd_op_allows t = true) (hs : is_scanned t = true) :
    is_dispatched t = true := by
  cases t <;> first | rfl | (exact absurd hs (by decide)) | (exact absurd h (by decide))

theorem iterable_of_forall (l : List cmd_op) (o : cmd_op)
    (hall : ∀ x ∈ l, is_dispatched x.type = true ∨ is_terminal x.type = true)
    (hlast : l.getLast? = some o) (ht : is_terminal o.type = true) : Iterable l 0 := by
  have hne : l ≠ [] := by
    intro e
    subst e
    simp at hlast
  refine ⟨List.length_pos.mpr hne, ?_, ⟨o, ?_, ht⟩⟩
  · intro j x _ hget
    exact hall x (List.getElem?_mem hget)
  · rw [← List.getLast?_eq_getElem?]
    exact hlast

/-- What `cmd_args_parse` returns for the whitelist of pkgupdate is an array
the loop of `main` can go through. -/
theorem parse_iterable (argv : List String) :
    ∃ r, cmd_args_parse argv cmd_op_allows = some r ∧ Iterable r 0 := by
  obtain ⟨r, hr, h⟩ := parse_shape argv cmd_op_allows
  refine ⟨r, hr, ?_⟩
  rcases h with h | ⟨ops, e, hops⟩
  · apply iterable_of_forall r ⟨COT_CRASH, none⟩ _ (IsCrash_getLast r h) rfl
    obtain ⟨msgs, _, e⟩ := h
    subst e
    intro x hx
    simp only [List.mem_append, List.mem_map, List.mem_cons, List.mem_singleton,
      List.not_mem_nil, or_false] at hx
    rcases hx with ⟨m, _, rfl⟩ | rfl | rfl
    · left; rfl
    · left; rfl
    · right; rfl
  · subst e
    apply iterable_of_forall _ ⟨COT_EXIT, none⟩ _ (by simp) rfl
    intro x hx
    simp only [List.mem_append, List.mem_singleton] at hx
    rcases hx with hx | rfl
    · left
      exact allowed_dispatched x.type (hops x hx).acc (hops x hx).tag
    · right
      rfl

/-- A successful result, when `NO_OP` is accepted: the settings first, then
the other operations of the options, then one `NO_OP` for each remaining
element, then `EXIT`. -/
theorem success_shape (argv : List String) (accepts : List cmd_op_type) (r : List cmd_op)
    (hm : cmd_op_accepts_map accepts COT_NO_OP = true)
    (hr : cmd_args_parse argv accepts = some r) (hx : r.getLast? = some ⟨COT_EXIT, none⟩) :
    ∃ (opts : List cmd_op) (toks : List String), (∀ o ∈ opts, OpOK (option_tags (cmd_op_accepts_map accepts)) o)
      ∧ ¬ incompatible (opts ++ toks.map (fun a => ⟨COT_NO_OP, some a⟩))
      ∧ r = opts.filter (fun o => is_setting o.type) ++ opts.filter (fun o => !is_setting o.type)
          ++ toks.map (fun a => ⟨COT_NO_OP, some a⟩) ++ [⟨COT_EXIT, none⟩] := by
  cases hs : scan argv (cmd_op_accepts_map accepts) with
  | failed =>
    have := scan_spec argv (cmd_op_accepts_map accepts)
    rw [hs] at this
    exact this.elim
  | running a =>
    have := scan_spec argv (cmd_op_accepts_map accepts)
    rw [hs] at this
    exact this.elim
  | returned r0 =>
    obtain ⟨hc, hp⟩ := parse_of_returned argv accepts r0 hs
    rw [hp] at hr
    simp only [Option.some.injEq] at hr
    subst hr
    rw [IsCrash_getLast _ hc] at hx
    simp at hx
  | finished t =>
    obtain ⟨_, hp⟩ := parse_of_scan argv accepts t hs
    rw [hp] at hr
    simp only [Option.some.injEq] at hr
    have hni : ¬ incompatible t.result := by
      intro hi
      rw [if_pos hi] at hr
      subst hr
      simp at hx
    rw [if_neg hni] at hr
    have hsplit : ∃ u, RInv (option_tags (cmd_op_accepts_map accepts)) u
        ∧ t.result = u.result
            ++ (u.d.argv.drop u.d.optind).map (fun a => ⟨COT_NO_OP, some a⟩) := by
      unfold scan at hs
      cases ho : scan_options (cmd_op_accepts_map accepts) (scan_fuel argv)
          (parse_start argv) with
      | failed => rw [ho] at hs; cases hs
      | returned r0 => rw [ho] at hs; cases hs
      | running a => rw [ho] at hs; cases hs
      | finished u =>
        rw [ho] at hs
        dsimp only at hs
        have hu : RInv (option_tags (cmd_op_accepts_map accepts)) u := by
          by_cases hargv : argv = []
          · subst hargv
            have e2 : scan_options (cmd_op_accepts_map accepts) (scan_fuel [])
                (parse_start []) = .finished (parse_start []) := rfl
            rw [e2] at ho
            simp only [flow.finished.injEq] at ho
            subst ho
            exact start_RInv _ []
          · have := scan_options_spec (cmd_op_accepts_map accepts) (scan_fuel argv)
              (parse_start argv) (start_GInv argv hargv) (start_RInv _ argv)
              (start_measure argv)
            rw [ho] at this
            exact this
        obtain ⟨t', e, ht'⟩ := scan_nonoptions_accept _ hm (u.d.argv.drop u.d.optind)
          (u.d.argv.length - u.d.optind) u hu.cnt rfl (by simp)
        rw [hs] at e
        simp only [flow.finished.injEq] at e
        subst e
        exact ⟨u, hu, ht'⟩
    obtain ⟨u, hu, ht⟩ := hsplit
    refine ⟨u.result, u.d.argv.drop u.d.optind, hu.ops, ?_, ?_⟩
    · rw [← ht]
      exact hni
    · rw [← hr, ht, settings_first_append_no_op]

theorem allowed_setting (t : cmd_op_type) (h : cmd_op_accepts_map cmd_op_allows t = true)
    (hs : is_setting t = true) : is_allowed_setting t = true := by
  cases t <;> first | rfl | (exact absurd hs (by decide)) | (exact absurd h (by decide))

theorem allowed_other (t : cmd_op_type)
    (h : option_tags (cmd_op_accepts_map cmd_op_allows) t = true) (hs : is_setting t = false)
    (hsc : is_scanned t = true) : t = COT_HELP := by
  cases t <;> first
    | rfl
    | (exact absurd hs (by decide))
    | (exact absurd hsc (by decide))
    | (exact absurd h (by decide))

theorem getElem?_at (S : List cmd_op) (x : cmd_op) (T : List cmd_op) :
    (S ++ x :: T)[S.length]? = some x := by
  rw [List.getElem?_append_right (Nat.le_refl _)]
  simp

theorem getElem?_after (S T : List cmd_op) (k : Nat) : (S ++ T)[S.length + k]? = T[k]? := by
  rw [List.getElem?_append_right (by omega)]
  congr 1
  omega

theorem getElem?_before (S T : List cmd_op) (j : Nat) (h : j < S.length) :
    (S ++ T)[j]? = S[j]? := List.getElem?_append_left h

/-- The loop of `main` over settings the collaborators carry out: it goes on
behind them; only `batch` and what was written and called have changed. -/
theorem settings_run (env : collaborators) :
    ∀ (m fuel : Nat) (s : main_state),
      (∀ j, s.op ≤ j → j < s.op + m →
        ∃ o, s.ops[j]? = some o ∧ is_allowed_setting o.type = true ∧ setting_ok env o) →
      ∃ b outS, main_loop env (fuel + m) s
        = main_loop env fuel { s with op := s.op + m, batch := b, out := s.out ++ outS } := by
  intro m
  induction m with
  | zero =>
    intro fuel s _
    exact ⟨s.batch, [], by simp⟩
  | succ m ih =>
    intro fuel s h
    obtain ⟨o, ho, ha, hok⟩ := h s.op (Nat.le_refl _) (by omega)
    have hstep : ∃ b e, dispatch env s o = .next { s with batch := b, out := s.out ++ e } := by
      rcases o with ⟨t, p⟩
      cases t <;> simp only [is_allowed_setting, Bool.false_eq_true] at ha
      · have := hok.1 rfl
        dsimp only at this
        exact ⟨s.batch, [.root_dir_set p], by simp [dispatch, this]⟩
      · exact ⟨true, [], by simp [dispatch]⟩
      · obtain ⟨l, hl⟩ := Option.isSome_iff_exists.mp (hok.2 (Or.inl rfl))
        dsimp only at hl
        exact ⟨s.batch, [.log_syslog_level l], by simp [dispatch, hl]⟩
      · obtain ⟨l, hl⟩ := Option.isSome_iff_exists.mp (hok.2 (Or.inr rfl))
        dsimp only at hl
        exact ⟨s.batch, [.log_stderr_level l], by simp [dispatch, hl]⟩
      · exact ⟨s.batch, [.log_syslog_name p], by simp [dispatch]⟩
    obtain ⟨b, e, hd⟩ := hstep
    have hc : o.type ≠ COT_EXIT ∧ o.type ≠ COT_CRASH := by
      constructor <;> intro h2 <;> rw [h2] at ha <;> cases ha
    obtain ⟨b2, out2, e2⟩ := ih fuel
      { s with batch := b, out := s.out ++ e, op := s.op + 1 }
      (by
        intro j h1 h2
        dsimp only at h1 h2 ⊢
        exact h j (by omega) (by omega))
    refine ⟨b2, e ++ out2, ?_⟩
    rw [show fuel + (m + 1) = (fuel + m) + 1 from rfl, main_loop, ho]
    dsimp only
    rw [if_pos hc, hd]
    dsimp only
    rw [e2]
    dsimp only
    rw [List.append_assoc, Nat.add_assoc, Nat.add_comm 1 m]

/-- The loop of `main` on settings the collaborators carry out, followed by
two `NO_OP` and one more element: the first `NO_OP` gives the configuration,
the second marks the element after it `CRASH`, and the loop is left there. -/
theorem overflow_run (env : collaborators) (S : List cmd_op) (p1 p2 : Option String)
    (o3 : cmd_op) (rest : List cmd_op)
    (hS : ∀ o ∈ S, is_allowed_setting o.type = true ∧ setting_ok env o) (hp1 : p1.isSome = true) :
    ∃ b outS,
      main_loop env ((S ++ ⟨COT_NO_OP, p1⟩ :: ⟨COT_NO_OP, p2⟩ :: o3 :: rest).length + 1)
          (main_start (S ++ ⟨COT_NO_OP, p1⟩ :: ⟨COT_NO_OP, p2⟩ :: o3 :: rest))
        = .left
            { ops := S ++ ⟨COT_NO_OP, p1⟩ :: ⟨COT_NO_OP, p2⟩ :: { o3 with type := COT_CRASH } :: rest
              op := S.length + 2
              top_level_config := p1
              batch := b
              early_exit := false
              out := outS
                ++ [.fputs (some "More than one top level config given. This is not supported\n")]
                ++ print_help } := by
  have hlen : (S ++ ⟨COT_NO_OP, p1⟩ :: ⟨COT_NO_OP, p2⟩ :: o3 :: rest).length + 1
      = (rest.length + 4) + S.length := by
    simp only [List.length_append, List.length_cons]
    omega
  obtain ⟨b, outS, e⟩ := settings_run env S.length (rest.length + 4)
    (main_start (S ++ ⟨COT_NO_OP, p1⟩ :: ⟨COT_NO_OP, p2⟩ :: o3 :: rest))
    (by
      intro j _ hj
      have hj2 : j < S.length := by
        simpa [main_start] using hj
      refine ⟨S[j], ?_, hS _ (List.getElem_mem hj2)⟩
      show (S ++ _)[j]? = _
      rw [List.getElem?_append_left hj2]
      exact List.getElem?_eq_getElem hj2)
  refine ⟨b, outS, ?_⟩
  rw [hlen, e]
  have h1 : (S ++ ⟨COT_NO_OP, p1⟩ :: ⟨COT_NO_OP, p2⟩ :: o3 :: rest)[S.length]?
      = some ⟨COT_NO_OP, p1⟩ := getElem?_at S _ _
  have h2 : (S ++ ⟨COT_NO_OP, p1⟩ :: ⟨COT_NO_OP, p2⟩ :: o3 :: rest)[S.length + 1]?
      = some ⟨COT_NO_OP, p2⟩ := by
    rw [getElem?_after]
    rfl
  have h3 : (S ++ ⟨COT_NO_OP, p1⟩ :: ⟨COT_NO_OP, p2⟩ :: o3 :: rest)[S.length + 1 + 1]?
      = some o3 := by
    rw [Nat.add_assoc, getElem?_after]
    simp
  have hset : (S ++ ⟨COT_NO_OP, p1⟩ :: ⟨COT_NO_OP, p2⟩ :: o3 :: rest).set (S.length + 1 + 1)
      { o3 with type := COT_CRASH }
      = S ++ ⟨COT_NO_OP, p1⟩ :: ⟨COT_NO_OP, p2⟩ :: { o3 with type := COT_CRASH } :: rest := by
    rw [List.set_append_right _ _ (by omega)]
    have : S.length + 1 + 1 - S.length = 2 := by omega
    rw [this]
    rfl
  have h4 : (S ++ ⟨COT_NO_OP, p1⟩ :: ⟨COT_NO_OP, p2⟩ :: { o3 with type := COT_CRASH } :: rest)[
      S.length + 1 + 1]? = some { o3 with type := COT_CRASH } := by
    rw [Nat.add_assoc, getElem?_after]
    simp
  simp only [main_start, Nat.zero_add, List.nil_append]
  rw [show rest.length + 4 = (rest.length + 1) + 1 + 1 + 1 from rfl, main_loop]
  dsimp only
  rw [h1]
  dsimp only
  rw [if_pos (by decide)]
  simp only [dispatch, Option.isSome_none, Bool.false_eq_true, ↓reduceIte]
  rw [main_loop]
  dsimp only
  rw [h2]
  dsimp only
  rw [if_pos (by decide)]
  simp only [dispatch, hp1, ↓reduceIte, h3, hset]
  rw [main_loop]
  dsimp only
  rw [h4]
  dsimp only
  rw [if_neg (by simp)]

/-- A successful result for the whitelist of pkgupdate with two or more
`NO_OP`: settings the whitelist lists, then the `NO_OP`, then `EXIT`. -/
theorem pk_shape (argv : List String) (r : List cmd_op)
    (hr : cmd_args_parse argv cmd_op_allows = some r)
    (hx : r.getLast? = some ⟨COT_EXIT, none⟩)
    (h2 : 2 ≤ (r.filter (fun o => o.type = COT_NO_OP)).length) :
    ∃ (S : List cmd_op) (p1 p2 : String) (toks : List String),
      r = S ++ ⟨COT_NO_OP, some p1⟩ :: ⟨COT_NO_OP, some p2⟩
            :: (toks.map (fun a => ⟨COT_NO_OP, some a⟩) ++ [⟨COT_EXIT, none⟩])
        ∧ ∀ o ∈ S, is_allowed_setting o.type = true := by
  obtain ⟨opts, toks0, hops, hni, e⟩ := success_shape argv cmd_op_allows r (by decide) hr hx
  have hS : ∀ o ∈ opts.filter (fun o => is_setting o.type), is_allowed_setting o.type = true := by
    intro o ho
    rw [List.mem_filter] at ho
    exact allowed_setting o.type (option_tags_le _ _ (hops o ho.1).acc) ho.2
  have hH : ∀ o ∈ opts.filter (fun o => !is_setting o.type), o.type = COT_HELP := by
    intro o ho
    rw [List.mem_filter] at ho
    exact allowed_other o.type (hops o ho.1).acc (by simpa using ho.2) (hops o ho.1).tag
  have hc1 : (opts.filter (fun o => is_setting o.type)).filter (fun o => o.type = COT_NO_OP)
      = [] := by
    rw [List.filter_eq_nil_iff]
    intro o ho hno
    have := hS o ho
    simp only [decide_eq_true_eq] at hno
    rw [hno] at this
    cases this
  have hc2 : (opts.filter (fun o => !is_setting o.type)).filter (fun o => o.type = COT_NO_OP)
      = [] := by
    rw [List.filter_eq_nil_iff]
    intro o ho hno
    have := hH o ho
    simp only [decide_eq_true_eq] at hno
    rw [hno] at this
    cases this
  have hc3 : (toks0.map (fun a => (⟨COT_NO_OP, some a⟩ : cmd_op))).filter
      (fun o => o.type = COT_NO_OP) = toks0.map (fun a => (⟨COT_NO_OP, some a⟩ : cmd_op)) := by
    rw [List.filter_eq_self]
    intro o ho
    simp only [List.mem_map] at ho
    obtain ⟨a, _, rfl⟩ := ho
    simp
  have hcount : 2 ≤ toks0.length := by
    rw [e] at h2
    simp only [List.filter_append, hc1, hc2, hc3, List.nil_append, List.length_append,
      List.length_map] at h2
    simpa using h2
  have hHnil : opts.filter (fun o => !is_setting o.type) = [] := by
    by_contra hne
    obtain ⟨h0, hh⟩ := List.exists_mem_of_ne_nil _ hne
    apply hni
    refine ⟨⟨h0, ?_, ?_⟩, Or.inl ?_⟩
    · rw [List.mem_append]
      left
      exact (List.mem_filter.mp hh).1
    · rw [hH h0 hh]
      rfl
    · have hf : (toks0.map (fun a => (⟨COT_NO_OP, some a⟩ : cmd_op))).filter
          (fun o => !is_setting o.type)
          = toks0.map (fun a => (⟨COT_NO_OP, some a⟩ : cmd_op)) := by
        rw [List.filter_eq_self]
        intro o ho
        simp only [List.mem_map] at ho
        obtain ⟨a, _, rfl⟩ := ho
        rfl
      rw [List.filter_append, hf, List.length_append, List.length_map]
      have := List.length_pos.mpr hne
      omega
  match toks0, hcount, e with
  | p1 :: p2 :: toks, _, e =>
    refine ⟨opts.filter (fun o => is_setting o.type), p1, p2, toks, ?_, hS⟩
    rw [e, hHnil]
    simp

/-! ## The empty value and the program name -/

theorem view_getopt_empty (e : String × Int × cmd_op_type) (he : e ∈ empty_value_tokens)
    (N P rest : List String) (hP : ∀ a ∈ P, NONOPTION_P a = true) :
    view_getopt ⟨N, P ++ e.1 :: rest, []⟩ = (e.2.1, some "", ⟨N ++ P, rest, []⟩) := by
  simp only [empty_value_tokens, List.mem_cons, List.mem_singleton, List.not_mem_nil,
    or_false] at he
  have key : NONOPTION_P e.1 = false ∧ e.1 ≠ "--"
      ∧ (getopt_read optstring opt_long (window (e.1 :: rest) [])).1 = e.2.1
      ∧ (getopt_read optstring opt_long (window (e.1 :: rest) [])).2.optarg = some ""
      ∧ (getopt_read optstring opt_long (window (e.1 :: rest) [])).2.optind = 1
      ∧ (getopt_read optstring opt_long (window (e.1 :: rest) [])).2.nextchar = [] := by
    rcases he with h | h | h <;> subst h <;> cases rest <;>
      exact ⟨by decide, by decide, rfl, rfl, rfl, rfl⟩
  obtain ⟨t1, t2, r1, r2, r3, r4⟩ := key
  unfold view_getopt
  simp only [↓reduceIte, view_skip_option N P e.1 rest hP t1 t2]
  rw [if_neg (by simp), r1, r2, r3, r4]
  rfl

theorem empty_value_entry (e : String × Int × cmd_op_type) (he : e ∈ empty_value_tokens) :
    ∃ e0 ∈ option_table, e0.2 = e.2 ∧ e0.1 ∈ value_option_tokens := by
  simp only [empty_value_tokens, List.mem_cons, List.mem_singleton, List.not_mem_nil,
    or_false] at he
  rcases he with h | h | h <;> subst h
  · exact ⟨("--add", chr 'a', COT_INSTALL), by decide, rfl, by decide⟩
  · exact ⟨("--remove", chr 'r', COT_REMOVE), by decide, rfl, by decide⟩
  · exact ⟨("--approve", OPT_APPROVE_VAL, COT_APPROVE), by decide, rfl, by decide⟩

/-- A round of the option loop that reads a long option with an equals sign
and an empty value. -/
theorem round_empty (map : cmd_op_type → Bool) (s : parse_state) (hg : GInv s.d)
    (hcnt : s.res_count = s.result.length) (hnc : s.d.nextchar = [])
    (e : String × Int × cmd_op_type) (he : e ∈ empty_value_tokens) (P rest : List String)
    (hT : s.d.argv.drop s.d.optind = P ++ e.1 :: rest)
    (hP : ∀ a ∈ P, NONOPTION_P a = true) :
    view (getopt_long optstring opt_long s.d).2 = ⟨(view s.d).skipped ++ P, rest, []⟩
      ∧ (map e.2.2 = true → scan_body map s
          = .running (appended { s with d := (getopt_long optstring opt_long s.d).2 } e.2.2
              (some "")))
      ∧ (map e.2.2 = false → ∃ r, scan_body map s = .returned r) := by
  obtain ⟨e0, he0, e2, hv0⟩ := empty_value_entry e he
  have hvs : view s.d = ⟨(view s.d).skipped, P ++ e.1 :: rest, []⟩ :=
    view_eta s.d _ _ _ rfl hT hnc
  have hview := view_getopt_empty e he (view s.d).skipped P rest hP
  rw [← hvs] at hview
  have hne : e.2.1 ≠ -1 := by
    rw [← e2]
    exact table_code_ne e0 he0
  refine scan_body_accept map s hg hcnt e.2.1 (some "") _ e.2.2 (some "") hview hne ?_
  intro S hS hoa
  have := option_switch_value e0 he0 hv0 S hS "" hoa
  rw [e2] at this
  exact this

/-- The result does not depend on the program name, crash sequences
apart. -/
theorem parse_program_name (p q : String) (args : List String) (accepts : List cmd_op_type) :
    cmd_args_parse (q :: args) accepts = cmd_args_parse (p :: args) accepts
      ∨ ∃ r r', cmd_args_parse (p :: args) accepts = some r
          ∧ cmd_args_parse (q :: args) accepts = some r' ∧ IsCrash r ∧ IsCrash r' :=
  parse_sim (p :: args) (q :: args) accepts 0 0 (parse_start (p :: args))
    (parse_start (q :: args)) (by simp) (by simp) rfl rfl
    ⟨⟨rfl, rfl, rfl, rfl⟩, by simp [view, parse_start, getopt_start]⟩

/-- A result that ends in `EXIT` is the result for every program name and
every whitelist that lists more. -/
theorem parse_transfer (p q : String) (args : List String) (W W' : List cmd_op_type)
    (r : List cmd_op) (h : ∀ t, t ∈ whitelist W → t ∈ whitelist W')
    (hr : cmd_args_parse (p :: args) W = some r) (hx : r.getLast? = some ⟨COT_EXIT, none⟩) :
    cmd_args_parse (q :: args) W' = some r := by
  have h1 := parse_mono (p :: args) W W' h r hr hx
  rcases parse_program_name p q args W' with e | ⟨r1, r2, e1, _, hc, _⟩
  · rw [e, h1]
  · rw [h1] at e1
    simp only [Option.some.injEq] at e1
    subst e1
    rw [IsCrash_getLast _ hc] at hx
    simp at hx

/-! ## The loop of `main` without a fatal error -/

theorem dispatch_died (env : collaborators) (s : main_state) (o : cmd_op)
    (t : List (Option String)) (h : dispatch env s o = .died t) : ¬ setting_ok env o := by
  intro hok
  rcases o with ⟨ty, p⟩
  cases ty <;> unfold dispatch at h <;> dsimp only at h
  case mk.COT_ROOT_DIR =>
    have h1 := hok.1 rfl
    dsimp only at h1
    rw [h1] at h
    cases h
  case mk.COT_SYSLOG_LEVEL =>
    obtain ⟨l, hl⟩ := Option.isSome_iff_exists.mp (hok.2 (Or.inl rfl))
    dsimp only at hl
    rw [hl] at h
    cases h
  case mk.COT_STDERR_LEVEL =>
    obtain ⟨l, hl⟩ := Option.isSome_iff_exists.mp (hok.2 (Or.inr rfl))
    dsimp only at hl
    rw [hl] at h
    cases h
  case mk.COT_NO_OP =>
    split_ifs at h
    cases ho1 : s.ops[s.op + 1]? with
    | none => rw [ho1] at h; cases h
    | some o1 => rw [ho1] at h; cases h
  all_goals cases h

theorem dispatch_ops (env : collaborators) (s s' : main_state) (o : cmd_op)
    (h : dispatch env s o = .next s') :
    s'.op = s.op
      ∧ (s'.ops = s.ops
        ∨ ∃ o1 : cmd_op, s'.ops = s.ops.set (s.op + 1) { o1 with type := COT_CRASH }) := by
  rcases o with ⟨ty, p⟩
  cases ty <;> unfold dispatch at h <;> dsimp only at h
  case mk.COT_ROOT_DIR =>
    cases hr : env.root_dir_set p with
    | some err => rw [hr] at h; cases h
    | none =>
      rw [hr] at h
      simp only [run.next.injEq] at h
      subst h
      exact ⟨rfl, Or.inl rfl⟩
  case mk.COT_SYSLOG_LEVEL =>
    cases hr : env.log_level_get p with
    | none => rw [hr] at h; cases h
    | some l =>
      rw [hr] at h
      simp only [run.next.injEq] at h
      subst h
      exact ⟨rfl, Or.inl rfl⟩
  case mk.COT_STDERR_LEVEL =>
    cases hr : env.log_level_get p with
    | none => rw [hr] at h; cases h
    | some l =>
      rw [hr] at h
      simp only [run.next.injEq] at h
      subst h
      exact ⟨rfl, Or.inl rfl⟩
  case mk.COT_NO_OP =>
    split_ifs at h
    · cases ho1 : s.ops[s.op + 1]? with
      | none => rw [ho1] at h; cases h
      | some o1 =>
        rw [ho1] at h
        simp only [run.next.injEq] at h
        subst h
        exact ⟨rfl, Or.inr ⟨o1, rfl⟩⟩
    · simp only [run.next.injEq] at h
      subst h
      exact ⟨rfl, Or.inl rfl⟩
  all_goals first
    | (cases h; done)
    | (simp only [run.next.injEq] at h
       subst h
       exact ⟨rfl, Or.inl rfl⟩)

theorem setting_ok_set (env : collaborators) (ops : List cmd_op) (i : Nat) (o1 : cmd_op)
    (h : ∀ (j : Nat) (o : cmd_op), ops[j]? = some o → setting_ok env o) :
    ∀ (j : Nat) (o : cmd_op), (ops.set i { o1 with type := COT_CRASH })[j]? = some o →
      setting_ok env o := by
  intro j o hget
  by_cases hij : i = j
  · subst hij
    by_cases hlt : i < ops.length
    · rw [List.getElem?_set_self hlt] at hget
      simp only [Option.some.injEq] at hget
      subst hget
      constructor
      · intro h1
        cases h1
      · intro h1
        rcases h1 with h1 | h1 <;> cases h1
    · have : (ops.set i { o1 with type := COT_CRASH })[i]? = none := by
        rw [List.getElem?_eq_none_iff]
        simp only [List.length_set]
        omega
      rw [this] at hget
      cases hget
  · rw [List.getElem?_set_ne hij] at hget
    exact h j o hget

/-- The process does not die in the loop of `main` when the collaborators
carry out every setting of the array. -/
theorem main_loop_not_died (env : collaborators) :
    ∀ (fuel : Nat) (s : main_state) (t : List (Option String)),
      (∀ (j : Nat) (o : cmd_op), s.ops[j]? = some o → setting_ok env o) →
      main_loop env fuel s ≠ .died t := by
  intro fuel
  induction fuel with
  | zero =>
    intro s t _ h
    cases h
  | succ fuel ih =>
    intro s t hok h
    rw [main_loop] at h
    cases ho : s.ops[s.op]? with
    | none =>
      rw [ho] at h
      cases h
    | some o =>
      rw [ho] at h
      dsimp only at h
      split_ifs at h
      · cases hd : dispatch env s o with
        | unfinished => rw [hd] at h; cases h
        | assertion => rw [hd] at h; cases h
        | outside => rw [hd] at h; cases h
        | left a => rw [hd] at h; cases h
        | died t2 => exact dispatch_died env s o t2 hd (hok _ o ho)
        | next s' =>
          rw [hd] at h
          dsimp only at h
          obtain ⟨_, hops⟩ := dispatch_ops env s s' o hd
          refine ih { s' with op := s'.op + 1 } t ?_ h
          dsimp only
          rcases hops with e | ⟨o1, e⟩
          · rw [e]
            exact hok
          · rw [e]
            exact setting_ok_set env s.ops _ o1 hok

/-! ## Rounds at a reached state -/

/-- The invariants of a state the option loop reaches, and the elements it
is about to read, in the vector as permuted so far. -/
theorem reached_at (argv : List String) (map : cmd_op_type → Bool) (k : Nat)
    (s : parse_state) (nonopts : List String) (x : String) (rest : List String)
    (hk : scan_rounds map k (parse_start argv) = some s)
    (hd : argv.drop s.d.optind = nonopts ++ x :: rest) :
    GInv s.d ∧ RInv (option_tags map) s
      ∧ s.d.argv.drop s.d.optind = nonopts ++ x :: rest := by
  have hargv : argv ≠ [] := by
    intro e0
    subst e0
    have := reached_nonempty _ k s hk
    subst this
    simp [parse_start, getopt_start] at hd
  obtain ⟨hg, hr⟩ := reached_GInv argv _ k s hargv hk
  have hkept := reached_kept argv _ k s hargv hk
  exact ⟨hg, hr, by rw [hkept.tail, hd]⟩

/-- The operation a round of the option loop stores is in every successful
result. -/
theorem round_op_kept (argv : List String) (accepts : List cmd_op_type) (k : Nat)
    (s s1 : parse_state) (op : cmd_op)
    (hk : scan_rounds (cmd_op_accepts_map accepts) k (parse_start argv) = some s)
    (hb : scan_body (cmd_op_accepts_map accepts) s = .running s1)
    (hop : op ∈ s1.result) (r : List cmd_op)
    (hr : cmd_args_parse argv accepts = some r) (hx : r.getLast? = some ⟨COT_EXIT, none⟩) :
    op ∈ r :=
  reached_op_kept argv accepts (k + 1) s1 r op (scan_rounds_snoc _ k _ s s1 hk hb) hop hr hx

theorem crash_not_exit (r : List cmd_op) (h : IsCrash r) :
    r.getLast? ≠ some ⟨COT_EXIT, none⟩ := by
  rw [IsCrash_getLast r h]
  decide

/-- Two parses that are equal or crash both have the same successful
results. -/
theorem same_success (a b : Option (List cmd_op))
    (h : a = b ∨ ∃ r r', b = some r ∧ a = some r' ∧ IsCrash r ∧ IsCrash r')
    (r : List cmd_op) (hx : r.getLast? = some ⟨COT_EXIT, none⟩) :
    b = some r ↔ a = some r := by
  rcases h with h | ⟨r0, r0', hb, ha, c, c'⟩
  · rw [h]
  · constructor
    · intro h1
      rw [hb] at h1
      cases h1
      exact absurd hx (crash_not_exit _ c)
    · intro h1
      rw [ha] at h1
      cases h1
      exact absurd hx (crash_not_exit _ c')

/-! ## The end of `main` after a `NO_OP` too many -/

/-- The function `main` after the loop was left at an element marked
`CRASH`: it returns 1. -/
theorem main_tail_crash (env : collaborators) (s : main_state) (o : cmd_op)
    (ho : s.ops[s.op]? = some o) (hc : o.type = COT_CRASH) :
    main_tail env s = .left ⟨COT_CRASH, s.top_level_config, s.out, 1⟩ := by
  have hlt : s.op < s.ops.length := by
    rcases Nat.lt_or_ge s.op s.ops.length with h | h
    · exact h
    · rw [List.getElem?_eq_none h] at ho
      cases ho
  have hget : (s.ops.getD s.op uninit).type = COT_CRASH := by
    rw [List.getD_eq_getElem?_getD, ho]
    exact hc
  have hne : ¬ (COT_CRASH = COT_EXIT ∧ s.early_exit = false ∧ s.top_level_config = none) := by
    simp
  unfold main_tail
  rw [ho]
  simp only [hc]
  rw [if_neg hne, hget, if_neg (by simp), if_neg (by simp)]

/-! ## A round of the option loop, by the value `getopt_long` returns -/

/-- The `case` of the `switch` for the value of an element of the table. -/
theorem table_switch (e : String × Int × cmd_op_type) (he : e ∈ option_table)
    (S : parse_state) (hcnt : S.res_count = S.result.length)
    (hoa : e.1 ∈ value_option_tokens → S.d.optarg.isSome = true) :
    option_switch e.2.1 S
      = .running (appended S e.2.2 (if e.1 ∈ value_option_tokens then S.d.optarg else none)) := by
  by_cases hv : e.1 ∈ value_option_tokens
  · obtain ⟨v, hv2⟩ := Option.isSome_iff_exists.1 (hoa hv)
    rw [if_pos hv, hv2]
    exact option_switch_value e he hv S hcnt v hv2
  · rw [if_neg hv]
    exact option_switch_plain e he hv S hcnt

/-- The value of an element of the table that takes a value comes with
`optarg` set. -/
theorem table_code_optarg (e : String × Int × cmd_op_type) (he : e ∈ option_table)
    (d : getopt_data) (h : RetOK e.2.1 d) (hv : e.1 ∈ value_option_tokens) :
    d.optarg.isSome = true := by
  simp only [option_table, List.mem_cons, List.mem_singleton, List.not_mem_nil, or_false] at he
  rcases he with h0 | h0 | h0 | h0 | h0 | h0 | h0 | h0 | h0 | h0 | h0 | h0 | h0 | h0 | h0 | h0
      | h0 | h0 | h0 <;>
    subst h0 <;>
    first
    | exact absurd hv (by decide)
    | (rcases h with h | h | h | ⟨_, h⟩
       · exact absurd h (by decide)
       · exact absurd h (by decide)
       · exact absurd h (by decide)
       · exact h)

/-- The values `getopt_long` returns: the end of the options, the two error
codes, and the values of the table. -/
theorem getopt_long_codes (d : getopt_data) (hg : GInv d) :
    (getopt_long optstring opt_long d).1 = -1 ∨ (getopt_long optstring opt_long d).1 = chr '?'
      ∨ (getopt_long optstring opt_long d).1 = chr ':'
      ∨ ∃ e ∈ option_table, (getopt_long optstring opt_long d).1 = e.2.1 := by
  rcases getopt_long_spec d hg with ⟨h, _, _⟩ | ⟨_, _, hok, _⟩
  · exact Or.inl h
  · generalize (getopt_long optstring opt_long d).1 = c at hok
    rcases hok with h | h | h | ⟨h, _⟩
    · exact Or.inr (Or.inl h)
    · exact Or.inr (Or.inr (Or.inl h))
    · right; right; right
      simp only [noarg_codes, List.mem_cons, List.mem_singleton, List.not_mem_nil,
        or_false] at h
      rcases h with h | h | h | h | h | h | h <;> subst h
      · exact ⟨("-h", chr 'h', COT_HELP), by decide, rfl⟩
      · exact ⟨("-j", chr 'j', COT_JOURNAL_RESUME), by decide, rfl⟩
      · exact ⟨("-b", chr 'b', COT_JOURNAL_ABORT), by decide, rfl⟩
      · exact ⟨("--batch", OPT_BATCH_VAL, COT_BATCH), by decide, rfl⟩
      · exact ⟨("--reexec", OPT_REEXEC_VAL, COT_REEXEC), by decide, rfl⟩
      · exact ⟨("--state-log", OPT_STATE_LOG_VAL, COT_STATE_LOG), by decide, rfl⟩
      · exact ⟨("--ask-approval", OPT_ASK_APPROVAL_VAL, COT_ASK_APPROVAL), by decide, rfl⟩
    · right; right; right
      simp only [arg_codes, List.mem_cons, List.mem_singleton, List.not_mem_nil,
        or_false] at h
      rcases h with h | h | h | h | h | h | h <;> subst h
      · exact ⟨("-a", chr 'a', COT_INSTALL), by decide, rfl⟩
      · exact ⟨("-r", chr 'r', COT_REMOVE), by decide, rfl⟩
      · exact ⟨("-R", chr 'R', COT_ROOT_DIR), by decide, rfl⟩
      · exact ⟨("-s", chr 's', COT_SYSLOG_LEVEL), by decide, rfl⟩
      · exact ⟨("-S", chr 'S', COT_SYSLOG_NAME), by decide, rfl⟩
      · exact ⟨("-e", chr 'e', COT_STDERR_LEVEL), by decide, rfl⟩
      · exact ⟨("--approve", OPT_APPROVE_VAL, COT_APPROVE), by decide, rfl⟩

/-- A round of the option loop in which `getopt_long` returns the value of an
element of the table, however the option was spelled: the round stores one
operation with the tag of that element, and `optarg` as parameter when the
option takes a value, if the tag is accepted; it returns a crash sequence
otherwise. -/
theorem round_code (map : cmd_op_type → Bool) (s : parse_state) (hg : GInv s.d)
    (hr : RInv (option_tags map) s) (e : String × Int × cmd_op_type) (he : e ∈ option_table)
    (hc : (getopt_long optstring opt_long s.d).1 = e.2.1) :
    (e.1 ∈ value_option_tokens → (getopt_long optstring opt_long s.d).2.optarg.isSome = true)
      ∧ (map e.2.2 = true → scan_body map s
          = .running (appended { s with d := (getopt_long optstring opt_long s.d).2 } e.2.2
              (if e.1 ∈ value_option_tokens then (getopt_long optstring opt_long s.d).2.optarg
               else none)))
      ∧ (map e.2.2 = false → ∃ r, scan_body map s = .returned r ∧ IsCrash r) := by
  have hne : (getopt_long optstring opt_long s.d).1 ≠ -1 := by
    rw [hc]
    exact table_code_ne e he
  have hoa : e.1 ∈ value_option_tokens →
      (getopt_long optstring opt_long s.d).2.optarg.isSome = true := by
    intro hv
    rcases getopt_long_spec s.d hg with ⟨h, _, _⟩ | ⟨_, _, hok, _⟩
    · exact absurd h hne
    · rw [hc] at hok
      exact table_code_optarg e he _ hok hv
  have hsw := table_switch e he { s with d := (getopt_long optstring opt_long s.d).2 } hr.cnt hoa
  have hget : ∀ p, ((appended { s with d := (getopt_long optstring opt_long s.d).2 } e.2.2
      p).result.getD
      ((appended { s with d := (getopt_long optstring opt_long s.d).2 } e.2.2 p).res_count - 1)
      uninit).type = e.2.2 := by
    intro p
    simp only [appended, Nat.add_sub_cancel]
    rw [getD_length_append]
  refine ⟨hoa, ?_, ?_⟩
  · intro hm
    unfold scan_body
    dsimp only
    rw [if_neg hne, hc, hsw]
    dsimp only
    rw [hget, hm]
    rfl
  · intro hm
    have hb := scan_body_spec map s hg hr
    have e1 : ∃ r, scan_body map s = .returned r := by
      unfold scan_body
      dsimp only
      rw [if_neg hne, hc, hsw]
      dsimp only
      rw [hget, hm]
      exact ⟨_, rfl⟩
    obtain ⟨r, e1⟩ := e1
    rw [e1] at hb
    exact ⟨r, e1, hb⟩

/-! ## The value `getopt_long` returns, by the spelling of the option -/

/-- The reading of a letter of an option without a value. -/
theorem short_plain_code (d : getopt_data) (x : Char) (cs : List Char)
    (hx : x ∈ ['h', 'b', 'j']) (hnc : d.nextchar = x :: cs) :
    (short_option optstring d).1 = chr x ∧ (short_option optstring d).2.optarg = d.optarg := by
  simp only [List.mem_cons, List.mem_singleton, List.not_mem_nil, or_false] at hx
  unfold short_option
  rw [hnc]
  rcases hx with rfl | rfl | rfl <;>
    (by_cases hcs : cs = [] <;> simp [hcs, strchr, optstring_data])

/-- The reading of a letter of an option with a value, when letters follow
it in the element: they are the value. -/
theorem short_attached_code (d : getopt_data) (x : Char) (cs : List Char)
    (hx : x ∈ ['a', 'r', 'R', 's', 'e', 'S']) (hnc : d.nextchar = x :: cs) (hcs : cs ≠ []) :
    (short_option optstring d).1 = chr x
      ∧ (short_option optstring d).2.optarg = some (String.mk cs) := by
  simp only [List.mem_cons, List.mem_singleton, List.not_mem_nil, or_false] at hx
  unfold short_option
  rw [hnc]
  rcases hx with rfl | rfl | rfl | rfl | rfl | rfl <;> simp [hcs, strchr, optstring_data]

/-- The reading of a letter of an option with a value, the last of its
element, when an element follows: that element is the value. -/
theorem short_next_code (d : getopt_data) (x : Char)
    (hx : x ∈ ['a', 'r', 'R', 's', 'e', 'S']) (hnc : d.nextchar = [x])
    (hlt : d.optind + 1 ≠ d.argv.length) :
    (short_option optstring d).1 = chr x
      ∧ (short_option optstring d).2.optarg = d.argv[d.optind + 1]? := by
  simp only [List.mem_cons, List.mem_singleton, List.not_mem_nil, or_false] at hx
  unfold short_option
  rw [hnc]
  rcases hx with rfl | rfl | rfl | rfl | rfl | rfl <;> simp [hlt, strchr, optstring_data]

/-- The reading of a long option the table has under the name given, in
full or abbreviated. -/
theorem long_name_code (d : getopt_data) (nm : List Char) (p : getopt_option)
    (hnc : d.nextchar = nm)
    (hf : find_long_option opt_long (nm.takeWhile (fun c => c ≠ '=')) = some (some p)) :
    (p.has_arg = 0 → nm.dropWhile (fun c => c ≠ '=') = [] →
        (process_long_option optstring opt_long d).1 = p.val
          ∧ (process_long_option optstring opt_long d).2.optarg = d.optarg)
      ∧ (p.has_arg = 1 → ∀ c v, nm.dropWhile (fun c => c ≠ '=') = c :: v →
          (process_long_option optstring opt_long d).1 = p.val
            ∧ (process_long_option optstring opt_long d).2.optarg = some (String.mk v))
      ∧ (p.has_arg = 1 → nm.dropWhile (fun c => c ≠ '=') = [] →
          d.optind + 1 < d.argv.length →
          (process_long_option optstring opt_long d).1 = p.val
            ∧ (process_long_option optstring opt_long d).2.optarg = d.argv[d.optind + 1]?) := by
  subst hnc
  refine ⟨?_, ?_, ?_⟩
  · intro h0 hd
    unfold process_long_option
    simp only [hf, hd, h0]
    simp
  · intro h1 c v hd
    unfold process_long_option
    simp only [hf, hd, h1]
    simp
  · intro h1 hd hlt
    unfold process_long_option
    simp only [hf, hd, h1]
    simp [hlt]

/-! ## The spelling of an option at a state the option loop reaches -/

theorem getopt_read_short (a : getopt_data) (tok : String) (x : Char) (cs : List Char)
    (h : a.argv[a.optind]? = some tok) (hd : tok.data = '-' :: x :: cs) (hx : x ≠ '-') :
    getopt_read optstring opt_long a = short_option optstring { a with nextchar := x :: cs } := by
  rw [getopt_read_option a tok h (by simp [NONOPTION_P, hd]), hd]
  split
  · next y rest heq =>
    simp only [List.cons.injEq] at heq
    exact absurd heq.2.1 hx
  · next y rest hne heq =>
    simp only [List.cons.injEq] at heq
    rw [← heq.2]
  · next heq => simp at heq

theorem getopt_read_long (a : getopt_data) (tok : String) (nm : List Char)
    (h : a.argv[a.optind]? = some tok) (hd : tok.data = '-' :: '-' :: nm) :
    getopt_read optstring opt_long a
      = process_long_option optstring opt_long { a with nextchar := nm } := by
  rw [getopt_read_option a tok h (by simp [NONOPTION_P, hd]), hd]
  rfl

theorem dashes_ne (tok : String) (X : List Char)
    (hd : tok.data = '-' :: X) (hX : X ≠ ['-']) : tok ≠ "--" := by
  intro e
  subst e
  have : ("--" : String).data = ['-', '-'] := rfl
  rw [this] at hd
  simp only [List.cons.injEq, true_and] at hd
  exact hX hd.symm

/-- The call of `getopt_long` at a state the option loop reaches, when no
element is being read and an option element comes after some non-options:
its value and `optarg` are those of the reading of that element. -/
theorem reached_read (argv : List String) (map : cmd_op_type → Bool) (k : Nat)
    (s : parse_state) (nonopts : List String) (tok : String) (R : List String)
    (hk : scan_rounds map k (parse_start argv) = some s) (hnc : s.d.nextchar = [])
    (hd : argv.drop s.d.optind = nonopts ++ tok :: R)
    (hno : ∀ a ∈ nonopts, NONOPTION_P a = true) (hz : NONOPTION_P tok = false)
    (hdd : tok ≠ "--") :
    (getopt_long optstring opt_long s.d).1
        = (getopt_read optstring opt_long (window (tok :: R) [])).1
      ∧ (getopt_long optstring opt_long s.d).2.optarg
        = (getopt_read optstring opt_long (window (tok :: R) [])).2.optarg := by
  obtain ⟨hg, _, hT⟩ := reached_at argv map k s nonopts tok R hk hd
  obtain ⟨v1, v2, _, _⟩ := getopt_long_view s.d hg
  have hv : view s.d = ⟨(view s.d).skipped, nonopts ++ tok :: R, []⟩ :=
    view_eta s.d _ _ _ rfl hT hnc
  rw [hv] at v1 v2
  rw [v1, v2]
  unfold view_getopt
  simp only [↓reduceIte, view_skip_option (view s.d).skipped nonopts tok R hno hz hdd]
  rw [if_neg (by simp)]
  exact ⟨rfl, rfl⟩

/-- The call of `getopt_long` at a state the option loop reaches, when an
element is being read: its value and `optarg` are those of the reading of the
next letter. -/
theorem reached_cluster (argv : List String) (map : cmd_op_type → Bool) (k : Nat)
    (s : parse_state) (tok : String) (R : List String) (x : Char) (cs : List Char)
    (hk : scan_rounds map k (parse_start argv) = some s) (hnc : s.d.nextchar = x :: cs)
    (hd : argv.drop s.d.optind = tok :: R) :
    (getopt_long optstring opt_long s.d).1
        = (short_option optstring (window (tok :: R) (x :: cs))).1
      ∧ (getopt_long optstring opt_long s.d).2.optarg
        = (short_option optstring (window (tok :: R) (x :: cs))).2.optarg := by
  obtain ⟨hg, _, hT⟩ := reached_at argv map k s [] tok R hk hd
  obtain ⟨v1, v2, _, _⟩ := getopt_long_view s.d hg
  have hv : view s.d = ⟨(view s.d).skipped, tok :: R, x :: cs⟩ :=
    view_eta s.d _ _ _ rfl hT hnc
  rw [hv] at v1 v2
  rw [v1, v2]
  unfold view_getopt
  rw [if_neg (by simp)]
  exact ⟨rfl, rfl⟩

/-- The letters the scanner reads next are read by `short_option`. -/
theorem letters_read (argv : List String) (map : cmd_op_type → Bool) (k : Nat)
    (s : parse_state) (x : Char) (cs : List Char) (R : List String)
    (hk : scan_rounds map k (parse_start argv) = some s)
    (hl : letters_next argv s.d x cs R) (hx : x ≠ '-') :
    ∃ tok, (getopt_long optstring opt_long s.d).1
          = (short_option optstring (window (tok :: R) (x :: cs))).1
        ∧ (getopt_long optstring opt_long s.d).2.optarg
          = (short_option optstring (window (tok :: R) (x :: cs))).2.optarg := by
  rcases hl with ⟨hnc, nonopts, tok, htok, hd, hno⟩ | ⟨hnc, tok, hd⟩
  · have hz : NONOPTION_P tok = false := by simp [NONOPTION_P, htok]
    have hdd : tok ≠ "--" := dashes_ne tok (x :: cs) htok (by
      intro e
      simp only [List.cons.injEq] at e
      exact hx e.1)
    obtain ⟨r1, r2⟩ := reached_read argv map k s nonopts tok R hk hnc hd hno hz hdd
    have e := getopt_read_short (window (tok :: R) []) tok x cs (by simp [window]) htok hx
    rw [e] at r1 r2
    exact ⟨tok, r1, r2⟩
  · exact ⟨tok, reached_cluster argv map k s tok R x cs hk hnc hd⟩

/-- The value `getopt_long` returns for the letter the scanner reads next,
and `optarg`: for a letter of an option without a value, its code; for a
letter of an option with a value, its code, and as value the letters that
follow it in the element, or the next element when none follow. -/
theorem letters_code (argv : List String) (map : cmd_op_type → Bool) (k : Nat)
    (s : parse_state) (x : Char) (cs : List Char) (R : List String)
    (hk : scan_rounds map k (parse_start argv) = some s)
    (hl : letters_next argv s.d x cs R) :
    (x ∈ ['h', 'b', 'j'] → (getopt_long optstring opt_long s.d).1 = chr x
        ∧ (getopt_long optstring opt_long s.d).2.optarg = none)
      ∧ (x ∈ ['a', 'r', 'R', 's', 'e', 'S'] → cs ≠ [] →
          (getopt_long optstring opt_long s.d).1 = chr x
            ∧ (getopt_long optstring opt_long s.d).2.optarg = some (String.mk cs))
      ∧ (x ∈ ['a', 'r', 'R', 's', 'e', 'S'] → cs = [] → ∀ v V, R = v :: V →
          (getopt_long optstring opt_long s.d).1 = chr x
            ∧ (getopt_long optstring opt_long s.d).2.optarg = some v) := by
  refine ⟨?_, ?_, ?_⟩
  · intro hx
    obtain ⟨tok, r1, r2⟩ := letters_read argv map k s x cs R hk hl (by
      intro e
      subst e
      exact absurd hx (by decide))
    obtain ⟨c1, c2⟩ := short_plain_code (window (tok :: R) (x :: cs)) x cs hx rfl
    exact ⟨r1.trans c1, r2.trans c2⟩
  · intro hx hcs
    obtain ⟨tok, r1, r2⟩ := letters_read argv map k s x cs R hk hl (by
      intro e
      subst e
      exact absurd hx (by decide))
    obtain ⟨c1, c2⟩ := short_attached_code (window (tok :: R) (x :: cs)) x cs hx rfl hcs
    exact ⟨r1.trans c1, r2.trans c2⟩
  · intro hx hcs v V hR
    subst hcs hR
    obtain ⟨tok, r1, r2⟩ := letters_read argv map k s x [] (v :: V) hk hl (by
      intro e
      subst e
      exact absurd hx (by decide))
    obtain ⟨c1, c2⟩ := short_next_code (window (tok :: v :: V) [x]) x hx rfl (by simp [window])
    exact ⟨r1.trans c1, r2.trans (c2.trans (by simp [window]))⟩

/-- The value `getopt_long` returns for the long option the scanner reads
next, and `optarg`: the value the table `opt_long` has for the entry the name
stands for, in full or abbreviated; for an option with a value, the value is
the text after the equals sign, or the next element when there is no equals
sign. -/
theorem long_code (argv : List String) (map : cmd_op_type → Bool) (k : Nat)
    (s : parse_state) (nm : List Char) (R : List String) (p : getopt_option)
    (hk : scan_rounds map k (parse_start argv) = some s)
    (hl : long_next argv s.d nm R)
    (hf : find_long_option opt_long (nm.takeWhile (fun c => c ≠ '=')) = some (some p)) :
    (p.has_arg = 0 → nm.dropWhile (fun c => c ≠ '=') = [] →
        (getopt_long optstring opt_long s.d).1 = p.val
          ∧ (getopt_long optstring opt_long s.d).2.optarg = none)
      ∧ (p.has_arg = 1 → ∀ c v, nm.dropWhile (fun c => c ≠ '=') = c :: v →
          (getopt_long optstring opt_long s.d).1 = p.val
            ∧ (getopt_long optstring opt_long s.d).2.optarg = some (String.mk v))
      ∧ (p.has_arg = 1 → nm.dropWhile (fun c => c ≠ '=') = [] → ∀ v V, R = v :: V →
          (getopt_long optstring opt_long s.d).1 = p.val
            ∧ (getopt_long optstring opt_long s.d).2.optarg = some v) := by
  obtain ⟨hnc, hnm, nonopts, tok, htok, hd, hno⟩ := hl
  have hz : NONOPTION_P tok = false := by simp [NONOPTION_P, htok]
  have hdd : tok ≠ "--" := dashes_ne tok ('-' :: nm) htok (by
    intro e
    simp only [List.cons.injEq, true_and] at e
    exact hnm e)
  obtain ⟨r1, r2⟩ := reached_read argv map k s nonopts tok R hk hnc hd hno hz hdd
  have e := getopt_read_long (window (tok :: R) []) tok nm (by simp [window]) htok
  rw [e] at r1 r2
  obtain ⟨c1, c2, c3⟩ := long_name_code { window (tok :: R) [] with nextchar := nm } nm p rfl hf
  refine ⟨?_, ?_, ?_⟩
  · intro h0 hdw
    obtain ⟨a1, a2⟩ := c1 h0 hdw
    exact ⟨r1.trans a1, r2.trans a2⟩
  · intro h1 c v hdw
    obtain ⟨a1, a2⟩ := c2 h1 c v hdw
    exact ⟨r1.trans a1, r2.trans a2⟩
  · intro h1 hdw v V hR
    subst hR
    obtain ⟨a1, a2⟩ := c3 h1 hdw (by simp [window])
    exact ⟨r1.trans a1, r2.trans (a2.trans (by simp [window]))⟩

/-- The value `getopt_long` returns, and `optarg`, when the scanner reads
next an element of the table, followed by an element when it takes a
value. -/
theorem token_code (argv : List String) (map : cmd_op_type → Bool) (k : Nat)
    (s : parse_state) (e : String × Int × cmd_op_type) (he : e ∈ option_table)
    (nonopts rest : List String)
    (hk : scan_rounds map k (parse_start argv) = some s) (hnc : s.d.nextchar = [])
    (hd : argv.drop s.d.optind = nonopts ++ e.1 :: rest)
    (hno : ∀ a ∈ nonopts, NONOPTION_P a = true)
    (hval : e.1 ∈ value_option_tokens → rest ≠ []) :
    (getopt_long optstring opt_long s.d).1 = e.2.1
      ∧ (getopt_long optstring opt_long s.d).2.optarg
        = if e.1 ∈ value_option_tokens then rest.head? else none := by
  obtain ⟨hg, _, hT⟩ := reached_at argv map k s nonopts e.1 rest hk hd
  obtain ⟨v1, v2, _, _⟩ := getopt_long_view s.d hg
  have hv : view s.d = ⟨(view s.d).skipped, nonopts ++ e.1 :: rest, []⟩ :=
    view_eta s.d _ _ _ rfl hT hnc
  rw [hv] at v1 v2
  by_cases hvt : e.1 ∈ value_option_tokens
  · obtain ⟨v, V, rfl⟩ := List.exists_cons_of_ne_nil (hval hvt)
    rw [view_getopt_value e he hvt _ nonopts v V hno] at v1 v2
    rw [if_pos hvt]
    exact ⟨v1, v2⟩
  · rw [view_getopt_plain e he hvt _ nonopts rest hno] at v1 v2
    rw [if_neg hvt]
    exact ⟨v1, v2⟩

/-- A round of the option loop, at a state the loop reaches, in which
`getopt_long` returns the value of an element of the table: one operation is
stored, which every successful result has, or the parse ends in a crash
sequence. -/
theorem reached_round_code (argv : List String) (accepts : List cmd_op_type) (k : Nat)
    (s : parse_state) (e : String × Int × cmd_op_type) (he : e ∈ option_table)
    (hk : scan_rounds (cmd_op_accepts_map accepts) k (parse_start argv) = some s)
    (hc : (getopt_long optstring opt_long s.d).1 = e.2.1) :
    (e.1 ∈ value_option_tokens → (getopt_long optstring opt_long s.d).2.optarg.isSome = true)
      ∧ (cmd_op_accepts_map accepts e.2.2 = true →
          ∃ s1, scan_body (cmd_op_accepts_map accepts) s = .running s1
            ∧ s1.result = s.result ++ [⟨e.2.2,
                if e.1 ∈ value_option_tokens then (getopt_long optstring opt_long s.d).2.optarg
                else none⟩]
            ∧ ∀ r, cmd_args_parse argv accepts = some r →
                r.getLast? = some ⟨COT_EXIT, none⟩ →
                (⟨e.2.2, if e.1 ∈ value_option_tokens
                    then (getopt_long optstring opt_long s.d).2.optarg else none⟩ : cmd_op) ∈ r)
      ∧ (cmd_op_accepts_map accepts e.2.2 = false →
          ∃ r, cmd_args_parse argv accepts = some r ∧ IsCrash r) := by
  have hargv : argv ≠ [] := by
    intro e0
    subst e0
    have := reached_nonempty _ k s hk
    subst this
    exact table_code_ne e he hc.symm
  obtain ⟨hg, hr⟩ := reached_GInv argv _ k s hargv hk
  obtain ⟨h1, h2, h3⟩ := round_code (cmd_op_accepts_map accepts) s hg hr e he hc
  refine ⟨h1, ?_, ?_⟩
  · intro hm
    refine ⟨_, h2 hm, rfl, fun r hr2 hx => ?_⟩
    exact round_op_kept argv accepts k s _ _ hk (h2 hm) (by simp [appended]) r hr2 hx
  · intro hm
    obtain ⟨r, hb, hcr⟩ := h3 hm
    exact ⟨r, parse_of_round argv accepts k s r hk hb, hcr⟩

/-- The values `getopt_long` returns at a state the option loop reaches. -/
theorem reached_codes (argv : List String) (map : cmd_op_type → Bool) (k : Nat)
    (s : parse_state) (hk : scan_rounds map k (parse_start argv) = some s) :
    (getopt_long optstring opt_long s.d).1 = -1 ∨ (getopt_long optstring opt_long s.d).1 = chr '?'
      ∨ (getopt_long optstring opt_long s.d).1 = chr ':'
      ∨ ∃ e ∈ option_table, (getopt_long optstring opt_long s.d).1 = e.2.1 := by
  by_cases hargv : argv = []
  · subst hargv
    have := reached_nonempty _ k s hk
    subst this
    exact Or.inl rfl
  · exact getopt_long_codes s.d (reached_GInv argv _ k s hargv hk).1

/-! ## The claims -/

/-- C1: for every argument vector and every whitelist, `cmd_args_parse`
returns a sequence that is not empty, whose last element has the tag `EXIT`
or `CRASH`, and none of whose elements before the last has the tag `EXIT` or
`CRASH`. -/
theorem C1_one_terminal_marker (argv : List String) (accepts : List cmd_op_type) :
    ∃ r, cmd_args_parse argv accepts = some r ∧ r ≠ []
      ∧ (∃ last, r.getLast? = some last
          ∧ (last.type = COT_EXIT ∨ last.type = COT_CRASH))
      ∧ ∀ op ∈ r.dropLast, op.type ≠ COT_EXIT ∧ op.type ≠ COT_CRASH := by
  obtain ⟨r, hr, h⟩ := parse_shape argv accepts
  refine ⟨r, hr, ?_⟩
  rcases h with h | ⟨ops, e, hops⟩
  · have hl := IsCrash_getLast r h
    refine ⟨?_, ⟨_, hl, Or.inr rfl⟩, ?_⟩
    · intro e; rw [e] at hl; simp at hl
    · intro op hop
      rcases IsCrash_dropLast r h op hop with e | e <;> rw [e] <;> decide
  · subst e
    refine ⟨by simp, ⟨⟨COT_EXIT, none⟩, by simp, Or.inl rfl⟩, ?_⟩
    intro op hop
    rw [List.dropLast_concat] at hop
    have := OpOK_ne _ op (hops op hop)
    exact ⟨this.1, this.2.1⟩

/-- C2, the claim as stated fails: the arguments `-h -h` hold only options
of the option table, and with the empty whitelist the parser returns the
crash sequence, whose first operation has the tag `ERR_MSG`, which is
neither in the whitelist nor one of `EXIT`, `CRASH`, `HELP`. -/
theorem C2_counterexample :
    ¬ (∀ r, cmd_args_parse ["prog", "-h", "-h"] [COT_LAST] = some r →
        ∀ op ∈ r.dropLast, op.type ∈ whitelist [COT_LAST] ∨ op.type = COT_EXIT
          ∨ op.type = COT_CRASH ∨ op.type = COT_HELP) := by
  intro h
  have e : cmd_args_parse ["prog", "-h", "-h"] [COT_LAST]
      = some [⟨COT_ERR_MSG, some "Incompatible commands\n"⟩, ⟨COT_HELP, none⟩,
          ⟨COT_CRASH, none⟩] := by decide!
  have := h _ e ⟨COT_ERR_MSG, some "Incompatible commands\n"⟩ (by decide!)
  revert this
  decide

/-- C2, amended: for every whitelist and every argument vector, every
operation of the result before the last has a tag that is in the whitelist
or is one of `EXIT`, `CRASH`, `HELP`, `ERR_MSG`. -/
theorem C2_tags_within_whitelist (argv : List String) (accepts : List cmd_op_type) :
    ∃ r, cmd_args_parse argv accepts = some r
      ∧ ∀ op ∈ r.dropLast, op.type ∈ whitelist accepts ∨ op.type = COT_EXIT
          ∨ op.type = COT_CRASH ∨ op.type = COT_HELP ∨ op.type = COT_ERR_MSG := by
  obtain ⟨r, hr, h⟩ := parse_shape argv accepts
  refine ⟨r, hr, ?_⟩
  intro op hop
  rcases h with h | ⟨ops, e, hops⟩
  · rcases IsCrash_dropLast r h op hop with e | e
    · exact Or.inr (Or.inr (Or.inr (Or.inr e)))
    · exact Or.inr (Or.inr (Or.inr (Or.inl e)))
  · subst e
    rw [List.dropLast_concat] at hop
    rcases (accepts_map_iff accepts op.type).mp (hops op hop).acc with e | e | e | e
    · exact Or.inl e
    · exact Or.inr (Or.inl e)
    · exact Or.inr (Or.inr (Or.inl e))
    · exact Or.inr (Or.inr (Or.inr (Or.inl e)))

/-- C3: a result of the parser that ends in `EXIT` is the scanned list with
its settings (`ROOT_DIR`, `BATCH`, `REEXEC`, `STATE_LOG`, `SYSLOG_LEVEL`,
`STDERR_LEVEL`, `SYSLOG_NAME`, `ASK_APPROVAL`, `APPROVE`) first, in their
order, then its other operations, in their order, then a single `EXIT`;
the loop that reorders computes exactly this stable partition. -/
theorem C3_stable_partition (argv : List String) (accepts : List cmd_op_type)
    (r : List cmd_op) (h : cmd_args_parse argv accepts = some r)
    (hexit : ∃ last, r.getLast? = some last ∧ last.type = COT_EXIT) :
    ∃ s, scan argv (cmd_op_accepts_map accepts) = .finished s
      ∧ (move_settings s.res_count s.res_count 0 0 s.result).1
          = s.result.filter (fun o => is_setting o.type)
            ++ s.result.filter (fun o => !is_setting o.type)
      ∧ r = s.result.filter (fun o => is_setting o.type)
            ++ s.result.filter (fun o => !is_setting o.type) ++ [⟨COT_EXIT, none⟩] := by
  obtain ⟨last, hl, ht⟩ := hexit
  have hcrash : ∀ x, IsCrash x → x ≠ r := by
    intro x hx e
    subst e
    rw [IsCrash_getLast x hx] at hl
    simp only [Option.some.injEq] at hl
    subst hl
    exact absurd ht (by decide)
  cases hs : scan argv (cmd_op_accepts_map accepts) with
  | failed => simp [cmd_args_parse, hs] at h
  | running s1 => simp [cmd_args_parse, hs] at h
  | returned x =>
    obtain ⟨hx, e⟩ := parse_of_returned argv accepts x hs
    rw [e] at h
    simp only [Option.some.injEq] at h
    exact absurd h (hcrash x hx)
  | finished s =>
    obtain ⟨hr, e⟩ := parse_of_scan argv accepts s hs
    rw [e] at h
    simp only [Option.some.injEq] at h
    refine ⟨s, rfl, ?_, ?_⟩
    · rw [hr.cnt, move_settings_eq]
    · by_cases hi : incompatible s.result
      · rw [if_pos hi] at h
        exact absurd h (hcrash _ ⟨["Incompatible commands\n"], by simp, rfl⟩)
      · rw [if_neg hi] at h
        exact h.symm

/-- C3 on the arguments `pos1 -R /root pos2` with the whitelist
`{ROOT_DIR, NO_OP}`: the result is
`[ROOT_DIR("/root"), NO_OP("pos1"), NO_OP("pos2"), EXIT]`. -/
theorem C3_stable_partition_witness :
    cmd_args_parse ["prog", "pos1", "-R", "/root", "pos2"] [COT_ROOT_DIR, COT_NO_OP, COT_LAST]
        = some [⟨COT_ROOT_DIR, some "/root"⟩, ⟨COT_NO_OP, some "pos1"⟩,
            ⟨COT_NO_OP, some "pos2"⟩, ⟨COT_EXIT, none⟩]
      ∧ ∃ s, scan ["prog", "pos1", "-R", "/root", "pos2"]
            (cmd_op_accepts_map [COT_ROOT_DIR, COT_NO_OP, COT_LAST]) = .finished s
        ∧ (move_settings s.res_count s.res_count 0 0 s.result).1
            = s.result.filter (fun o => is_setting o.type)
              ++ s.result.filter (fun o => !is_setting o.type)
        ∧ [⟨COT_ROOT_DIR, some "/root"⟩, ⟨COT_NO_OP, some "pos1"⟩,
            ⟨COT_NO_OP, some "pos2"⟩, ⟨COT_EXIT, none⟩]
          = s.result.filter (fun o => is_setting o.type)
            ++ s.result.filter (fun o => !is_setting o.type) ++ [⟨COT_EXIT, none⟩] :=
  ⟨by decide!,
    C3_stable_partition ["prog", "pos1", "-R", "/root", "pos2"]
      [COT_ROOT_DIR, COT_NO_OP, COT_LAST] _ (by decide!) ⟨⟨COT_EXIT, none⟩, rfl, rfl⟩⟩

/-- C4: when the two scanning loops complete without an error, the result
is the crash sequence with the message `Incompatible commands` exactly when
an exclusive command (`HELP`, `JOURNAL_ABORT`, `JOURNAL_RESUME`) was scanned
and the scanned operations that are not settings are not exactly one or an
`INSTALL` or `REMOVE` was scanned; otherwise the parse succeeds, and then an
exclusive command in the result is its only operation that is not a
setting. -/
theorem C4_exclusive_commands (argv : List String) (accepts : List cmd_op_type)
    (s : parse_state) (h : scan argv (cmd_op_accepts_map accepts) = .finished s) :
    (cmd_args_parse argv accepts
        = some [⟨COT_ERR_MSG, some "Incompatible commands\n"⟩, ⟨COT_HELP, none⟩,
            ⟨COT_CRASH, none⟩]
      ↔ incompatible s.result)
    ∧ (¬ incompatible s.result →
        cmd_args_parse argv accepts
            = some (s.result.filter (fun o => is_setting o.type)
                ++ s.result.filter (fun o => !is_setting o.type) ++ [⟨COT_EXIT, none⟩])
          ∧ ∀ x ∈ s.result, is_exclusive x.type = true →
              s.result.filter (fun o => !is_setting o.type) = [x]) := by
  obtain ⟨hr, e⟩ := parse_of_scan argv accepts s h
  rw [e]
  constructor
  · constructor
    · intro h1
      by_contra hi
      rw [if_neg hi] at h1
      simp only [Option.some.injEq] at h1
      have := congrArg List.getLast? h1
      simp [List.getLast?_append] at this
    · intro hi
      rw [if_pos hi]
  · intro hi
    rw [if_neg hi]
    refine ⟨rfl, ?_⟩
    intro x hx hex
    have hlen : (s.result.filter (fun o => !is_setting o.type)).length = 1 := by
      by_contra hne
      exact hi ⟨⟨x, hx, hex⟩, Or.inl hne⟩
    have hmem : x ∈ s.result.filter (fun o => !is_setting o.type) := by
      rw [List.mem_filter]
      refine ⟨hx, ?_⟩
      cases hxt : x.type <;> rw [hxt] at hex <;> first | rfl | exact absurd hex (by decide)
    obtain ⟨y, hy⟩ := List.length_eq_one.mp hlen
    rw [hy] at hmem ⊢
    simp only [List.mem_singleton] at hmem
    rw [hmem]

/-- C4 on the arguments `-h -a pkg.ipk` with the whitelist
`{HELP, INSTALL}`: the result is the crash sequence with the message
`Incompatible commands`. -/
theorem C4_exclusive_commands_witness :
    cmd_args_parse ["prog", "-h", "-a", "pkg.ipk"] [COT_HELP, COT_INSTALL, COT_LAST]
        = some [⟨COT_ERR_MSG, some "Incompatible commands\n"⟩, ⟨COT_HELP, none⟩,
            ⟨COT_CRASH, none⟩]
      ∧ incompatible [⟨COT_HELP, none⟩, ⟨COT_INSTALL, some "pkg.ipk"⟩] :=
  ⟨by decide!,
    (C4_exclusive_commands ["prog", "-h", "-a", "pkg.ipk"] [COT_HELP, COT_INSTALL, COT_LAST]
      ⟨2, [⟨COT_HELP, none⟩, ⟨COT_INSTALL, some "pkg.ipk"⟩], true, true,
        ⟨["prog", "-h", "-a", "pkg.ipk"], 4, none, [], 4, 4⟩⟩ (by decide!)).1.mp (by decide!)⟩

/-- C5: for every argument vector and whitelist the parser returns; a
result that ends in `CRASH` consists of one or more `ERR_MSG` operations,
then one `HELP`, then `CRASH`, and of nothing else; a result that ends in
`EXIT` holds no `ERR_MSG` operation. -/
theorem C5_failure_inside_sequence (argv : List String) (accepts : List cmd_op_type) :
    ∃ r, cmd_args_parse argv accepts = some r
      ∧ ((∃ last, r.getLast? = some last ∧ last.type = COT_CRASH) →
          ∃ msgs : List String, msgs ≠ [] ∧
            r = msgs.map (fun m => ⟨COT_ERR_MSG, some m⟩)
              ++ [⟨COT_HELP, none⟩, ⟨COT_CRASH, none⟩])
      ∧ ((∃ last, r.getLast? = some last ∧ last.type = COT_EXIT) →
          ∀ op ∈ r, op.type ≠ COT_ERR_MSG) := by
  obtain ⟨r, hr, h⟩ := parse_shape argv accepts
  refine ⟨r, hr, ?_⟩
  rcases h with h | ⟨ops, e, hops⟩
  · refine ⟨fun _ => h, ?_⟩
    rintro ⟨last, hl, ht⟩
    rw [IsCrash_getLast r h] at hl
    simp only [Option.some.injEq] at hl
    subst hl
    exact absurd ht (by decide)
  · subst e
    constructor
    · rintro ⟨last, hl, ht⟩
      rw [List.getLast?_concat] at hl
      simp only [Option.some.injEq] at hl
      subst hl
      exact absurd ht (by decide)
    · intro _ op hop
      simp only [List.mem_append, List.mem_singleton] at hop
      rcases hop with hop | rfl
      · exact (OpOK_ne _ op (hops op hop)).2.2
      · decide

/-- C6, the claim as stated fails: for the program name followed by `-R`,
with `ROOT_DIR` in the whitelist, the result is not the three-element
sequence with the single message `Missing additional argument for -R`. -/
theorem C6_counterexample :
    cmd_args_parse ["prog", "-R"] [COT_ROOT_DIR, COT_LAST]
      ≠ some [⟨COT_ERR_MSG, some "Missing additional argument for -R\n"⟩,
          ⟨COT_HELP, none⟩, ⟨COT_CRASH, none⟩] := by
  decide!

/-- C6, amended: when the option loop, after any number of rounds without an
error, is between two elements and what is left of the argument vector from
`optind` on is non-options followed by a value-requiring option token as
the last element, the result is three `ERR_MSG` operations with the
parameters `Missing additional argument for `, the token, and a newline,
then `HELP`, then `CRASH`. -/
theorem C6_missing_value (argv : List String) (accepts : List cmd_op_type) (k : Nat)
    (s : parse_state) (nonopts : List String) (tok : String)
    (hk : scan_rounds (cmd_op_accepts_map accepts) k (parse_start argv) = some s)
    (hnc : s.d.nextchar = [])
    (hd : argv.drop s.d.optind = nonopts ++ [tok])
    (hno : ∀ a ∈ nonopts, NONOPTION_P a = true)
    (ht : tok ∈ value_option_tokens) :
    cmd_args_parse argv accepts
      = some [⟨COT_ERR_MSG, some "Missing additional argument for "⟩,
          ⟨COT_ERR_MSG, some tok⟩, ⟨COT_ERR_MSG, some "\n"⟩, ⟨COT_HELP, none⟩,
          ⟨COT_CRASH, none⟩] := by
  have hargv : argv ≠ [] := by
    intro e
    subst e
    have := reached_nonempty _ k s hk
    subst this
    simp [parse_start, getopt_start] at hd
  obtain ⟨hg, _⟩ := reached_GInv argv _ k s hargv hk
  have hd2 : s.d.argv.drop s.d.optind = nonopts ++ [tok] := by
    rw [(reached_kept argv _ k s hargv hk).tail, hd]
  obtain ⟨a1, a2, a3, a4, _, _⟩ := getopt_advance_to_option { s.d with optarg := none }
    hg.fl hg.lo hg.le nonopts tok [] hd2 hno (value_token_option tok ht).1
    (value_token_option tok ht).2
  have hlast : (getopt_advance { s.d with optarg := none }).optind + 1
      = (getopt_advance { s.d with optarg := none }).argv.length := by
    have h1 := (List.getElem?_eq_some_iff.mp a3).1
    have h2 := List.drop_eq_nil_iff.mp a4
    omega
  have hgl := getopt_long_boundary s.d hg hnc
  rw [getopt_read_missing _ tok a3 hlast ht] at hgl
  exact parse_of_round argv accepts k s _ hk
    (scan_body_colon _ s _ tok hgl (by simpa using a3))

/-- C6 on the program name followed by `-R`, with `ROOT_DIR` in the
whitelist. -/
theorem C6_missing_value_witness :
    cmd_args_parse ["prog", "-R"] [COT_ROOT_DIR, COT_LAST]
      = some [⟨COT_ERR_MSG, some "Missing additional argument for "⟩,
          ⟨COT_ERR_MSG, some "-R"⟩, ⟨COT_ERR_MSG, some "\n"⟩, ⟨COT_HELP, none⟩,
          ⟨COT_CRASH, none⟩] :=
  C6_missing_value ["prog", "-R"] [COT_ROOT_DIR, COT_LAST] 0 (parse_start ["prog", "-R"]) []
    "-R" rfl rfl rfl (by simp) (by decide)

/-- C7, the code at the failing input: for `-a pkg` with the whitelist of
`pkgupdate`, which does not hold `INSTALL`, the messages read
`Unrecognized option pkg`: they name the value, not the rejected option
`-a`. -/
theorem C7_rejected_option_names_value :
    cmd_args_parse ["pkgupdate", "-a", "pkg"]
        [COT_BATCH, COT_NO_OP, COT_ROOT_DIR, COT_SYSLOG_LEVEL, COT_STDERR_LEVEL,
          COT_SYSLOG_NAME, COT_LAST]
      = some [⟨COT_ERR_MSG, some "Unrecognized option "⟩, ⟨COT_ERR_MSG, some "pkg"⟩,
          ⟨COT_ERR_MSG, some "\n"⟩, ⟨COT_HELP, none⟩, ⟨COT_CRASH, none⟩] := by
  decide!

/-- C8, the claim as stated fails: for the single argument `--bogus` the
result does not end in one `ERR_MSG` with the parameter
`Unrecognized option --bogus` and a newline, then `HELP`, then `CRASH`. -/
theorem C8_counterexample :
    ¬ ∃ pre, cmd_args_parse ["prog", "--bogus"] [COT_LAST]
        = some (pre ++ [⟨COT_ERR_MSG, some "Unrecognized option --bogus\n"⟩,
            ⟨COT_HELP, none⟩, ⟨COT_CRASH, none⟩]) := by
  have e : cmd_args_parse ["prog", "--bogus"] [COT_LAST]
      = some [⟨COT_ERR_MSG, some "Unrecognized option "⟩, ⟨COT_ERR_MSG, some "--bogus"⟩,
          ⟨COT_ERR_MSG, some "\n"⟩, ⟨COT_HELP, none⟩, ⟨COT_CRASH, none⟩] := by decide!
  rintro ⟨pre, h⟩
  rw [e] at h
  simp only [Option.some.injEq] at h
  have := congrArg List.reverse h
  simp only [List.reverse_cons, List.reverse_nil, List.nil_append, List.cons_append,
    List.reverse_append, List.singleton_append, List.append_assoc, List.cons.injEq] at this
  have h3 := this.2.2.1
  revert h3
  decide

/-- C8, amended: when the option loop, after any number of rounds without an
error, reads next an option that the table does not have and that ends its
element (an unknown long option, a dash with one unknown letter, or the
unknown last letter of the element being read), with any whitelist, the
result is three `ERR_MSG` operations with the parameters
`Unrecognized option `, that element, and a newline, then `HELP`, then
`CRASH`. -/
theorem C8_unknown_option (argv : List String) (accepts : List cmd_op_type) (k : Nat)
    (s : parse_state) (tok : String)
    (hk : scan_rounds (cmd_op_accepts_map accepts) k (parse_start argv) = some s)
    (hu : unknown_option_next argv s.d tok) :
    cmd_args_parse argv accepts
      = some [⟨COT_ERR_MSG, some "Unrecognized option "⟩, ⟨COT_ERR_MSG, some tok⟩,
          ⟨COT_ERR_MSG, some "\n"⟩, ⟨COT_HELP, none⟩, ⟨COT_CRASH, none⟩] := by
  have hargv : argv ≠ [] := by
    intro e
    subst e
    have := reached_nonempty _ k s hk
    subst this
    rcases hu with ⟨_, _, nonopts, rest, hd, _⟩ | ⟨c, hnc, _⟩
    · simp [parse_start, getopt_start] at hd
    · simp [parse_start, getopt_start] at hnc
  obtain ⟨hg, _⟩ := reached_GInv argv _ k s hargv hk
  have htail := (reached_kept argv _ k s hargv hk).tail
  rcases hu with ⟨hnc, hu, nonopts, rest, hd, hno⟩ | ⟨c, hnc, hc, htok⟩
  · rw [← htail] at hd
    obtain ⟨_, _, a3, _, _, _⟩ := getopt_advance_to_option { s.d with optarg := none }
      hg.fl hg.lo hg.le nonopts tok rest hd hno (unknown_token_option tok hu).1
      (unknown_token_option tok hu).2
    have hgl := getopt_long_boundary s.d hg hnc
    rw [getopt_read_unknown _ tok a3 hu] at hgl
    exact parse_of_round argv accepts k s _ hk
      (scan_body_question _ s _ tok hgl (by simpa using a3))
  · have htok : s.d.argv[s.d.optind]? = some tok := by
      have := congrArg (fun l => l[0]?) htail
      simp only [List.getElem?_drop, Nat.add_zero] at this
      rw [this]
      exact htok
    have hgl := getopt_long_cluster s.d hg (by rw [hnc]; simp)
    have e : ({ s.d with optarg := none } : getopt_data)
        = { ({ s.d with optarg := none } : getopt_data) with nextchar := [c] } := by
      rw [← hnc]
    rw [e, short_option_unknown _ c hc] at hgl
    exact parse_of_round argv accepts k s _ hk
      (scan_body_question _ s _ tok hgl (by simpa using htok))

/-- C8 on the single argument `--bogus`, with the empty whitelist. -/
theorem C8_unknown_option_witness :
    cmd_args_parse ["prog", "--bogus"] [COT_LAST]
      = some [⟨COT_ERR_MSG, some "Unrecognized option "⟩, ⟨COT_ERR_MSG, some "--bogus"⟩,
          ⟨COT_ERR_MSG, some "\n"⟩, ⟨COT_HELP, none⟩, ⟨COT_CRASH, none⟩] :=
  C8_unknown_option ["prog", "--bogus"] [COT_LAST] 0 (parse_start ["prog", "--bogus"])
    "--bogus" rfl
    (Or.inl ⟨rfl, Or.inl ⟨['b', 'o', 'g', 'u', 's'], rfl, by decide, Or.inl (by decide)⟩,
      [], [], rfl, by simp⟩)

/-- An unknown letter that is not the last of its element: for `-xh` the
scanner has not moved past the element when it reports the letter, and the
messages name the element before it, here the program name. -/
theorem unknown_letter_inside_cluster :
    cmd_args_parse ["prog", "-xh"] [COT_LAST]
      = some [⟨COT_ERR_MSG, some "Unrecognized option "⟩, ⟨COT_ERR_MSG, some "prog"⟩,
          ⟨COT_ERR_MSG, some "\n"⟩, ⟨COT_HELP, none⟩, ⟨COT_CRASH, none⟩] := by
  decide!

/-- C9: when the option loop completes and non-option tokens remain (the
elements of the permuted vector from `optind` on), these tokens are
arguments of the given vector in their order of appearance, and: if `NO_OP`
is in the whitelist, no operation of the option loop is a `NO_OP`, the scan
appends after them one `NO_OP` for each remaining token, in order, with the
token as parameter, and the result is either the crash sequence of the
exclusivity check or the settings, the other option operations, these
`NO_OP` operations and `EXIT`; if `NO_OP` is not in the whitelist, the
result is the unrecognized-option crash sequence that names the first
remaining token. -/
theorem C9_positional_arguments (argv : List String) (accepts : List cmd_op_type)
    (s : parse_state) (tok : String) (rest : List String)
    (h : scan_options (cmd_op_accepts_map accepts) (scan_fuel argv) (parse_start argv)
      = .finished s)
    (hd : s.d.argv.drop s.d.optind = tok :: rest) :
    (tok :: rest).Sublist (argv.drop 1)
    ∧ (COT_NO_OP ∈ whitelist accepts →
      (∀ op ∈ s.result, op.type ≠ COT_NO_OP)
      ∧ (∃ t, scan argv (cmd_op_accepts_map accepts) = .finished t
          ∧ t.result = s.result ++ (tok :: rest).map (fun a => ⟨COT_NO_OP, some a⟩))
      ∧ (cmd_args_parse argv accepts
            = some [⟨COT_ERR_MSG, some "Incompatible commands\n"⟩, ⟨COT_HELP, none⟩,
                ⟨COT_CRASH, none⟩]
          ∨ cmd_args_parse argv accepts
            = some (s.result.filter (fun o => is_setting o.type)
                ++ s.result.filter (fun o => !is_setting o.type)
                ++ (tok :: rest).map (fun a => ⟨COT_NO_OP, some a⟩)
                ++ [⟨COT_EXIT, none⟩])))
    ∧ (COT_NO_OP ∉ whitelist accepts →
      cmd_args_parse argv accepts
        = some [⟨COT_ERR_MSG, some "Unrecognized option "⟩, ⟨COT_ERR_MSG, some tok⟩,
            ⟨COT_ERR_MSG, some "\n"⟩, ⟨COT_HELP, none⟩, ⟨COT_CRASH, none⟩]) := by
  have hargv : argv ≠ [] := by
    intro e
    subst e
    have e2 : scan_options (cmd_op_accepts_map accepts) (scan_fuel []) (parse_start [])
        = .finished (parse_start []) := rfl
    rw [e2] at h
    simp only [flow.finished.injEq] at h
    subst h
    simp [parse_start, getopt_start] at hd
  have hr := scan_options_spec (cmd_op_accepts_map accepts) (scan_fuel argv) (parse_start argv)
    (start_GInv argv hargv) (start_RInv _ argv) (start_measure argv)
  rw [h] at hr
  have hr : RInv (option_tags (cmd_op_accepts_map accepts)) s := hr
  have hlen : s.d.argv.length - s.d.optind = (tok :: rest).length := by
    have := congrArg List.length hd
    simpa using this
  have hscan : scan argv (cmd_op_accepts_map accepts)
      = scan_nonoptions (cmd_op_accepts_map accepts) ((tok :: rest).length) s := by
    unfold scan
    rw [h]
    dsimp only
    rw [hlen]
  have hmap : cmd_op_accepts_map accepts COT_NO_OP = true ↔ COT_NO_OP ∈ whitelist accepts := by
    rw [accepts_map_iff]
    simp
  have hsub := scan_options_kept argv (cmd_op_accepts_map accepts) (scan_fuel argv)
    (parse_start argv) s (start_GInv argv hargv) (start_RInv _ argv) (start_kept argv) h
  rw [hd] at hsub
  refine ⟨hsub, ?_, ?_⟩
  · intro hw
    have hm := hmap.mpr hw
    obtain ⟨t, e, ht⟩ := scan_nonoptions_accept _ hm (tok :: rest) _ s hr.cnt hd (Nat.le_refl _)
    rw [← hscan] at e
    refine ⟨?_, ⟨t, e, ht⟩, ?_⟩
    · intro op hop hno
      have := (hr.ops op hop).acc
      simp [option_tags, hno] at this
    · obtain ⟨_, hp⟩ := parse_of_scan argv accepts t e
      rw [hp]
      by_cases hi : incompatible t.result
      · left
        rw [if_pos hi]
      · right
        rw [if_neg hi, ht, settings_first_append_no_op]
  · intro hw
    have hm : cmd_op_accepts_map accepts COT_NO_OP = false := by
      cases hv : cmd_op_accepts_map accepts COT_NO_OP with
      | false => rfl
      | true => exact absurd (hmap.mp hv) hw
    have h0 : s.d.argv[s.d.optind]? = some tok := by
      have := congrArg (fun l => l[0]?) hd
      simpa using this
    have hlt : s.d.optind < s.d.argv.length := (List.getElem?_eq_some_iff.mp h0).1
    have e : scan argv (cmd_op_accepts_map accepts)
        = .returned [⟨COT_ERR_MSG, some "Unrecognized option "⟩, ⟨COT_ERR_MSG, some tok⟩,
            ⟨COT_ERR_MSG, some "\n"⟩, ⟨COT_HELP, none⟩, ⟨COT_CRASH, none⟩] := by
      rw [hscan]
      simp only [List.length_cons]
      rw [scan_nonoptions, if_pos hlt]
      simp [hm, h0, cmd_unrecognized, cmd_arg_crash_eq]
    exact (parse_of_returned argv accepts _ e).2

/-- C9 on the arguments `pos1 -R /root pos2`: the option loop leaves the
vector permuted to `-R /root pos1 pos2` with `optind` at `pos1`; with
`NO_OP` in the whitelist the two tokens give two `NO_OP` operations after
`ROOT_DIR`. -/
theorem C9_positional_arguments_witness :
    COT_NO_OP ∈ whitelist [COT_ROOT_DIR, COT_NO_OP, COT_LAST]
      ∧ cmd_args_parse ["prog", "pos1", "-R", "/root", "pos2"]
            [COT_ROOT_DIR, COT_NO_OP, COT_LAST]
          = some [⟨COT_ROOT_DIR, some "/root"⟩, ⟨COT_NO_OP, some "pos1"⟩,
              ⟨COT_NO_OP, some "pos2"⟩, ⟨COT_EXIT, none⟩]
      ∧ ∃ t, scan ["prog", "pos1", "-R", "/root", "pos2"]
            (cmd_op_accepts_map [COT_ROOT_DIR, COT_NO_OP, COT_LAST]) = .finished t
          ∧ t.result = [⟨COT_ROOT_DIR, some "/root"⟩]
              ++ ["pos1", "pos2"].map (fun a => ⟨COT_NO_OP, some a⟩) :=
  ⟨by decide, by decide!,
    ((C9_positional_arguments ["prog", "pos1", "-R", "/root", "pos2"]
      [COT_ROOT_DIR, COT_NO_OP, COT_LAST]
      ⟨1, [⟨COT_ROOT_DIR, some "/root"⟩], false, false,
        ⟨["prog", "-R", "/root", "pos1", "pos2"], 3, none, [], 3, 5⟩⟩
      "pos1" ["pos2"] (by decide!) rfl).2.1 (by decide)).2.1⟩

/-- C10: for every argument vector and whitelist, every operation of the
result has a parameter if its tag is one of `INSTALL`, `REMOVE`, `ROOT_DIR`,
`SYSLOG_LEVEL`, `STDERR_LEVEL`, `SYSLOG_NAME`, `APPROVE`, `NO_OP`, `ERR_MSG`,
and has none for every other tag. -/
theorem C10_parameter_presence (argv : List String) (accepts : List cmd_op_type) :
    ∃ r, cmd_args_parse argv accepts = some r
      ∧ ∀ op ∈ r, op.parameter.isSome = needs_param op.type := by
  obtain ⟨r, hr, h⟩ := parse_shape argv accepts
  refine ⟨r, hr, ?_⟩
  rcases h with h | ⟨ops, e, hops⟩
  · exact IsCrash_param r h
  · subst e
    intro op hop
    simp only [List.mem_append, List.mem_singleton] at hop
    rcases hop with hop | rfl
    · exact (hops op hop).par
    · rfl

/-- C11: for every argument vector `A` that is not empty, captured by
`args_backup` in a process whose working directory `wd` can be determined,
whatever the static variables held before, `reexec` asks for a change of the
working directory to `wd` and then calls `execvp` on the program `A[0]` with
the vector `A`, followed by `--reexec`, followed by the terminating null
pointer; nothing else is asked before, and only when `execvp` returns does
the fatal diagnostic follow. -/
theorem C11_reexec_after_backup (A : List String) (wd : String) (b : backup)
    (exec_error : Option String) (hA : A ≠ []) :
    reexec (args_backup (some wd) A b) exec_error
      = [.chdir (some wd), .execvp A.head? (A.map some ++ [some "--reexec", none])]
        ++ (match exec_error with
            | none => []
            | some e => [.die [some "Failed to reexec ", A.head?, some ": ", some e]]) := by
  obtain ⟨size, hwd⟩ := args_backup_wd wd A b
  obtain ⟨a, A2, rfl⟩ := List.exists_cons_of_ne_nil hA
  have htake : ((a :: A2).map some ++ [none]).take (a :: A2).length = (a :: A2).map some := by
    have := @List.take_left _ ((a :: A2).map some) [none]
    simpa using this
  unfold reexec ASSERT_MSG
  rw [hwd]
  simp only [args_backup, Option.isSome_some, ↓reduceIte, Option.getD_some]
  rw [htake]
  cases exec_error <;> simp [DIE]

/-- C11 on the vector `prog -x`, captured in the directory `/root`: the
requests are the change to `/root` and the call of `execvp` on `prog` with
`prog -x --reexec` and the null pointer. -/
theorem C11_reexec_after_backup_witness :
    ["prog", "-x"] ≠ []
      ∧ reexec (args_backup (some "/root") ["prog", "-x"] backup_initial) none
        = [.chdir (some "/root"),
            .execvp (some "prog") [some "prog", some "-x", some "--reexec", none]] :=
  ⟨by simp, C11_reexec_after_backup ["prog", "-x"] "/root" backup_initial none (by simp)⟩

/-- C12: `reexec` fails fatally, without a change of the working directory
and without a call of `execvp`, when no backup exists: in the initial state,
before any `args_backup`, and in the state after `arg_backup_clear` that
follows a capture; the only request is the fatal diagnostic. -/
theorem C12_reexec_without_backup (cwd : Option String) (A : List String) (b : backup)
    (exec_error : Option String) :
    reexec backup_initial exec_error = [.die [some "No arguments backed up"]]
      ∧ reexec (arg_backup_clear (args_backup cwd A b)) exec_error
        = [.die [some "No arguments backed up"]] :=
  ⟨rfl, rfl⟩

/-- C13: when the option loop, after any number of rounds without an error,
reads next an option that takes a value (`-a`, `-r`, `-R`, `-s`, `-e`, `-S`,
`--add`, `--remove`, `--approve`) whose tag is in the whitelist, and the value
supplied is the empty string (the next element is empty, or the long option
ends in an equals sign), the round does not end in the missing-argument crash
sequence: it stores one operation with that tag and the empty string as a
present parameter, and every result that ends in `EXIT` has this operation;
so the arguments `-R` and the empty string, with `ROOT_DIR` in the
whitelist, give `ROOT_DIR` with the empty string, then `EXIT`. -/
theorem C13_empty_value (argv : List String) (accepts : List cmd_op_type) (k : Nat)
    (s : parse_state) (tag : cmd_op_type) (elems nonopts rest : List String)
    (hform : empty_value_given tag elems) (hw : tag ∈ whitelist accepts)
    (hk : scan_rounds (cmd_op_accepts_map accepts) k (parse_start argv) = some s)
    (hnc : s.d.nextchar = [])
    (hd : argv.drop s.d.optind = nonopts ++ elems ++ rest)
    (hno : ∀ a ∈ nonopts, NONOPTION_P a = true) :
    (∃ s1, scan_body (cmd_op_accepts_map accepts) s = .running s1
        ∧ s1.result = s.result ++ [⟨tag, some ""⟩])
      ∧ (∀ r, cmd_args_parse argv accepts = some r → r.getLast? = some ⟨COT_EXIT, none⟩ →
          (⟨tag, some ""⟩ : cmd_op) ∈ r)
      ∧ ∀ (prog : String) (W : List cmd_op_type), COT_ROOT_DIR ∈ whitelist W →
          cmd_args_parse [prog, "-R", ""] W
            = some [⟨COT_ROOT_DIR, some ""⟩, ⟨COT_EXIT, none⟩] := by
  have hmap : cmd_op_accepts_map accepts tag = true :=
    (accepts_map_iff accepts tag).2 (Or.inl hw)
  have hround : ∃ s1, scan_body (cmd_op_accepts_map accepts) s = .running s1
      ∧ s1.result = s.result ++ [⟨tag, some ""⟩] := by
    rcases hform with ⟨e, he, hv, ht, hel⟩ | ⟨e, he, ht, hel⟩
    · subst ht hel
      have hd2 : argv.drop s.d.optind = nonopts ++ e.1 :: "" :: rest := by simpa using hd
      obtain ⟨hg, hr, hT⟩ := reached_at argv _ k s nonopts e.1 ("" :: rest) hk hd2
      obtain ⟨_, hacc, _⟩ := round_value (cmd_op_accepts_map accepts) s hg hr.cnt hnc e he hv
        nonopts "" rest hT hno
      exact ⟨_, hacc hmap, rfl⟩
    · subst ht hel
      have hd2 : argv.drop s.d.optind = nonopts ++ e.1 :: rest := by simpa using hd
      obtain ⟨hg, hr, hT⟩ := reached_at argv _ k s nonopts e.1 rest hk hd2
      obtain ⟨_, hacc, _⟩ := round_empty (cmd_op_accepts_map accepts) s hg hr.cnt hnc e he
        nonopts rest hT hno
      exact ⟨_, hacc hmap, rfl⟩
  refine ⟨hround, ?_, ?_⟩
  · intro r hr hx
    obtain ⟨s1, hb, hres⟩ := hround
    exact round_op_kept argv accepts k s s1 _ hk hb (by rw [hres]; simp) r hr hx
  · intro prog W hW
    have h0 : cmd_args_parse ["", "-R", ""] [COT_ROOT_DIR, COT_LAST]
        = some [⟨COT_ROOT_DIR, some ""⟩, ⟨COT_EXIT, none⟩] := by decide!
    refine parse_transfer "" prog ["-R", ""] [COT_ROOT_DIR, COT_LAST] W _ ?_ h0 rfl
    intro t ht
    have : t = COT_ROOT_DIR := by simpa [whitelist] using ht
    rw [this]
    exact hW

/-- C13 on the arguments `--add=` and `pkg`, with `INSTALL` and `NO_OP` in
the whitelist: the first round stores `INSTALL` with the empty string. -/
theorem C13_empty_value_witness :
    ∃ s1, scan_body (cmd_op_accepts_map [COT_INSTALL, COT_NO_OP, COT_LAST])
          (parse_start ["prog", "--add=", "pkg"]) = .running s1
        ∧ s1.result = [⟨COT_INSTALL, some ""⟩] :=
  (C13_empty_value ["prog", "--add=", "pkg"] [COT_INSTALL, COT_NO_OP, COT_LAST] 0
    (parse_start ["prog", "--add=", "pkg"]) COT_INSTALL ["--add="] [] ["pkg"]
    (Or.inr ⟨("--add=", chr 'a', COT_INSTALL), by decide, rfl, rfl⟩) (by decide) rfl rfl rfl
    (by simp)).1

/-- C14: at every state the option loop reaches, after any number of rounds
without an error, for every argument vector and whitelist.
(1) When the loop reads next one of the long options `--help`, `--journal`,
`--abort`, `--add`, `--remove`, the vector in which this element is replaced
by the short equivalent (`-h`, `-j`, `-b`, `-a`, `-r`), the value following
as before, has the same successful results.
(2) Each option occurrence `getopt_long` recognizes, however it is spelled
(an element of its own, a letter inside a cluster, a value attached to the
letter or after an equals sign, an abbreviated long name), contributes
exactly one operation: when the value `getopt_long` returns is that of an
element of the option table, the round stores one operation with the tag the
table assigns, with `optarg` as parameter when the option takes a value (it
is then present), and every result that ends in `EXIT` has this operation,
if the tag is accepted; if it is not, the result is a crash sequence.
(3) The value `getopt_long` returns is always the end of the options, one of
the two error codes, or the value of an element of the table.
(4) For an element spelled as in the table, followed by its value when it
takes one, `getopt_long` returns the value of the table and the following
element as `optarg`.
(5) For a letter of the option string, at the start of an element or inside
a cluster, it returns the code of the letter, and as `optarg` the rest of
the element or, when the letter ends the element, the next element.
(6) For a long name that `opt_long` has, in full or abbreviated, it returns
the value of that entry, and as `optarg` the text after the equals sign or,
without an equals sign, the next element.
(7) The table assigns the tags `h`: `HELP`, `j`: `JOURNAL_RESUME`, `b`:
`JOURNAL_ABORT`, `a`: `INSTALL`, `r`: `REMOVE`, `R`: `ROOT_DIR`, `s`:
`SYSLOG_LEVEL`, `e`: `STDERR_LEVEL`, `S`: `SYSLOG_NAME`, `--batch`: `BATCH`,
`--reexec`: `REEXEC`, `--state-log`: `STATE_LOG`, `--ask-approval`:
`ASK_APPROVAL`, `--approve`: `APPROVE`, and to a long option with a short
equivalent the tag of the equivalent.
(8) The table has, with their values, every letter of the option string and
every entry of `opt_long`. -/
theorem C14_long_short_equivalent (argv : List String) (accepts : List cmd_op_type) (k : Nat)
    (s : parse_state)
    (hk : scan_rounds (cmd_op_accepts_map accepts) k (parse_start argv) = some s) :
    (∀ (long short : String) (nonopts rest : List String),
        (long, short) ∈ long_short_pairs → s.d.nextchar = [] →
        argv.drop s.d.optind = nonopts ++ long :: rest →
        (∀ a ∈ nonopts, NONOPTION_P a = true) →
        ∀ r, r.getLast? = some ⟨COT_EXIT, none⟩ →
          (cmd_args_parse argv accepts = some r
            ↔ cmd_args_parse (argv.take (s.d.optind + nonopts.length) ++ short :: rest) accepts
              = some r))
      ∧ (∀ e ∈ option_table, (getopt_long optstring opt_long s.d).1 = e.2.1 →
          (e.1 ∈ value_option_tokens →
              (getopt_long optstring opt_long s.d).2.optarg.isSome = true)
            ∧ (cmd_op_accepts_map accepts e.2.2 = true →
                ∃ s1, scan_body (cmd_op_accepts_map accepts) s = .running s1
                  ∧ s1.result = s.result ++ [⟨e.2.2,
                      if e.1 ∈ value_option_tokens
                      then (getopt_long optstring opt_long s.d).2.optarg else none⟩]
                  ∧ ∀ r, cmd_args_parse argv accepts = some r →
                      r.getLast? = some ⟨COT_EXIT, none⟩ →
                      (⟨e.2.2, if e.1 ∈ value_option_tokens
                          then (getopt_long optstring opt_long s.d).2.optarg else none⟩
                        : cmd_op) ∈ r)
            ∧ (cmd_op_accepts_map accepts e.2.2 = false →
                ∃ r, cmd_args_parse argv accepts = some r ∧ IsCrash r))
      ∧ ((getopt_long optstring opt_long s.d).1 = -1
          ∨ (getopt_long optstring opt_long s.d).1 = chr '?'
          ∨ (getopt_long optstring opt_long s.d).1 = chr ':'
          ∨ ∃ e ∈ option_table, (getopt_long optstring opt_long s.d).1 = e.2.1)
      ∧ (∀ e ∈ option_table, ∀ (nonopts rest : List String), s.d.nextchar = [] →
          argv.drop s.d.optind = nonopts ++ e.1 :: rest →
          (∀ a ∈ nonopts, NONOPTION_P a = true) →
          (e.1 ∈ value_option_tokens → rest ≠ []) →
          (getopt_long optstring opt_long s.d).1 = e.2.1
            ∧ (getopt_long optstring opt_long s.d).2.optarg
              = if e.1 ∈ value_option_tokens then rest.head? else none)
      ∧ (∀ (x : Char) (cs : List Char) (R : List String), letters_next argv s.d x cs R →
          (x ∈ ['h', 'b', 'j'] → (getopt_long optstring opt_long s.d).1 = chr x
              ∧ (getopt_long optstring opt_long s.d).2.optarg = none)
            ∧ (x ∈ ['a', 'r', 'R', 's', 'e', 'S'] → cs ≠ [] →
                (getopt_long optstring opt_long s.d).1 = chr x
                  ∧ (getopt_long optstring opt_long s.d).2.optarg = some (String.mk cs))
            ∧ (x ∈ ['a', 'r', 'R', 's', 'e', 'S'] → cs = [] → ∀ v V, R = v :: V →
                (getopt_long optstring opt_long s.d).1 = chr x
                  ∧ (getopt_long optstring opt_long s.d).2.optarg = some v))
      ∧ (∀ (nm : List Char) (R : List String) (p : getopt_option), long_next argv s.d nm R →
          find_long_option opt_long (nm.takeWhile (fun c => c ≠ '=')) = some (some p) →
          (p.has_arg = 0 → nm.dropWhile (fun c => c ≠ '=') = [] →
              (getopt_long optstring opt_long s.d).1 = p.val
                ∧ (getopt_long optstring opt_long s.d).2.optarg = none)
            ∧ (p.has_arg = 1 → ∀ c v, nm.dropWhile (fun c => c ≠ '=') = c :: v →
                (getopt_long optstring opt_long s.d).1 = p.val
                  ∧ (getopt_long optstring opt_long s.d).2.optarg = some (String.mk v))
            ∧ (p.has_arg = 1 → nm.dropWhile (fun c => c ≠ '=') = [] → ∀ v V, R = v :: V →
                (getopt_long optstring opt_long s.d).1 = p.val
                  ∧ (getopt_long optstring opt_long s.d).2.optarg = some v))
      ∧ option_table.map (fun x => (x.1, x.2.2))
          = [("-h", COT_HELP), ("-j", COT_JOURNAL_RESUME), ("-b", COT_JOURNAL_ABORT),
              ("-a", COT_INSTALL), ("-r", COT_REMOVE), ("-R", COT_ROOT_DIR),
              ("-s", COT_SYSLOG_LEVEL), ("-e", COT_STDERR_LEVEL), ("-S", COT_SYSLOG_NAME),
              ("--batch", COT_BATCH), ("--reexec", COT_REEXEC), ("--state-log", COT_STATE_LOG),
              ("--ask-approval", COT_ASK_APPROVAL), ("--approve", COT_APPROVE),
              ("--help", COT_HELP), ("--journal", COT_JOURNAL_RESUME),
              ("--abort", COT_JOURNAL_ABORT), ("--add", COT_INSTALL),
              ("--remove", COT_REMOVE)]
      ∧ (∀ x ∈ option_letters,
          (String.mk ['-', x], chr x) ∈ option_table.map (fun e => (e.1, e.2.1)))
      ∧ ∀ p ∈ opt_long, ("--" ++ p.name, p.val) ∈ option_table.map (fun e => (e.1, e.2.1)) := by
  refine ⟨?_, ?_, reached_codes argv _ k s hk, ?_, ?_, ?_, rfl, by decide, by decide⟩
  · intro long short nonopts rest hp hnc hd hno r hx
    obtain ⟨c, tag, hl, hs, hv⟩ := pair_table long short hp
    exact same_success _ _
      (replace_option argv accepts k s nonopts rest (long, c, tag) (short, c, tag) hl hs rfl hv
        hk hnc hd hno) r hx
  · intro e he hc
    exact reached_round_code argv accepts k s e he hk hc
  · intro e he nonopts rest hnc hd hno hval
    exact token_code argv _ k s e he nonopts rest hk hnc hd hno hval
  · intro x cs R hl
    exact letters_code argv _ k s x cs R hk hl
  · intro nm R p hl hf
    exact long_code argv _ k s nm R p hk hl hf

/-- C14 on the argument `--approve=5`, with `APPROVE` in the whitelist: the
value `getopt_long` returns is that of `--approve`, `optarg` is `5`, and the
first round stores `APPROVE` with the parameter `5`. -/
theorem C14_long_short_equivalent_witness :
    ∃ s1, scan_body (cmd_op_accepts_map [COT_APPROVE, COT_LAST])
          (parse_start ["prog", "--approve=5"]) = .running s1
        ∧ s1.result = [⟨COT_APPROVE, some "5"⟩] := by
  have h := C14_long_short_equivalent ["prog", "--approve=5"] [COT_APPROVE, COT_LAST] 0
    (parse_start ["prog", "--approve=5"]) rfl
  obtain ⟨_, h2, _, _, _, h6, _⟩ := h
  obtain ⟨_, hc, _⟩ := h6 ['a', 'p', 'p', 'r', 'o', 'v', 'e', '=', '5'] []
    ⟨"approve", 1, OPT_APPROVE_VAL⟩
    ⟨rfl, by simp, [], "--approve=5", rfl, rfl, by simp⟩ (by decide)
  obtain ⟨hcode, harg⟩ := hc rfl '=' ['5'] (by decide)
  obtain ⟨_, hacc, _⟩ := h2 ("--approve", OPT_APPROVE_VAL, COT_APPROVE) (by decide) hcode
  obtain ⟨s1, hb, hres, _⟩ := hacc (by decide)
  refine ⟨s1, hb, ?_⟩
  rw [hres, harg]
  rfl

/-- The spellings side by side: a cluster with an attached value, a value
after an equals sign, an abbreviated long name; the settings come first in
the result. -/
theorem option_spellings_example :
    cmd_args_parse ["prog", "-bRdir", "--approve=5", "--ask"]
        [COT_JOURNAL_ABORT, COT_ROOT_DIR, COT_APPROVE, COT_ASK_APPROVAL, COT_LAST]
      = some [⟨COT_ROOT_DIR, some "dir"⟩, ⟨COT_APPROVE, some "5"⟩, ⟨COT_ASK_APPROVAL, none⟩,
          ⟨COT_JOURNAL_ABORT, none⟩, ⟨COT_EXIT, none⟩] := by
  decide!

/-- C15, the claim as stated fails: with the empty whitelist, which does not
list `HELP`, `cmd_args_help` writes the help line of `HELP`. -/
theorem C15_counterexample :
    COT_HELP ∉ whitelist [COT_LAST]
      ∧ cmd_args_help [COT_LAST] = ["--help, -h\t\t\tPrints this text.\n"] := by
  decide!

/-- C15, amended: for every whitelist `W`, `cmd_args_help (W)` writes exactly
the fixed help lines of those tags that are present in `W` or are `HELP`, and
have associated help text, in tag-enumeration order, and nothing else; no
line is written for a tag other than `HELP` that is not listed in `W`. -/
theorem C15_help_lines (W : List cmd_op_type) :
    cmd_args_help W
      = cmd_op_types.filterMap
          (fun t => if t ∈ whitelist W ∨ t = COT_HELP then opt_help t else none) := by
  unfold cmd_args_help
  rw [help_loop_eq, List.nil_append]
  congr 1
  funext t
  by_cases h : t ∈ whitelist W ∨ t = COT_HELP
  · rw [if_pos h, if_pos]
    rw [accepts_map_iff]
    rcases h with h | h
    · exact Or.inl h
    · exact Or.inr (Or.inr (Or.inr h))
  · rw [if_neg h]
    by_cases hm : cmd_op_accepts_map W t = true
    · rw [if_pos hm]
      rcases (accepts_map_iff W t).1 hm with h1 | h1 | h1 | h1
      · exact absurd (Or.inl h1) h
      · rw [h1]
        rfl
      · rw [h1]
        rfl
      · exact absurd (Or.inr h1) h
    · rw [if_neg hm]

/-- C16: for every partial sequence `R`, of any length, and every list of
`N` diagnostic strings, `N` zero or more, `cmd_arg_crash` returns exactly
`N + 2` operations: one `ERR_MSG` for each string, in order, then `HELP`
without a parameter, then `CRASH` without a parameter; the result does not
depend on `R`, of which no element is left. -/
theorem C16_crash_sequence (R : List cmd_op) (msgs : List String) :
    cmd_arg_crash R (msgs.map some)
        = msgs.map (fun m => ⟨COT_ERR_MSG, some m⟩) ++ [⟨COT_HELP, none⟩, ⟨COT_CRASH, none⟩]
      ∧ (cmd_arg_crash R (msgs.map some)).length = msgs.length + 2 := by
  have h : cmd_arg_crash R (msgs.map some)
      = msgs.map (fun m => ⟨COT_ERR_MSG, some m⟩) ++ [⟨COT_HELP, none⟩, ⟨COT_CRASH, none⟩] := by
    rw [cmd_arg_crash_eq, List.map_map]
    rfl
  refine ⟨h, ?_⟩
  rw [h]
  simp

/-- C17: the membership map `cmd_op_accepts_map` makes of a whitelist is
true for a tag exactly when the tag is listed before the first sentinel or
is one of `EXIT`, `CRASH`, `HELP`; and the argument `-h` alone, after any
program name, gives `[HELP, EXIT]` under every whitelist, the empty one
included. -/
theorem C17_always_accepted (accepts : List cmd_op_type) :
    (∀ t, cmd_op_accepts_map accepts t = true
        ↔ t ∈ whitelist accepts ∨ t = COT_EXIT ∨ t = COT_CRASH ∨ t = COT_HELP)
      ∧ ∀ prog : String, cmd_args_parse [prog, "-h"] accepts
          = some [⟨COT_HELP, none⟩, ⟨COT_EXIT, none⟩] := by
  refine ⟨fun t => accepts_map_iff accepts t, fun prog => ?_⟩
  have h0 : cmd_args_parse ["", "-h"] [COT_LAST] = some [⟨COT_HELP, none⟩, ⟨COT_EXIT, none⟩] := by
    decide!
  exact parse_transfer "" prog ["-h"] [COT_LAST] accepts _ (by simp [whitelist]) h0 rfl

/-- C18, the claim as stated fails: the arguments `-s bogus a b` parse
successfully with the whitelist of pkgupdate and have two positional
arguments, and when `log_level_get` does not know the level `bogus` the
process dies in the `ASSERT_MSG` of `SYSLOG_LEVEL`, before the loop comes to
a `NO_OP`: nothing is marked `CRASH` and `main` does not return 1. -/
theorem C18_counterexample :
    cmd_args_parse ["pkgupdate", "-s", "bogus", "a", "b"] cmd_op_allows
        = some [⟨COT_SYSLOG_LEVEL, some "bogus"⟩, ⟨COT_NO_OP, some "a"⟩,
            ⟨COT_NO_OP, some "b"⟩, ⟨COT_EXIT, none⟩]
      ∧ main_dispatch example_collaborators
          [⟨COT_SYSLOG_LEVEL, some "bogus"⟩, ⟨COT_NO_OP, some "a"⟩, ⟨COT_NO_OP, some "b"⟩,
            ⟨COT_EXIT, none⟩]
        = .died [some "Unknown log level ", some "bogus"] := by
  decide!

/-- C18, amended: in the dispatch loop of pkgupdate, for every argument
vector that parses successfully with the whitelist of pkgupdate and whose
result has two or more `NO_OP`, one for each positional argument, when no
settings operation makes the process die (the root directory can be set, the
log levels are known), the loop marks the operation that follows the second
`NO_OP` as `CRASH` and stops there: before the two `NO_OP` there are only
settings, the first positional is the one kept as top-level config, the last
thing written is the message about more than one config and the help, no
later operation is dispatched, the terminal tag observed is `CRASH` and
`main` returns 1. -/
theorem C18_second_positional (env : collaborators) (argv : List String) (r : List cmd_op)
    (hr : cmd_args_parse argv cmd_op_allows = some r)
    (hx : r.getLast? = some ⟨COT_EXIT, none⟩)
    (h2 : 2 ≤ (r.filter (fun o => o.type = COT_NO_OP)).length)
    (hok : ∀ o ∈ r, setting_ok env o) :
    ∃ (S : List cmd_op) (p1 p2 : String) (o3 : cmd_op) (rest : List cmd_op) (b : Bool)
        (outS : List event),
      r = S ++ ⟨COT_NO_OP, some p1⟩ :: ⟨COT_NO_OP, some p2⟩ :: o3 :: rest
        ∧ (∀ o ∈ S, is_allowed_setting o.type = true)
        ∧ main_loop env (r.length + 1) (main_start r)
          = .left
              { ops := S ++ ⟨COT_NO_OP, some p1⟩ :: ⟨COT_NO_OP, some p2⟩
                  :: { o3 with type := COT_CRASH } :: rest
                op := S.length + 2
                top_level_config := some p1
                batch := b
                early_exit := false
                out := outS
                  ++ [.fputs
                      (some "More than one top level config given. This is not supported\n")]
                  ++ print_help }
        ∧ main_dispatch env r
          = .left ⟨COT_CRASH, some p1,
              outS
                ++ [.fputs (some "More than one top level config given. This is not supported\n")]
                ++ print_help, 1⟩ := by
  obtain ⟨S, p1, p2, toks, hshape, hS⟩ := pk_shape argv r hr hx h2
  obtain ⟨o3, rest, hrest⟩ : ∃ o3 rest,
      toks.map (fun a => (⟨COT_NO_OP, some a⟩ : cmd_op)) ++ [⟨COT_EXIT, none⟩] = o3 :: rest := by
    cases toks with
    | nil => exact ⟨_, _, rfl⟩
    | cons a toks => exact ⟨_, _, rfl⟩
  rw [hrest] at hshape
  subst hshape
  obtain ⟨b, outS, hloop⟩ := overflow_run env S (some p1) (some p2) o3 rest
    (fun o ho => ⟨hS o ho, hok o (List.mem_append_left _ ho)⟩) rfl
  refine ⟨S, p1, p2, o3, rest, b, outS, rfl, hS, hloop, ?_⟩
  unfold main_dispatch
  rw [hloop]
  exact main_tail_crash env _ { o3 with type := COT_CRASH }
    (by
      show (S ++ ⟨COT_NO_OP, some p1⟩ :: ⟨COT_NO_OP, some p2⟩
        :: { o3 with type := COT_CRASH } :: rest)[S.length + 2]? = _
      rw [List.getElem?_append_right (by omega)]
      have : S.length + 2 - S.length = 2 := by omega
      rw [this]
      simp)
    rfl

/-- C18 on the arguments `-s ERROR a b`, the level `ERROR` being known: the
loop is left at the element after the second `NO_OP`, marked `CRASH`, and
`main` returns 1 with the configuration `a`. -/
theorem C18_second_positional_witness :
    ∃ (S : List cmd_op) (p1 p2 : String) (o3 : cmd_op) (rest : List cmd_op) (b : Bool)
        (outS : List event),
      [⟨COT_SYSLOG_LEVEL, some "ERROR"⟩, ⟨COT_NO_OP, some "a"⟩, ⟨COT_NO_OP, some "b"⟩,
          ⟨COT_EXIT, none⟩]
          = S ++ ⟨COT_NO_OP, some p1⟩ :: ⟨COT_NO_OP, some p2⟩ :: o3 :: rest
        ∧ (∀ o ∈ S, is_allowed_setting o.type = true)
        ∧ main_loop example_collaborators (4 + 1)
            (main_start [⟨COT_SYSLOG_LEVEL, some "ERROR"⟩, ⟨COT_NO_OP, some "a"⟩,
              ⟨COT_NO_OP, some "b"⟩, ⟨COT_EXIT, none⟩])
          = .left
              { ops := S ++ ⟨COT_NO_OP, some p1⟩ :: ⟨COT_NO_OP, some p2⟩
                  :: { o3 with type := COT_CRASH } :: rest
                op := S.length + 2
                top_level_config := some p1
                batch := b
                early_exit := false
                out := outS
                  ++ [.fputs
                      (some "More than one top level config given. This is not supported\n")]
                  ++ print_help }
        ∧ main_dispatch example_collaborators
            [⟨COT_SYSLOG_LEVEL, some "ERROR"⟩, ⟨COT_NO_OP, some "a"⟩, ⟨COT_NO_OP, some "b"⟩,
              ⟨COT_EXIT, none⟩]
          = .left ⟨COT_CRASH, some p1,
              outS
                ++ [.fputs (some "More than one top level config given. This is not supported\n")]
                ++ print_help, 1⟩ :=
  C18_second_positional example_collaborators ["pkgupdate", "-s", "ERROR", "a", "b"]
    [⟨COT_SYSLOG_LEVEL, some "ERROR"⟩, ⟨COT_NO_OP, some "a"⟩, ⟨COT_NO_OP, some "b"⟩,
      ⟨COT_EXIT, none⟩]
    (by decide!) rfl (by decide) (by decide)

/-- C19, the claim as stated fails: for the arguments `-R /missing config`,
when the root directory cannot be set, the loop does not stop at a terminal
`EXIT` or `CRASH`: the process dies in the `ASSERT_MSG` of `ROOT_DIR`. -/
theorem C19_counterexample :
    cmd_args_parse ["pkgupdate", "-R", "/missing", "config"] cmd_op_allows
        = some [⟨COT_ROOT_DIR, some "/missing"⟩, ⟨COT_NO_OP, some "config"⟩, ⟨COT_EXIT, none⟩]
      ∧ main_loop example_collaborators 4
          (main_start [⟨COT_ROOT_DIR, some "/missing"⟩, ⟨COT_NO_OP, some "config"⟩,
            ⟨COT_EXIT, none⟩])
        = .died [some "no such directory"] := by
  decide!

/-- C19, amended: for every argument vector and whatever the collaborators
answer, when the dispatch loop of pkgupdate iterates the sequence returned by
`cmd_args_parse` with the whitelist of pkgupdate, the default branch
`assert (0)` is never reached and no element past the end of the sequence is
read (including when the `NO_OP` overflow branch overwrites the tag of the next
element): within as many rounds as the sequence has elements, either the
process dies in the `ASSERT_MSG` of a settings operation, or the loop stops
at a terminal `EXIT` or `CRASH` inside the sequence; and it stops at such a
terminal when no settings operation makes the process die. -/
theorem C19_dispatch_loop_safe (env : collaborators) (argv : List String) :
    ∃ r, cmd_args_parse argv cmd_op_allows = some r
      ∧ LoopSafe r.length (main_loop env (r.length + 1) (main_start r))
      ∧ ((∀ o ∈ r, setting_ok env o) →
          ∃ (s : main_state) (o : cmd_op),
            main_loop env (r.length + 1) (main_start r) = .left s
              ∧ s.ops.length = r.length ∧ s.ops[s.op]? = some o
              ∧ is_terminal o.type = true) := by
  obtain ⟨r, hr, hi⟩ := parse_iterable argv
  have hsafe : LoopSafe r.length (main_loop env (r.length + 1) (main_start r)) :=
    main_loop_safe env r.length (r.length + 1) (main_start r) (by simp [main_start])
      (Nat.lt_succ_self _) hi
  refine ⟨r, hr, hsafe, fun hok => ?_⟩
  have hnd := main_loop_not_died env (r.length + 1) (main_start r)
  cases hl : main_loop env (r.length + 1) (main_start r) with
  | died t =>
    exact absurd hl (hnd t (fun j o hj => hok o (List.getElem?_mem hj)))
  | left s =>
    rw [hl] at hsafe
    obtain ⟨hlen, o, ho, ht⟩ := hsafe
    exact ⟨s, o, rfl, hlen, ho, ht⟩
  | unfinished =>
    rw [hl] at hsafe
    exact hsafe.elim
  | assertion =>
    rw [hl] at hsafe
    exact hsafe.elim
  | outside =>
    rw [hl] at hsafe
    exact hsafe.elim
  | next a =>
    rw [hl] at hsafe
    exact hsafe.elim

/-- C20: the result depends on the whitelist only through the set of the
tags it lists, and a result that ends in `EXIT` stays the same when the
whitelist lists more: if every tag `W` lists is listed by `W'`, a parse with
`W` that ends in `EXIT` is, element for element, the parse with `W'`; and if
the two list the same tags, the two parses are equal, crash sequences
included. -/
theorem C20_whitelist_monotone (argv : List String) (W W' : List cmd_op_type)
    (h : ∀ t, t ∈ whitelist W → t ∈ whitelist W') :
    (∀ r, cmd_args_parse argv W = some r → r.getLast? = some ⟨COT_EXIT, none⟩ →
        cmd_args_parse argv W' = some r)
      ∧ ((∀ t, t ∈ whitelist W' → t ∈ whitelist W) →
          cmd_args_parse argv W' = cmd_args_parse argv W) := by
  refine ⟨fun r hr hx => parse_mono argv W W' h r hr hx, fun h' => ?_⟩
  have hmap : cmd_op_accepts_map W' = cmd_op_accepts_map W := by
    funext t
    rw [Bool.eq_iff_iff, accepts_map_iff, accepts_map_iff]
    constructor
    · rintro (ht | ht)
      · exact Or.inl (h' t ht)
      · exact Or.inr ht
    · rintro (ht | ht)
      · exact Or.inl (h t ht)
      · exact Or.inr ht
  unfold cmd_args_parse
  rw [hmap]

/-- C20 on the arguments `-R /root pos` with a whitelist that lists
`ROOT_DIR` and `NO_OP` and one that lists `BATCH` as well: the result with
the first ends in `EXIT` and is the result with the second. -/
theorem C20_whitelist_monotone_witness :
    (∀ t, t ∈ whitelist [COT_ROOT_DIR, COT_NO_OP, COT_LAST]
        → t ∈ whitelist [COT_BATCH, COT_NO_OP, COT_ROOT_DIR, COT_LAST])
      ∧ cmd_args_parse ["prog", "-R", "/root", "pos"] [COT_BATCH, COT_NO_OP, COT_ROOT_DIR, COT_LAST]
        = some [⟨COT_ROOT_DIR, some "/root"⟩, ⟨COT_NO_OP, some "pos"⟩, ⟨COT_EXIT, none⟩] :=
  ⟨by decide,
    (C20_whitelist_monotone ["prog", "-R", "/root", "pos"] [COT_ROOT_DIR, COT_NO_OP, COT_LAST]
      [COT_BATCH, COT_NO_OP, COT_ROOT_DIR, COT_LAST] (by decide)).1 _ (by decide!) rfl⟩

end Updater
